import Mathlib

/-!
# A shallow embedding of the memcached flat storage engine (`flat_storage.c`)

This file models the bookkeeping semantics of the flat allocator: the
region of large chunks, the two free lists, break/unbreak of large
chunks into small chunks, the coalescer, the LRU, and the item
lifecycle operations.  Definitions are translated from
`src/flat_storage.c`; constants and the size-classification helpers
(`chunks_needed`, `is_large_chunk`, `ITEM_ntotal`) live in
`flat_storage.h`, which is not part of the source tree, so they are
kept abstract as parameters (see `Params`).

Modelling conventions:
 * Chunk-level byte payloads are not represented; the key byte run that
   `do_item_alloc` spreads over the chunk payloads is abstracted into a
   `keyBytes` field of the title header (no claim inspects payload
   bytes; the trailing-stamp flag computation, which is observable in
   `it_flags`, is modelled exactly).
 * The intrusive singly/doubly linked free lists (`next` / `prev_next`
   pointers threaded through the chunks) are represented by Lean lists
   of chunk references, in list order; the C `prev_next` splice of a
   specific node corresponds to erasing that reference from the list,
   and the C assertion `*prev_next == chunk` corresponds to a
   membership check.  The maintained counters `large_free_list_sz` /
   `small_free_list_sz` (always equal to the list lengths, spec
   invariant 3) are derived as the list lengths.
 * C `assert` failures, out-of-region chunk accesses and reads of
   non-title memory through an item pointer (undefined behaviour in C)
   are modelled as `none` ("fault"): every operation returns
   `Option`.  Loops whose termination in C depends on heap sanity are
   given explicit fuel computed from the state; running out of fuel is
   also a fault (it corresponds to a C execution that loops forever on
   a corrupted heap).
 * Memory sizes are counted in units of large chunks
   (`maxbytes`/`FLAT_STORAGE_INCREMENT_DELTA` are multiples of
   `LARGE_CHUNK_SZ`, asserted at `flat_storage_init`).
 * Statistics counters are C `uint64_t`; they are modelled as `Nat`
   (with truncated decrement).  Decrements only occur at sites where
   the verified invariants give positivity, so no wraparound is lost.
 * `rel_time_t` is a 32-bit unsigned integer; the one place where its
   wraparound is observable (`do_item_update`'s threshold subtraction)
   is modelled with an explicit `% 2^32`.
-/

set_option autoImplicit false

namespace FlatStorage

/-- 32-bit modulus for `rel_time_t` and the item `refcount` field. -/
def U32 : Nat := 2 ^ 32

/-- `(a - b) mod 2^32`, the C unsigned subtraction of two `rel_time_t`. -/
def relSub (a b : Nat) : Nat := (a % U32 + (U32 - b % U32)) % U32

/-- The item flag bits `ITEM_VALID`, `ITEM_LINKED`, `ITEM_DELETED`,
`ITEM_HAS_TIMESTAMP`, `ITEM_HAS_IP_ADDRESS` of `it_flags`. -/
structure IFlags where
  valid : Bool
  linked : Bool
  deleted : Bool
  has_timestamp : Bool
  has_ip_address : Bool
deriving DecidableEq

/-- `it_flags = ITEM_VALID`, as written by `do_item_alloc`. -/
def ITEM_VALID_only : IFlags :=
  { valid := true, linked := false, deleted := false,
    has_timestamp := false, has_ip_address := false }

/-- A reference to a chunk: either a large chunk (by region slot index)
or a small chunk (parent slot index and child index inside the broken
large chunk).  This is the model of `chunkptr_t`; an item pointer is
the reference of its title chunk. -/
inductive ChunkRef where
  | lg (id : Nat)
  | sm (parent : Nat) (idx : Nat)
deriving DecidableEq

/-- The item header shared (at identical offsets, asserted in
`item_init`) by `small_title_chunk_t` and `large_title_chunk_t`, viewed
through `empty_header`.  `keyBytes` abstracts the key byte run stored
in the chunk payloads. -/
structure ItemHeader where
  h_next : Option ChunkRef
  next : Option ChunkRef
  prev : Option ChunkRef
  next_chunk : Option ChunkRef
  time : Nat
  exptime : Nat
  nbytes : Nat
  nkey : Nat
  refcount : Nat
  it_flags : IFlags
  flags : Int
  keyBytes : List Nat
deriving DecidableEq

/-- A small chunk slot, discriminated by its `flags` byte:
`availS` = `SMALL_CHUNK_INITIALIZED` alone, `freeS` = `…|FREE`,
`titleS` = `…|USED|TITLE`, `bodyS` = `…|USED`, `pendingS` =
`…|COALESCE_PENDING`, `clearedS` = flags `0` (transient inside
`unbreak_large_chunk`). -/
inductive SmallChunk where
  | availS
  | freeS
  | titleS (hdr : ItemHeader)
  | bodyS (prev_chunk : Option ChunkRef) (next_chunk : Option ChunkRef)
  | pendingS
  | clearedS
deriving DecidableEq

/-- A large chunk slot, discriminated by its `flags` byte:
`availL` = `LARGE_CHUNK_INITIALIZED` alone, `freeL` = `…|FREE`,
`titleL` = `…|USED|TITLE`, `bodyL` = `…|USED`, `brokenL` =
`…|USED|BROKEN` with its array of small children and the
`small_chunks_allocated` counter. -/
inductive LargeChunk where
  | availL
  | freeL
  | titleL (hdr : ItemHeader)
  | bodyL (next_chunk : Option ChunkRef)
  | brokenL (children : List SmallChunk) (allocated : Nat)
deriving DecidableEq

/-- The flat-storage statistics block `fsi.stats`.  The broken-chunk
histogram (indices `0 .. SMALL_CHUNKS_PER_LARGE_CHUNK`) is a list. -/
structure Stats where
  large_title_chunks : Nat
  large_body_chunks : Nat
  small_title_chunks : Nat
  small_body_chunks : Nat
  large_broken_chunks : Nat
  break_events : Nat
  unbreak_events : Nat
  migrates : Nat
  broken_chunk_histogram : List Nat
deriving DecidableEq

/-- The global `stats_t` counters touched by the core. -/
structure GStats where
  item_storage_allocated : Nat
  item_total_size : Nat
  curr_items : Nat
  total_items : Nat
  evictions : Nat
deriving DecidableEq

/-- The global flat-storage state `fsi` (plus the global stats and the
external assoc table, modelled as an association list from key byte
runs to item references). -/
structure State where
  chunks : List LargeChunk
  unused_chunks : Nat
  large_free_list : List Nat
  small_free_list : List (Nat × Nat)
  lru_head : Option ChunkRef
  lru_tail : Option ChunkRef
  stats : Stats
  gstats : GStats
  assoc : List (List Nat × ChunkRef)
deriving DecidableEq

/-- Compile-time constants and `flat_storage.h` helpers, kept abstract.
`INCREMENT_CHUNKS` is `FLAT_STORAGE_INCREMENT_DELTA / LARGE_CHUNK_SZ`.
The two inequalities are asserted by `item_init`; `chunks_needed` is
positive because every item has a title chunk. -/
structure Params where
  SMALL_CHUNKS_PER_LARGE_CHUNK : Nat
  KEY_MAX_LENGTH : Nat
  MAX_ITEM_SIZE : Nat
  LRU_SEARCH_DEPTH : Nat
  ITEM_UPDATE_INTERVAL : Nat
  INCREMENT_CHUNKS : Nat
  LARGE_CHUNK_SZ : Nat
  LARGE_TITLE_CHUNK_DATA_SZ : Nat
  LARGE_BODY_CHUNK_DATA_SZ : Nat
  SMALL_TITLE_CHUNK_DATA_SZ : Nat
  SMALL_BODY_CHUNK_DATA_SZ : Nat
  is_large_chunk : Nat → Nat → Bool
  chunks_needed : Nat → Nat → Nat
  ITEM_ntotal : ItemHeader → Nat
  scpl_ge_two : 2 ≤ SMALL_CHUNKS_PER_LARGE_CHUNK
  chunks_needed_pos : ∀ k n, 1 ≤ chunks_needed k n

/-- The ambient environment: the clock (`current_time`) and
`settings.oldest_live`. -/
structure Env where
  current_time : Nat
  oldest_live : Nat
deriving DecidableEq

/-! ## Chunk accessors -/

/-- Read a large chunk slot; out-of-region access is a fault. -/
def getChunkL (s : State) (id : Nat) : Option LargeChunk :=
  s.chunks.get? id

/-- Write a large chunk slot (must be in the region). -/
def setChunkL (s : State) (id : Nat) (c : LargeChunk) : Option State :=
  if id < s.chunks.length then some { s with chunks := s.chunks.set id c }
  else none

/-- Read a small chunk: the parent large chunk must be broken. -/
def getChunkS (s : State) (l i : Nat) : Option SmallChunk :=
  match getChunkL s l with
  | some (.brokenL ch _) => ch.get? i
  | _ => none

/-- Write a small chunk inside its broken parent. -/
def setChunkS (s : State) (l i : Nat) (c : SmallChunk) : Option State :=
  match getChunkL s l with
  | some (.brokenL ch a) =>
      if i < ch.length then setChunkL s l (.brokenL (ch.set i c) a)
      else none
  | _ => none

/-- Overwrite the `small_chunks_allocated` counter of a broken chunk. -/
def setAllocated (s : State) (l : Nat) (a : Nat) : Option State :=
  match getChunkL s l with
  | some (.brokenL ch _) => setChunkL s l (.brokenL ch a)
  | _ => none

/-- Dereference an item pointer: the referenced chunk must be a title
chunk, whose header is returned.  Reading the header of anything else
is undefined behaviour in C, modelled as a fault. -/
def headerOf (s : State) (r : ChunkRef) : Option ItemHeader :=
  match r with
  | .lg id =>
      match getChunkL s id with
      | some (.titleL h) => some h
      | _ => none
  | .sm l i =>
      match getChunkS s l i with
      | some (.titleS h) => some h
      | _ => none

/-- Overwrite the header of a title chunk. -/
def setHeader (s : State) (r : ChunkRef) (h : ItemHeader) : Option State :=
  match r with
  | .lg id =>
      match getChunkL s id with
      | some (.titleL _) => setChunkL s id (.titleL h)
      | _ => none
  | .sm l i =>
      match getChunkS s l i with
      | some (.titleS _) => setChunkS s l i (.titleS h)
      | _ => none

/-- Whether a large chunk slot is in the broken state. -/
def isBrokenC : LargeChunk → Bool
  | .brokenL _ _ => true
  | _ => false

/-- The number of broken large chunks currently in the region (the
quantity the `large_broken_chunks` statistic is supposed to track). -/
def brokenCount (s : State) : Nat :=
  s.chunks.countP isBrokenC

/-- `large_free_list_sz`, derived as the list length. -/
def largeFreeSz (s : State) : Nat := s.large_free_list.length

/-- `small_free_list_sz`, derived as the list length. -/
def smallFreeSz (s : State) : Nat := s.small_free_list.length

/-- Increment histogram bucket `k` (`fsi.stats.broken_chunk_histogram[k]++`). -/
def histInc (hist : List Nat) (k : Nat) : List Nat :=
  hist.set k (hist.getD k 0 + 1)

/-- Decrement histogram bucket `k` (`fsi.stats.broken_chunk_histogram[k]--`). -/
def histDec (hist : List Nat) (k : Nat) : List Nat :=
  hist.set k (hist.getD k 0 - 1)

/-! ## Free lists, break and unbreak (`flat_storage.c:142-392`) -/

/-- `free_list_push(chunk, LARGE_CHUNK, false)`: the chunk must be
`INITIALIZED` and unused; it is pushed LIFO and its flags become
`INITIALIZED | FREE`. -/
def free_list_push_large (s : State) (id : Nat) : Option State := do
  match getChunkL s id with
  | some .availL =>
      let s := { s with large_free_list := id :: s.large_free_list }
      setChunkL s id .freeL
  | _ => none

/-- Children sweep of `unbreak_large_chunk`: each child must be
`FREE` or `COALESCE_PENDING`; free children are spliced out of the
small free list (the C `*prev_next` splice with its
`*prev_next == small_chunk` assertion) and their flags cleared. -/
def unbreak_child (s : State) (l i : Nat) : Option State := do
  match getChunkS s l i with
  | some .freeS =>
      if (l, i) ∈ s.small_free_list then
        let s := { s with small_free_list := s.small_free_list.erase (l, i) }
        setChunkS s l i .clearedS
      else none
  | some .pendingS => some s
  | _ => none

/-- Iterate `unbreak_child` over a list of child indices. -/
def unbreak_children (l : Nat) : List Nat → State → Option State
  | [], s => some s
  | i :: rest, s => do
      let s ← unbreak_child s l i
      unbreak_children l rest s

/-- `unbreak_large_chunk(lc, mandatory)` (`flat_storage.c:334-392`).
If not mandatory, it returns immediately when any small child is still
allocated.  Otherwise all children must be `FREE` or
`COALESCE_PENDING`; free children are spliced out of the small free
list, the chunk becomes `INITIALIZED` again and is pushed onto the
large free list; `large_broken_chunks--`, `histogram[0]--`,
`unbreak_events++`. -/
def unbreak_large_chunk (P : Params) (s : State) (l : Nat)
    (mandatory : Bool) : Option State := do
  match getChunkL s l with
  | some (.brokenL _ a) =>
      if mandatory = false ∧ a ≠ 0 then
        some s
      else if mandatory = true ∧ a ≠ 0 then
        none
      else do
        let s ← unbreak_children l (List.range P.SMALL_CHUNKS_PER_LARGE_CHUNK) s
        let s ← setChunkL s l .availL
        let s ← free_list_push_large s l
        some { s with stats := { s.stats with
          large_broken_chunks := s.stats.large_broken_chunks - 1,
          broken_chunk_histogram := histDec s.stats.broken_chunk_histogram 0,
          unbreak_events := s.stats.unbreak_events + 1 } }
  | _ => none

/-- `free_list_push(chunk, SMALL_CHUNK, try_merge)`
(`flat_storage.c:177-217`): the chunk must be `INITIALIZED` and
unused; the parent's `small_chunks_allocated` is decremented (with the
histogram moved along), the chunk is pushed LIFO onto the small free
list and marked `FREE`, and if `try_merge` the parent is
opportunistically unbroken. -/
def free_list_push_small (P : Params) (s : State) (l i : Nat)
    (try_merge : Bool) : Option State := do
  match getChunkS s l i with
  | some .availS =>
      match getChunkL s l with
      | some (.brokenL _ a) =>
          if a = 0 then none
          else do
            let s := { s with stats := { s.stats with
              broken_chunk_histogram :=
                histInc (histDec s.stats.broken_chunk_histogram a) (a - 1) } }
            let s ← setAllocated s l (a - 1)
            let s := { s with small_free_list := (l, i) :: s.small_free_list }
            let s ← setChunkS s l i .freeS
            if try_merge then unbreak_large_chunk P s l false else some s
      | _ => none
  | _ => none

/-- `free_list_pop(LARGE_CHUNK)` (`flat_storage.c:278-297`): LIFO pop;
returns `NULL` (inner `none`) on an empty list; the popped chunk loses
its `FREE` flag. -/
def free_list_pop_large (s : State) : Option (Option (Nat × State)) := do
  match s.large_free_list with
  | [] => some none
  | id :: rest =>
      match getChunkL s id with
      | some .freeL => do
          let s := { s with large_free_list := rest }
          let s ← setChunkL s id .availL
          some (some (id, s))
      | _ => none

/-- `free_list_pop(SMALL_CHUNK)` (`flat_storage.c:245-276`): LIFO pop;
the parent's `small_chunks_allocated` is incremented (histogram moved
along, asserted `≤ SMALL_CHUNKS_PER_LARGE_CHUNK`); the popped chunk
loses its `FREE` flag. -/
def free_list_pop_small (P : Params) (s : State) :
    Option (Option ((Nat × Nat) × State)) := do
  match s.small_free_list with
  | [] => some none
  | (l, i) :: rest =>
      match getChunkL s l with
      | some (.brokenL _ a) =>
          if a + 1 ≤ P.SMALL_CHUNKS_PER_LARGE_CHUNK then do
            let s := { s with stats := { s.stats with
              broken_chunk_histogram :=
                histInc (histDec s.stats.broken_chunk_histogram a) (a + 1) } }
            let s ← setAllocated s l (a + 1)
            let s := { s with small_free_list := rest }
            match getChunkS s l i with
            | some .freeS => do
                let s ← setChunkS s l i .availS
                some (some ((l, i), s))
            | _ => none
          else none
      | _ => none

/-- Child sweep of `break_large_chunk`: set each child's flags to
`SMALL_CHUNK_INITIALIZED` and push it (no merge). -/
def break_children (P : Params) (id : Nat) :
    List Nat → State → Option State
  | [], s => some s
  | i :: rest, s => do
      let s ← setChunkS s id i .availS
      let s ← free_list_push_small P s id i false
      break_children P id rest s

/-- `break_large_chunk(chunk)` (`flat_storage.c:307-329`): an unused
`INITIALIZED` large chunk becomes `USED|BROKEN`;
`small_chunks_allocated` is preset to the maximum (the "dummy kludge"
with its histogram bump) so the per-child pushes can decrement it,
each child slot is pushed (in descending index order, no merge), the
counter is reset to zero, and `large_broken_chunks++`,
`break_events++`. -/
def break_large_chunk (P : Params) (s : State) (id : Nat) : Option State := do
  match getChunkL s id with
  | some .availL => do
      let s ← setChunkL s id
        (.brokenL (List.replicate P.SMALL_CHUNKS_PER_LARGE_CHUNK .clearedS)
          P.SMALL_CHUNKS_PER_LARGE_CHUNK)
      let s := { s with stats := { s.stats with
        broken_chunk_histogram :=
          histInc s.stats.broken_chunk_histogram P.SMALL_CHUNKS_PER_LARGE_CHUNK } }
      let s ← break_children P id
        (List.range P.SMALL_CHUNKS_PER_LARGE_CHUNK).reverse s
      let s ← setAllocated s id 0
      some { s with stats := { s.stats with
        large_broken_chunks := s.stats.large_broken_chunks + 1,
        break_events := s.stats.break_events + 1 } }
  | _ => none

/-- Region growth loop of `flat_storage_alloc`: append `n` fresh
`INITIALIZED` large chunks and push each onto the large free list. -/
def grow_region : Nat → State → Option State
  | 0, s => some s
  | n + 1, s => do
      let id := s.chunks.length
      let s := { s with chunks := s.chunks ++ [LargeChunk.availL],
                        unused_chunks := s.unused_chunks - 1 }
      let s ← free_list_push_large s id
      grow_region n s

/-- `flat_storage_alloc()` (`flat_storage.c:142-165`): commit
`FLAT_STORAGE_INCREMENT_DELTA` more bytes (here: `INCREMENT_CHUNKS`
large chunks) when the unused budget allows, pushing each new chunk
onto the large free list; returns whether it grew the region. -/
def flat_storage_alloc (P : Params) (s : State) : Option (Bool × State) := do
  if P.INCREMENT_CHUNKS > s.unused_chunks then
    some (false, s)
  else do
    let s := { s with gstats := { s.gstats with
      item_storage_allocated := s.gstats.item_storage_allocated + P.INCREMENT_CHUNKS } }
    let s ← grow_region P.INCREMENT_CHUNKS s
    some (true, s)

/-- The all-zero statistics block. -/
def Stats.zero (P : Params) : Stats :=
  { large_title_chunks := 0, large_body_chunks := 0,
    small_title_chunks := 0, small_body_chunks := 0,
    large_broken_chunks := 0, break_events := 0, unbreak_events := 0,
    migrates := 0,
    broken_chunk_histogram :=
      List.replicate (P.SMALL_CHUNKS_PER_LARGE_CHUNK + 1) 0 }

/-- The all-zero global stats block. -/
def GStats.zero : GStats :=
  { item_storage_allocated := 0, item_total_size := 0, curr_items := 0,
    total_items := 0, evictions := 0 }

/-- `flat_storage_init(maxbytes)` (`flat_storage.c:47-85`), with
`maxbytes` given in units of `LARGE_CHUNK_SZ` (the byte count is
asserted to be a multiple of it).  Asserts that `maxbytes` is a
multiple of the increment delta, seeds the region with one
`flat_storage_alloc` call and asserts the large free list is
non-empty. -/
def flat_storage_init (P : Params) (maxbytes_chunks : Nat) : Option State := do
  if maxbytes_chunks % P.INCREMENT_CHUNKS ≠ 0 then none
  else do
    let s : State :=
      { chunks := [], unused_chunks := maxbytes_chunks,
        large_free_list := [], small_free_list := [],
        lru_head := none, lru_tail := none,
        stats := Stats.zero P, gstats := GStats.zero, assoc := [] }
    let (_, s) ← flat_storage_alloc P s
    if largeFreeSz s = 0 then none else some s

/-! ## LRU search and the coalescer (`flat_storage.c:398-637`) -/

/-- A generous fuel bound used for walks whose termination in C relies
on heap sanity: more than the total number of chunks in the region. -/
def chunkCap (P : Params) (s : State) : Nat :=
  (s.chunks.length + 1) * (P.SMALL_CHUNKS_PER_LARGE_CHUNK + 2)

/-- The scanning loop of `get_lru_item` (`flat_storage.c:402-413`):
walk at most `LRU_SEARCH_DEPTH` items from the tail through `prev`
links, returning the first item with `refcount == 0`. -/
def get_lru_item_go (s : State) : Nat → Option ChunkRef → Option (Option ChunkRef)
  | 0, _ => some none
  | _, none => some none
  | fuel + 1, some r =>
      match headerOf s r with
      | none => none
      | some h =>
          if h.refcount = 0 then some (some r)
          else get_lru_item_go s fuel h.prev

/-- `get_lru_item()` (`flat_storage.c:398-415`): the oldest item on the
LRU with `refcount == 0`, probing at most `LRU_SEARCH_DEPTH` items from
the tail; `NULL` if none is found in that window. -/
def get_lru_item (P : Params) (s : State) : Option (Option ChunkRef) :=
  get_lru_item_go s P.LRU_SEARCH_DEPTH s.lru_tail

/-- The `prev_chunk` walk of `small_chunk_referenced`
(`flat_storage.c:423-432`): follow `prev_chunk` links from a used
small chunk back to its title chunk and test `refcount`. -/
def small_chunk_referenced_walk (s : State) : Nat → Nat × Nat → Option Bool
  | 0, _ => none
  | fuel + 1, (l, i) =>
      match getChunkS s l i with
      | some (.titleS h) => some (decide (h.refcount ≠ 0))
      | some (.bodyS prevc _) =>
          match prevc with
          | some (.sm l2 i2) => small_chunk_referenced_walk s fuel (l2, i2)
          | _ => none
      | _ => none

/-- `small_chunk_referenced(sc)` (`flat_storage.c:418-434`): a free
chunk counts as unreferenced; otherwise walk back to the title chunk
and test its `refcount`. -/
def small_chunk_referenced (P : Params) (s : State) (l i : Nat) : Option Bool :=
  match getChunkS s l i with
  | some .freeS => some false
  | _ => small_chunk_referenced_walk s (chunkCap P s) (l, i)

/-- The child loop of `large_broken_chunk_referenced`
(`flat_storage.c:437-451`). -/
def large_broken_chunk_referenced_go (P : Params) (s : State) (l : Nat) :
    List Nat → Option Bool
  | [] => some false
  | i :: rest => do
      let b ← small_chunk_referenced P s l i
      if b then some true else large_broken_chunk_referenced_go P s l rest

/-- `large_broken_chunk_referenced(lc)`: true iff some small child of
the broken chunk is referenced. -/
def large_broken_chunk_referenced (P : Params) (s : State) (l : Nat) :
    Option Bool :=
  large_broken_chunk_referenced_go P s l
    (List.range P.SMALL_CHUNKS_PER_LARGE_CHUNK)

/-- The free-list walk of `find_unreferenced_broken_chunk`
(`flat_storage.c:463-474`), over the small free list in list order. -/
def find_unreferenced_go (P : Params) (s : State) (search_depth : Nat) :
    List (Nat × Nat) → Nat → Option (Option Nat)
  | [], _ => some none
  | (l, _) :: rest, counter =>
      if search_depth ≠ 0 ∧ search_depth ≤ counter then some none
      else do
        let b ← large_broken_chunk_referenced P s l
        if b = false then some (some l)
        else find_unreferenced_go P s search_depth rest (counter + 1)

/-- `find_unreferenced_broken_chunk(search_depth)`
(`flat_storage.c:459-477`): walk the small free list (all of it when
`search_depth` is zero) looking for a parent broken chunk all of whose
children are unreferenced. -/
def find_unreferenced_broken_chunk (P : Params) (s : State)
    (search_depth : Nat) : Option (Option Nat) :=
  find_unreferenced_go P s search_depth s.small_free_list 0

/-- Step 2 of the coalescer (`flat_storage.c:511-532`): splice every
free child of the donor out of the small free list and mark it
`COALESCE_PENDING` so it cannot be picked as a migration
destination. -/
def coalesce_strip_child (s : State) (l i : Nat) : Option State :=
  match getChunkS s l i with
  | some .freeS =>
      if (l, i) ∈ s.small_free_list then
        let s := { s with small_free_list := s.small_free_list.erase (l, i) }
        setChunkS s l i .pendingS
      else none
  | some _ => some s
  | none => none

/-- Iterate `coalesce_strip_child` over the donor's children. -/
def coalesce_strip (l : Nat) : List Nat → State → Option State
  | [], s => some s
  | i :: rest, s => do
      let s ← coalesce_strip_child s l i
      coalesce_strip l rest s

/-- LRU forward-neighbour fix-up when migrating a title chunk
(`flat_storage.c:565-572`): repoint the next item's `prev` (or
`lru_tail`) from the old slot to the replacement. -/
def coalesce_relink_next (s : State) (old new : ChunkRef)
    (nx : Option ChunkRef) : Option State :=
  match nx with
  | some nr => do
      let nh ← headerOf s nr
      if nh.prev = some old then setHeader s nr { nh with prev := some new }
      else none
  | none =>
      if s.lru_tail = some old then some { s with lru_tail := some new }
      else none

/-- LRU backward-neighbour fix-up when migrating a title chunk
(`flat_storage.c:574-581`): repoint the previous item's `next` (or
`lru_head`). -/
def coalesce_relink_prev (s : State) (old new : ChunkRef)
    (pv : Option ChunkRef) : Option State :=
  match pv with
  | some pr => do
      let ph ← headerOf s pr
      if ph.next = some old then setHeader s pr { ph with next := some new }
      else none
  | none =>
      if s.lru_head = some old then some { s with lru_head := some new }
      else none

/-- Following-body fix-up when migrating a chunk
(`flat_storage.c:583-588` and `607-611`): repoint the next body
chunk's `prev_chunk` from the old slot to the replacement. -/
def coalesce_relink_next_chunk (s : State) (old new : ChunkRef)
    (nc : Option ChunkRef) : Option State :=
  match nc with
  | some (.sm l2 i2) =>
      match getChunkS s l2 i2 with
      | some (.bodyS p n) =>
          if p = some old then setChunkS s l2 i2 (.bodyS (some new) n)
          else none
      | _ => none
  | some (.lg _) => none
  | none => some s

/-- Previous-chunk forward-link fix-up when migrating a body chunk
(`flat_storage.c:597-605`): rewrite the previous chunk's `next_chunk`
(title or body variant). -/
def coalesce_fix_prev_link (s : State) (new : ChunkRef)
    (pv : Option ChunkRef) : Option State :=
  match pv with
  | some (.sm lp ip) =>
      match getChunkS s lp ip with
      | some (.titleS th) =>
          setChunkS s lp ip (.titleS { th with next_chunk := some new })
      | some (.bodyS pp _) => setChunkS s lp ip (.bodyS pp (some new))
      | _ => none
  | _ => none

/-- Pointer fix-up when migrating a title chunk
(`flat_storage.c:556-594`): relink the LRU neighbours (or the list
ends), fix the following body chunk's `prev_chunk`, and rewrite the
assoc-table entry from the old to the new item. -/
def coalesce_fix_title (s : State) (old new : ChunkRef) (h : ItemHeader) :
    Option State := do
  let s ← coalesce_relink_next s old new h.next
  let s ← coalesce_relink_prev s old new h.prev
  let s ← coalesce_relink_next_chunk s old new h.next_chunk
  some { s with assoc := s.assoc.map (fun e => if e.2 = old then (e.1, new) else e) }

/-- Pointer fix-up when migrating a body chunk
(`flat_storage.c:595-615`): fix the previous chunk's forward link
(title `next_chunk` or body `next_chunk`) and the following body
chunk's `prev_chunk`. -/
def coalesce_fix_body (s : State) (old new : ChunkRef)
    (p n : Option ChunkRef) : Option State := do
  let s ← coalesce_fix_prev_link s new p
  let s ← coalesce_relink_next_chunk s old new n
  some s

/-- Step 3 of the coalescer for one child (`flat_storage.c:534-624`):
if the child is used, pop a fresh small chunk, byte-copy the child
into it, fix up every reference to the old slot, mark the old slot
`COALESCE_PENDING`, and decrement the donor's
`small_chunks_allocated`. -/
def coalesce_migrate_child (P : Params) (s : State) (l i : Nat) :
    Option State :=
  match getChunkS s l i with
  | some .clearedS => none
  | some (.titleS h) => do
      let r ← free_list_pop_small P s
      match r with
      | none => none
      | some ((rl, ri), s) => do
          let s ← setChunkS s rl ri (.titleS h)
          let s ← coalesce_fix_title s (.sm l i) (.sm rl ri) h
          let s ← setChunkS s l i .pendingS
          match getChunkL s l with
          | some (.brokenL _ (a + 1)) => setAllocated s l a
          | _ => none
  | some (.bodyS p n) => do
      let r ← free_list_pop_small P s
      match r with
      | none => none
      | some ((rl, ri), s) => do
          let s ← setChunkS s rl ri (.bodyS p n)
          let s ← coalesce_fix_body s (.sm l i) (.sm rl ri) p n
          let s ← setChunkS s l i .pendingS
          match getChunkL s l with
          | some (.brokenL _ (a + 1)) => setAllocated s l a
          | _ => none
  | some _ => some s
  | none => none

/-- Iterate `coalesce_migrate_child` over the donor's children. -/
def coalesce_migrate (P : Params) (l : Nat) : List Nat → State → Option State
  | [], s => some s
  | i :: rest, s => do
      let s ← coalesce_migrate_child P s l i
      coalesce_migrate P l rest s

/-- One iteration of the `coalesce_free_small_chunks` loop body
(`flat_storage.c:493-633`): find a donor (inner `none` when there is
none and the loop returns), account the migrations, strip its free
children, migrate its used children, and mandatorily unbreak it. -/
def coalesce_body (P : Params) (s : State) : Option (Option State) := do
  match find_unreferenced_broken_chunk P s 0 with
  | none => none
  | some none => some none
  | some (some l) =>
      match getChunkL s l with
      | some (.brokenL _ a) => do
          let s := { s with stats := { s.stats with
            broken_chunk_histogram := histDec s.stats.broken_chunk_histogram a,
            migrates := s.stats.migrates + a } }
          let s ←
            if a ≠ 0 then do
              let s ← coalesce_strip l
                (List.range P.SMALL_CHUNKS_PER_LARGE_CHUNK) s
              coalesce_migrate P l
                (List.range P.SMALL_CHUNKS_PER_LARGE_CHUNK) s
            else some s
          let s := { s with stats := { s.stats with
            broken_chunk_histogram := histInc s.stats.broken_chunk_histogram 0 } }
          let s ← unbreak_large_chunk P s l true
          some (some s)
      | _ => none

/-- Return values of `coalesce_free_small_chunks`
(`flat_storage.c:25-30`). -/
inductive coalesce_progress where
  | no_progress
  | large_chunk_formed
  | forward_progress
deriving DecidableEq

/-- Outcome of the fuelled coalescer loop: a fault (failed assertion),
fuel exhaustion (proved unreachable with fuel `brokenCount s + 1` in
`coalesce_terminates`), or a normal return carrying the number of loop
iterations executed. -/
inductive CoalesceRes where
  | fault
  | exhaust
  | ok (s : State) (p : coalesce_progress) (iters : Nat)
deriving DecidableEq

/-- The `while` loop of `coalesce_free_small_chunks`
(`flat_storage.c:492-634`): while at least
`SMALL_CHUNKS_PER_LARGE_CHUNK` small chunks are free, run one body
iteration; each completed iteration sets the running return value to
`LARGE_CHUNK_FORMED`. -/
def coalesce_loop (P : Params) :
    Nat → State → coalesce_progress → CoalesceRes
  | 0, _, _ => .exhaust
  | fuel + 1, s, acc =>
      if smallFreeSz s < P.SMALL_CHUNKS_PER_LARGE_CHUNK then .ok s acc 0
      else
        match coalesce_body P s with
        | none => .fault
        | some none => .ok s acc 0
        | some (some s2) =>
            match coalesce_loop P fuel s2 .large_chunk_formed with
            | .ok s3 p n => .ok s3 p (n + 1)
            | r => r

/-- `coalesce_free_small_chunks()` (`flat_storage.c:489-637`), run
with fuel `brokenCount s + 1` (shown sufficient in
`coalesce_terminates`). -/
def coalesce_free_small_chunks (P : Params) (s : State) :
    Option (State × coalesce_progress) :=
  match coalesce_loop P (brokenCount s + 1) s .no_progress with
  | .ok s2 p _ => some (s2, p)
  | _ => none

/-! ## Stamps and the item lifecycle (`flat_storage.c:691-1291`) -/

/-- `sizeof(rel_time_t)`: the trailing timestamp is 4 bytes. -/
def SIZEOF_REL_TIME : Nat := 4

/-- `sizeof(struct in_addr)`: the trailing IPv4 address is 4 bytes. -/
def SIZEOF_IN_ADDR : Nat := 4

/-- `do_stamp_on_block(block_start, block_offset, block_sz, now, addr)`
(`flat_storage.c:691-712`): which of `ITEM_HAS_TIMESTAMP` /
`ITEM_HAS_IP_ADDRESS` fit in the slack after `block_offset`.  The
offset is carried as an `Int` (the C `size_t` arithmetic can wrap; a
negative value here corresponds to a huge `size_t`, which fails the
`block_offset <= block_sz` assertion). -/
def do_stamp_on_block (block_offset : Int) (block_sz : Nat) :
    Option (Bool × Bool) :=
  if block_offset < 0 ∨ (block_sz : Int) < block_offset then none
  else
    let ts : Bool := decide ((SIZEOF_REL_TIME : Int) ≤ (block_sz : Int) - block_offset)
    let off2 : Int := if ts then block_offset + SIZEOF_REL_TIME else block_offset
    let ip : Bool := decide ((SIZEOF_IN_ADDR : Int) ≤ (block_sz : Int) - off2)
    some (ts, ip)

/-- `retflags |= …`: OR the stamp flags into `it_flags`. -/
def orStamp (f : IFlags) (ts ip : Bool) : IFlags :=
  { f with has_timestamp := f.has_timestamp || ts,
           has_ip_address := f.has_ip_address || ip }

/-- The body-chunk walk of `item_free` for a large-chunk item
(`flat_storage.c:1037-1049`): walk `next_chunk`, clear `USED` and push
each body chunk (no merge), counting the chunks freed. -/
def item_free_large_bodies : Nat → Option ChunkRef → Nat → State →
    Option (State × Nat)
  | 0, _, _, _ => none
  | _, none, freed, s => some (s, freed)
  | fuel + 1, some (.lg id), freed, s =>
      match getChunkL s id with
      | some (.bodyL nx) => do
          let s ← setChunkL s id .availL
          let s ← free_list_push_large s id
          item_free_large_bodies fuel nx (freed + 1) s
      | _ => none
  | _, some (.sm _ _), _, _ => none

/-- The body-chunk walk of `item_free` for a small-chunk item
(`flat_storage.c:1071-1084`): pushes carry `try_merge = true`, so the
parent may be opportunistically unbroken. -/
def item_free_small_bodies (P : Params) : Nat → Option ChunkRef → Nat →
    State → Option (State × Nat)
  | 0, _, _, _ => none
  | _, none, freed, s => some (s, freed)
  | fuel + 1, some (.sm l i), freed, s =>
      match getChunkS s l i with
      | some (.bodyS _ nx) => do
          let s ← setChunkS s l i .availS
          let s ← free_list_push_small P s l i true
          item_free_small_bodies P fuel nx (freed + 1) s
      | _ => none
  | _, some (.lg _), _, _ => none

/-- `item_free(it)` (`flat_storage.c:1017-1105`): asserts the item is
valid, unlinked, unreferenced and fully detached, frees the body
chunks then the title chunk (small-chunk pushes with
`try_merge = true`), and maintains the chunk-count statistics. -/
def item_free (P : Params) (s : State) (it : ChunkRef) : Option State := do
  let h ← headerOf s it
  if h.it_flags.valid = true ∧ h.it_flags.linked = false ∧
      h.it_flags.deleted = false ∧ h.refcount = 0 ∧ h.next = none ∧
      h.prev = none ∧ h.h_next = none then
    match it with
    | .lg tid => do
        let (s, freed) ←
          item_free_large_bodies (chunkCap P s) h.next_chunk 0 s
        let s := { s with stats := { s.stats with
          large_body_chunks := s.stats.large_body_chunks - freed } }
        match getChunkL s tid with
        | some (.titleL _) => do
            let s ← setChunkL s tid .availL
            let s ← free_list_push_large s tid
            some { s with stats := { s.stats with
              large_title_chunks := s.stats.large_title_chunks - 1 } }
        | _ => none
    | .sm l i => do
        let (s, freed) ←
          item_free_small_bodies P (chunkCap P s) h.next_chunk 0 s
        let s := { s with stats := { s.stats with
          small_body_chunks := s.stats.small_body_chunks - freed } }
        match getChunkS s l i with
        | some (.titleS _) => do
            let s ← setChunkS s l i .availS
            let s ← free_list_push_small P s l i true
            some { s with stats := { s.stats with
              small_title_chunks := s.stats.small_title_chunks - 1 } }
        | _ => none
  else none

/-- `item_size_ok(nkey, flags, nbytes)` (`flat_storage.c:1112-1114`). -/
def item_size_ok (P : Params) (nkey : Nat) (flags : Int) (nbytes : Nat) :
    Bool :=
  decide (nkey ≤ P.KEY_MAX_LENGTH) && decide (nbytes ≤ P.MAX_ITEM_SIZE)

/-- `item_link_q(it)` (`flat_storage.c:1124-1138`): push the item at
the LRU head (the C line 1128 compares `lru_head` with itself, a
vacuous assertion; nothing is modelled for it).  Asserts the item's
`next`/`prev` are the null sentinels. -/
def item_link_q (s : State) (it : ChunkRef) : Option State := do
  let h ← headerOf s it
  if h.next = none ∧ h.prev = none then do
    let s ←
      match s.lru_head with
      | some hd => do
          let s ← setHeader s it { h with next := some hd }
          let hh ← headerOf s hd
          setHeader s hd { hh with prev := some it }
      | none => some s
    let s := { s with lru_head := some it }
    if s.lru_tail = none then some { s with lru_tail := some it } else some s
  else none

/-- `item_unlink_q(it)` (`flat_storage.c:1141-1165`): standard
doubly-linked removal, updating `lru_head`/`lru_tail` when the item is
at an end (with the C head/tail sanity assertions), then clearing the
item's own links. -/
def item_unlink_q (s : State) (it : ChunkRef) : Option State := do
  let h ← headerOf s it
  let s ←
    if s.lru_head = some it then
      if h.prev = none then some { s with lru_head := h.next } else none
    else some s
  let s ←
    if s.lru_tail = some it then
      if h.next = none then some { s with lru_tail := h.prev } else none
    else some s
  let s ←
    match h.next with
    | some nr => do
        let nh ← headerOf s nr
        setHeader s nr { nh with prev := h.prev }
    | none => some s
  let s ←
    match h.prev with
    | some pr => do
        let ph ← headerOf s pr
        setHeader s pr { ph with next := h.next }
    | none => some s
  let h2 ← headerOf s it
  setHeader s it { h2 with prev := none, next := none }

/-- `do_item_link(it, key)` (`flat_storage.c:1171-1189`): asserts
`VALID ∧ ¬LINKED`, sets `LINKED`, stamps `time = current_time`,
inserts into the assoc table, accounts the global stats and pushes
onto the LRU. -/
def do_item_link (env : Env) (s : State) (it : ChunkRef)
    (key : List Nat) : Option State := do
  let h ← headerOf s it
  if h.it_flags.valid = true ∧ h.it_flags.linked = false then do
    let h := { h with it_flags := { h.it_flags with linked := true },
                      time := env.current_time }
    let s ← setHeader s it h
    let s := { s with assoc := (key, it) :: s.assoc }
    let s := { s with gstats := { s.gstats with
      item_total_size := s.gstats.item_total_size + (h.nkey + h.nbytes),
      curr_items := s.gstats.curr_items + 1,
      total_items := s.gstats.total_items + 1 } }
    item_link_q s it
  else none

/-- The `flags` argument of `do_item_unlink`
(`UNLINK_NORMAL`, `UNLINK_MAYBE_EVICT`, `UNLINK_IS_EVICT`,
`UNLINK_IS_EXPIRED`). -/
inductive UnlinkFlags where
  | normal
  | maybe_evict
  | is_evict
  | is_expired
deriving DecidableEq

/-- `do_item_unlink(it, flags, key)` (`flat_storage.c:1198-1248`):
no-op unless `LINKED`; otherwise clears `LINKED`, resolves
`MAYBE_EVICT` into evict/expired from `exptime`, accounts stats,
deletes from the assoc table (looking the key up from the item when
not supplied), clears `h_next`, removes from the LRU, and frees the
item when its refcount is zero.  (`stats_expire` and the
per-key-class removal stats are external stats sinks and are not
modelled.) -/
def do_item_unlink (P : Params) (env : Env) (s : State) (it : ChunkRef)
    (uflags : UnlinkFlags) (keyArg : Option (List Nat)) : Option State := do
  let h ← headerOf s it
  let key := match keyArg with | some k => k | none => h.keyBytes
  if h.it_flags.valid = false then none
  else if h.it_flags.linked then do
    let h := { h with it_flags := { h.it_flags with linked := false } }
    let s ← setHeader s it h
    let uflags :=
      match uflags with
      | .maybe_evict =>
          if h.exptime = 0 ∨ h.exptime > env.current_time then
            UnlinkFlags.is_evict
          else UnlinkFlags.is_expired
      | f => f
    let s := { s with gstats := { s.gstats with
      item_total_size := s.gstats.item_total_size - (h.nkey + h.nbytes),
      curr_items := s.gstats.curr_items - 1 } }
    let s :=
      match uflags with
      | .is_evict =>
          { s with gstats := { s.gstats with
              evictions := s.gstats.evictions + 1 } }
      | _ => s
    let s := { s with assoc := s.assoc.eraseP (fun e => decide (e.1 = key)) }
    let h1 ← headerOf s it
    let s ← setHeader s it { h1 with h_next := none }
    let s ← item_unlink_q s it
    let h2 ← headerOf s it
    if h2.refcount = 0 then item_free P s it else some s
  else some s

/-- `refcount--` as executed on the 32-bit field (wraps at zero; the
guard in `do_item_deref` prevents that). -/
def refcount_dec (r : Nat) : Nat := (r + (U32 - 1)) % U32

/-- `refcount++` as executed on the 32-bit field. -/
def refcount_inc (r : Nat) : Nat := (r + 1) % U32

/-- `do_item_deref(it)` (`flat_storage.c:1252-1265`): decrement the
refcount unless it is already zero; free the item when the refcount is
zero and it is no longer linked. -/
def do_item_deref (P : Params) (s : State) (it : ChunkRef) :
    Option State := do
  let h ← headerOf s it
  if h.it_flags.valid = false then none
  else do
    let h := if h.refcount ≠ 0 then { h with refcount := refcount_dec h.refcount } else h
    let s ← setHeader s it h
    if h.it_flags.deleted = true ∧ h.refcount = 0 then none
    else if h.refcount = 0 ∧ h.it_flags.linked = false then item_free P s it
    else some s

/-- `do_item_update(it)` (`flat_storage.c:1269-1279`): when
`it->time < current_time - ITEM_UPDATE_INTERVAL` (32-bit unsigned
arithmetic) and the item is linked, reposition it at the LRU head and
refresh `time`. -/
def do_item_update (P : Params) (env : Env) (s : State) (it : ChunkRef) :
    Option State := do
  let h ← headerOf s it
  if h.time % U32 < relSub env.current_time P.ITEM_UPDATE_INTERVAL then
    if h.it_flags.valid = false then none
    else if h.it_flags.linked then do
      let s ← item_unlink_q s it
      let h2 ← headerOf s it
      let s ← setHeader s it { h2 with time := env.current_time }
      item_link_q s it
    else some s
  else some s

/-- `do_item_replace(it, new_it, key)` (`flat_storage.c:1281-1291`):
unlink the old item (which must be valid and linked) and link the new
one (which must be valid). -/
def do_item_replace (P : Params) (env : Env) (s : State)
    (it new_it : ChunkRef) (key : List Nat) : Option State := do
  let h ← headerOf s it
  if h.it_flags.valid = true ∧ h.it_flags.linked = true then do
    let s ← do_item_unlink P env s it .normal (some key)
    let hn ← headerOf s new_it
    if hn.it_flags.valid = true then do_item_link env s new_it key else none
  else none

/-! ## Eviction, allocation, lookup and sweeps
(`flat_storage.c:640-688`, `795-1012`, `1294-1454`) -/

/-- `chunk_type_t`. -/
inductive chunk_type_t where
  | SMALL_CHUNK
  | LARGE_CHUNK
deriving DecidableEq

/-- `flat_storage_lru_evict(chunk_type, nchunks)`
(`flat_storage.c:640-688`): repeatedly take the LRU eviction candidate
and unlink it with `MAYBE_EVICT` until the target class's capacity is
satisfied (for the large class, attempting a coalesce when combined
capacity suffices); fails when no candidate exists.  The fuel models
the C loop, which terminates only by progress through the heap. -/
def flat_storage_lru_evict (P : Params) (env : Env)
    (chunk_type : chunk_type_t) (nchunks : Nat) :
    Nat → State → Option (Bool × State)
  | 0, _ => none
  | fuel + 1, s => do
      let r ← get_lru_item P s
      match r with
      | none => some (false, s)
      | some it => do
          let s ← do_item_unlink P env s it .maybe_evict none
          match chunk_type with
          | .SMALL_CHUNK =>
              if nchunks ≤ largeFreeSz s * P.SMALL_CHUNKS_PER_LARGE_CHUNK +
                  smallFreeSz s then
                some (true, s)
              else flat_storage_lru_evict P env chunk_type nchunks fuel s
          | .LARGE_CHUNK =>
              if nchunks ≤ largeFreeSz s then some (true, s)
              else if nchunks * P.SMALL_CHUNKS_PER_LARGE_CHUNK ≤
                  largeFreeSz s * P.SMALL_CHUNKS_PER_LARGE_CHUNK +
                  smallFreeSz s then do
                let (s2, prog) ← coalesce_free_small_chunks P s
                match prog with
                | .no_progress =>
                    flat_storage_lru_evict P env chunk_type nchunks fuel s2
                | _ =>
                    if nchunks ≤ largeFreeSz s2 then some (true, s2)
                    else flat_storage_lru_evict P env chunk_type nchunks fuel s2
              else flat_storage_lru_evict P env chunk_type nchunks fuel s

/-- Fuel bound for the acquisition loops of `do_item_alloc`: generous
with respect to every progress source (region growth, breaks,
coalesces, evictions). -/
def allocFuel (P : Params) (s : State) : Nat :=
  (s.chunks.length + s.unused_chunks + 2) * (P.SMALL_CHUNKS_PER_LARGE_CHUNK + 3)

/-- The large-class acquisition loop of `do_item_alloc`
(`flat_storage.c:820-844`): until `large_free_list_sz ≥ needed`, try
`flat_storage_alloc`, then a coalesce when combined capacity (in small
units) suffices, then LRU eviction; give up (returning `false` with
the mutated state) when none of them makes progress.  The loop asserts
progress on every iteration (`prev_free` bookkeeping). -/
def acquire_large (P : Params) (env : Env) (needed : Nat) :
    Nat → Option Nat → State → Option (Bool × State)
  | 0, _, _ => none
  | fuel + 1, prev_free, s =>
      if needed ≤ largeFreeSz s then some (true, s)
      else if prev_free = some (largeFreeSz s) then none
      else do
        let pf := some (largeFreeSz s)
        let (grew, s) ← flat_storage_alloc P s
        if grew then acquire_large P env needed fuel pf s
        else do
          let s ←
            if needed * P.SMALL_CHUNKS_PER_LARGE_CHUNK ≤
                largeFreeSz s * P.SMALL_CHUNKS_PER_LARGE_CHUNK +
                smallFreeSz s then do
              let (s2, _) ← coalesce_free_small_chunks P s
              some s2
            else some s
          if pf ≠ some (largeFreeSz s) then acquire_large P env needed fuel pf s
          else do
            let (evicted, s) ←
              flat_storage_lru_evict P env .LARGE_CHUNK needed
                (chunkCap P s + 1) s
            if evicted then acquire_large P env needed fuel pf s
            else some (false, s)

/-- The small-class acquisition loop of `do_item_alloc`
(`flat_storage.c:922-947`): until `small_free_list_sz ≥ needed`, break
a large chunk when one is free, else try `flat_storage_alloc`, else
LRU eviction; give up when none of them works.  The loop asserts that
one of the two free-list sizes changed on every iteration. -/
def acquire_small (P : Params) (env : Env) (needed : Nat) :
    Nat → Option (Nat × Nat) → State → Option (Bool × State)
  | 0, _, _ => none
  | fuel + 1, prev_sizes, s =>
      if needed ≤ smallFreeSz s then some (true, s)
      else if prev_sizes = some (smallFreeSz s, largeFreeSz s) then none
      else do
        let pv := some (smallFreeSz s, largeFreeSz s)
        if 0 < largeFreeSz s then do
          let r ← free_list_pop_large s
          match r with
          | none => none
          | some (id, s) => do
              let s ← break_large_chunk P s id
              acquire_small P env needed fuel pv s
        else do
          let (grew, s) ← flat_storage_alloc P s
          if grew then acquire_small P env needed fuel pv s
          else do
            let (evicted, s) ←
              flat_storage_lru_evict P env .SMALL_CHUNK needed
                (chunkCap P s + 1) s
            if evicted then acquire_small P env needed fuel pv s
            else some (false, s)

/-- `*(prev_next) = v`: write through the saved pointer to the
previous chunk's `next_chunk` field (title or body, large or small),
as used by the chaining loops of `do_item_alloc`. -/
def patch_next_field (s : State) (r : ChunkRef) (v : Option ChunkRef) :
    Option State :=
  match r with
  | .lg id =>
      match getChunkL s id with
      | some (.titleL h) => setChunkL s id (.titleL { h with next_chunk := v })
      | some (.bodyL _) => setChunkL s id (.bodyL v)
      | _ => none
  | .sm l i =>
      match getChunkS s l i with
      | some (.titleS h) => setChunkS s l i (.titleS { h with next_chunk := v })
      | some (.bodyS p _) => setChunkS s l i (.bodyS p v)
      | _ => none

/-- The body-chunk chaining loop of the large branch of
`do_item_alloc` (`flat_storage.c:878-899`): pop a chunk, mark it
`USED`, link it behind the previous chunk, stamp the title's flags on
the final block, and finally null-terminate the chain.  (The key byte
run copied into the payloads is abstracted into the title header.) -/
def alloc_large_bodies (P : Params) (titleRef : ChunkRef) :
    Nat → ChunkRef → Int → State → Option State
  | 0, prevRef, _, s => patch_next_field s prevRef none
  | needed + 1, prevRef, write_offset, s => do
      let r ← free_list_pop_large s
      match r with
      | none => none
      | some (id, s) => do
          let s ← setChunkL s id (.bodyL none)
          let s ← patch_next_field s prevRef (some (.lg id))
          let s ←
            if needed + 1 = 1 then do
              let (ts, ip) ←
                do_stamp_on_block write_offset P.LARGE_BODY_CHUNK_DATA_SZ
              let th ← headerOf s titleRef
              setHeader s titleRef
                { th with it_flags := orStamp th.it_flags ts ip }
            else some s
          alloc_large_bodies P titleRef needed (.lg id)
            (write_offset - (P.LARGE_BODY_CHUNK_DATA_SZ : Int)) s

/-- The body-chunk chaining loop of the small branch of
`do_item_alloc` (`flat_storage.c:982-1007`): like the large one, but
each body chunk also records `prev_chunk`. -/
def alloc_small_bodies (P : Params) (titleRef : ChunkRef) :
    Nat → ChunkRef → Int → State → Option State
  | 0, prevRef, _, s => patch_next_field s prevRef none
  | needed + 1, prevRef, write_offset, s => do
      let r ← free_list_pop_small P s
      match r with
      | none => none
      | some ((l, i), s) => do
          let s ← setChunkS s l i (.bodyS (some prevRef) none)
          let s ← patch_next_field s prevRef (some (.sm l i))
          let s ←
            if needed + 1 = 1 then do
              let (ts, ip) ←
                do_stamp_on_block write_offset P.SMALL_BODY_CHUNK_DATA_SZ
              let th ← headerOf s titleRef
              setHeader s titleRef
                { th with it_flags := orStamp th.it_flags ts ip }
            else some s
          alloc_small_bodies P titleRef needed (.sm l i)
            (write_offset - (P.SMALL_BODY_CHUNK_DATA_SZ : Int)) s

/-- `do_item_alloc(key, nkey, flags, exptime, nbytes, addr)`
(`flat_storage.c:795-1012`): validate the size, pick the chunk class,
run the class's acquisition strategy, then pop and chain the chunks,
writing the title header (`refcount = 1`, `it_flags = ITEM_VALID`, the
argument fields, null links) and stamping the final block.  Returns
`NULL` (inner `none`) on size failure or acquisition failure.  The
title's `time` field is left unwritten by the C code; the model uses
`0` for it. -/
def do_item_alloc (P : Params) (env : Env) (key : List Nat) (nkey : Nat)
    (flags : Int) (exptime : Nat) (nbytes : Nat) (s : State) :
    Option (Option ChunkRef × State) := do
  if item_size_ok P nkey flags nbytes = false then some (none, s)
  else if P.is_large_chunk nkey nbytes then do
    let needed := P.chunks_needed nkey nbytes
    let (got, s) ← acquire_large P env needed (allocFuel P s) none s
    if got = false then some (none, s)
    else do
      let r ← free_list_pop_large s
      match r with
      | none => none
      | some (tid, s) => do
          let h : ItemHeader :=
            { h_next := none, next := none, prev := none, next_chunk := none,
              time := 0, exptime := exptime, nbytes := nbytes, nkey := nkey,
              refcount := 1, it_flags := ITEM_VALID_only, flags := flags,
              keyBytes := key.take nkey }
          let s ← setChunkL s tid (.titleL h)
          let write_offset : Int := (nkey : Int) + (nbytes : Int)
          let s ←
            if needed = 1 then do
              let (ts, ip) ←
                do_stamp_on_block write_offset P.LARGE_TITLE_CHUNK_DATA_SZ
              setChunkL s tid
                (.titleL { h with it_flags := orStamp h.it_flags ts ip })
            else some s
          let s := { s with stats := { s.stats with
            large_title_chunks := s.stats.large_title_chunks + 1,
            large_body_chunks := s.stats.large_body_chunks + (needed - 1) } }
          let s ← alloc_large_bodies P (.lg tid) (needed - 1) (.lg tid)
            (write_offset - (P.LARGE_TITLE_CHUNK_DATA_SZ : Int)) s
          some (some (.lg tid), s)
  else do
    let needed := P.chunks_needed nkey nbytes
    let (got, s) ← acquire_small P env needed (allocFuel P s) none s
    if got = false then some (none, s)
    else do
      let r ← free_list_pop_small P s
      match r with
      | none => none
      | some ((tl, ti), s) => do
          let h : ItemHeader :=
            { h_next := none, next := none, prev := none, next_chunk := none,
              time := 0, exptime := exptime, nbytes := nbytes, nkey := nkey,
              refcount := 1, it_flags := ITEM_VALID_only, flags := flags,
              keyBytes := key.take nkey }
          let s ← setChunkS s tl ti (.titleS h)
          let write_offset : Int := (nkey : Int) + (nbytes : Int)
          let s ←
            if needed = 1 then do
              let (ts, ip) ←
                do_stamp_on_block write_offset P.SMALL_TITLE_CHUNK_DATA_SZ
              setChunkS s tl ti
                (.titleS { h with it_flags := orStamp h.it_flags ts ip })
            else some s
          let s := { s with stats := { s.stats with
            small_title_chunks := s.stats.small_title_chunks + 1,
            small_body_chunks := s.stats.small_body_chunks + (needed - 1) } }
          let s ← alloc_small_bodies P (.sm tl ti) (needed - 1) (.sm tl ti)
            (write_offset - (P.SMALL_TITLE_CHUNK_DATA_SZ : Int)) s
          some (some (.sm tl ti), s)

/-- `assoc_find(key, nkey)`: the external assoc table contract. -/
def assoc_find (s : State) (key : List Nat) : Option ChunkRef :=
  (s.assoc.find? (fun e => decide (e.1 = key))).map (·.2)

/-- `item_delete_lock_over(it)` (`flat_storage.c:1458-1461`). -/
def item_delete_lock_over (env : Env) (h : ItemHeader) : Option Bool :=
  if h.it_flags.deleted = false then none
  else some (decide (h.exptime ≤ env.current_time))

/-- `do_item_get_notedeleted(key, nkey, &delete_locked)`
(`flat_storage.c:1419-1445`): assoc lookup, delete-lock check, global
`oldest_live` sweep, per-item `exptime` expiry (both of which unlink
the expired item), and a refcount bump on a hit. -/
def do_item_get_notedeleted (P : Params) (env : Env) (s : State)
    (key : List Nat) : Option (Option ChunkRef × State × Bool) := do
  match assoc_find s key with
  | none => some (none, s, false)
  | some it => do
      let h ← headerOf s it
      if h.it_flags.deleted then do
        let over ← item_delete_lock_over env h
        if over = false then some (none, s, true)
        else do_item_get_live P env s key it h
      else do_item_get_live P env s key it h
where
  /-- The `oldest_live`, `exptime` and refcount steps of
  `do_item_get_notedeleted` on a non-delete-locked hit. -/
  do_item_get_live (P : Params) (env : Env) (s : State) (key : List Nat)
      (it : ChunkRef) (h : ItemHeader) :
      Option (Option ChunkRef × State × Bool) := do
    if env.oldest_live ≠ 0 ∧ env.oldest_live ≤ env.current_time ∧
        h.time ≤ env.oldest_live then do
      let s ← do_item_unlink P env s it .is_expired (some key)
      some (none, s, false)
    else if h.exptime ≠ 0 ∧ h.exptime ≤ env.current_time then do
      let s ← do_item_unlink P env s it .is_expired (some key)
      some (none, s, false)
    else do
      let s ← setHeader s it { h with refcount := refcount_inc h.refcount }
      some (some it, s, false)

/-- `item_get(key, nkey)` (`flat_storage.c:1414-1416`). -/
def item_get (P : Params) (env : Env) (s : State) (key : List Nat) :
    Option (Option ChunkRef × State) :=
  (do_item_get_notedeleted P env s key).map (fun r => (r.1, r.2.1))

/-- One pass of `do_item_flush_expired` (`flat_storage.c:1384-1410`):
walk from the LRU head through the given title view's `next` field,
unlinking items whose `time` is at least `oldest_live`, stopping at
the first older item. -/
def flush_expired_pass (P : Params) (env : Env)
    (nextF : ItemHeader → Option ChunkRef) :
    Nat → Option ChunkRef → State → Option State
  | 0, _, _ => none
  | _, none, s => some s
  | fuel + 1, some it, s => do
      let h ← headerOf s it
      if env.oldest_live ≤ h.time then do
        let nxt := nextF h
        if h.it_flags.valid = true ∧ h.it_flags.linked = true then do
          let s ← do_item_unlink P env s it .is_expired none
          flush_expired_pass P env nextF fuel nxt s
        else none
      else some s

/-- The `small_title` view of the shared `next` field.  `item_init`
asserts that `small_title.next`, `large_title.next` and
`empty_header.next` live at the same offset; in the model the shared
header realizes that aliasing. -/
def small_title_next (h : ItemHeader) : Option ChunkRef := h.next

/-- The `large_title` view of the shared `next` field (see
`small_title_next`). -/
def large_title_next (h : ItemHeader) : Option ChunkRef := h.next

/-- `do_item_flush_expired()` (`flat_storage.c:1379-1411`): nothing if
`oldest_live` is zero; otherwise two passes from the LRU head, one
through the `small_title` view and one through the `large_title`
view. -/
def do_item_flush_expired (P : Params) (env : Env) (s : State) :
    Option State := do
  if env.oldest_live = 0 then some s
  else do
    let s ← flush_expired_pass P env small_title_next (chunkCap P s)
      s.lru_head s
    flush_expired_pass P env large_title_next (chunkCap P s) s.lru_head s

/-! ## `do_item_stats_sizes` (`flat_storage.c:1332-1376`) -/

/-- The bucket count of `do_item_stats_sizes`:
`(sizeof(large_chunk_t) + KEY_MAX_LENGTH + MAX_ITEM_SIZE + 32 - 1) / 32`. -/
def stats_sizes_num_buckets (P : Params) : Nat :=
  (P.LARGE_CHUNK_SZ + P.KEY_MAX_LENGTH + P.MAX_ITEM_SIZE + 32 - 1) / 32

/-- The bucket computation of `do_item_stats_sizes`
(`flat_storage.c:1350-1352`): `ntotal / 32`, rounded up. -/
def stats_sizes_bucket (P : Params) (h : ItemHeader) : Nat :=
  let ntotal := P.ITEM_ntotal h
  if ntotal % 32 ≠ 0 then ntotal / 32 + 1 else ntotal / 32

/-- One histogram-building pass of `do_item_stats_sizes`
(`flat_storage.c:1348-1355` and `1357-1364`): walk from the LRU head
through the given title view's `next` field, bumping each in-range
bucket. -/
def stats_sizes_pass (P : Params) (s : State)
    (nextF : ItemHeader → Option ChunkRef) :
    Nat → Option ChunkRef → List Nat → Option (List Nat)
  | 0, _, _ => none
  | _, none, hist => some hist
  | fuel + 1, some it, hist => do
      let h ← headerOf s it
      let hist :=
        if stats_sizes_bucket P h < stats_sizes_num_buckets P then
          histInc hist (stats_sizes_bucket P h)
        else hist
      stats_sizes_pass P s nextF fuel (nextF h) hist

/-- The histogram built by `do_item_stats_sizes` (`flat_storage.c:
1332-1376`): one pass through the `small_title` view of `next`, then a
second pass through the `large_title` view, accumulating into the same
histogram.  (The text rendering of the buckets is out of scope; the
claims are about the bucket values.) -/
def do_item_stats_sizes (P : Params) (s : State) : Option (List Nat) := do
  let hist := List.replicate (stats_sizes_num_buckets P) 0
  let hist ← stats_sizes_pass P s small_title_next (chunkCap P s)
    s.lru_head hist
  stats_sizes_pass P s large_title_next (chunkCap P s) s.lru_head hist

/-! ## Specification-side views used by the claims -/

/-- The in-range size buckets of the items on the LRU chain, from the
head through the shared `next` field, in order (the single-pass view
that `do_item_stats_sizes` doubles). -/
def lru_chain_buckets (P : Params) (s : State) :
    Nat → Option ChunkRef → Option (List Nat)
  | 0, _ => none
  | _, none => some []
  | fuel + 1, some it => do
      let h ← headerOf s it
      let rest ← lru_chain_buckets P s fuel h.next
      some ((if stats_sizes_bucket P h < stats_sizes_num_buckets P then
        [stats_sizes_bucket P h] else []) ++ rest)

/-- The window that `get_lru_item` probes: up to `n` items walking
from a start reference through `prev` links, with their headers. -/
def lru_window_pairs (s : State) :
    Nat → Option ChunkRef → Option (List (ChunkRef × ItemHeader))
  | 0, _ => some []
  | _, none => some []
  | fuel + 1, some r => do
      let h ← headerOf s r
      let rest ← lru_window_pairs s fuel h.prev
      some ((r, h) :: rest)

/-! ## Concrete parameters for witnesses -/

/-- Concrete compile-time constants in the style of the spec's
end-to-end scenarios (scaled down), used by the witnesses. -/
def Pw : Params where
  SMALL_CHUNKS_PER_LARGE_CHUNK := 2
  KEY_MAX_LENGTH := 4
  MAX_ITEM_SIZE := 100
  LRU_SEARCH_DEPTH := 2
  ITEM_UPDATE_INTERVAL := 60
  INCREMENT_CHUNKS := 1
  LARGE_CHUNK_SZ := 16
  LARGE_TITLE_CHUNK_DATA_SZ := 8
  LARGE_BODY_CHUNK_DATA_SZ := 10
  SMALL_TITLE_CHUNK_DATA_SZ := 5
  SMALL_BODY_CHUNK_DATA_SZ := 6
  is_large_chunk := fun k n => decide (5 < k + n)
  chunks_needed := fun k n => 1 + (k + n) / 8
  ITEM_ntotal := fun h => h.nkey + h.nbytes + 2
  scpl_ge_two := by decide
  chunks_needed_pos := fun k n => Nat.le_add_right 1 ((k + n) / 8)

/-- A fixed clock for the witnesses. -/
def Ew : Env := { current_time := 1000, oldest_live := 0 }

/-! ## Witness fixtures: concrete states reached by running the
operations on `Pw` -/

/-- The empty state, used only as an unreachable fallback when
extracting the result of an operation known to succeed. -/
def State.empty : State :=
  { chunks := [], unused_chunks := 0, large_free_list := [],
    small_free_list := [], lru_head := none, lru_tail := none,
    stats := Stats.zero Pw, gstats := GStats.zero, assoc := [] }

/-- Extract the state of a successful operation. -/
def ofSome (r : Option State) : State :=
  match r with
  | some s => s
  | none => State.empty

/-- The state produced by `flat_storage_init Pw 4`. -/
def S0w : State :=
  match flat_storage_init Pw 4 with
  | some s => s
  | none => State.empty

/-- A small item allocated in `S0w` (key `[7]`, `nkey 1`, `nbytes 2`):
this breaks large chunk 0 and builds the title at small chunk
`(0, 0)`. -/
def S1w : State :=
  match do_item_alloc Pw Ew [7] 1 0 0 2 S0w with
  | some (_, s) => s
  | none => State.empty

/-- The item allocated in `S1w`. -/
def IT1 : ChunkRef := .sm 0 0

/-- `S1w` with the item linked (so it is on the LRU and in the assoc
table, with `time = 1000`). -/
def S2w : State := ofSome (do_item_link Ew S1w IT1 [7])

/-- `S2w` after `do_item_deref` (refcount drops to zero; the item
stays linked). -/
def S4w : State := ofSome (do_item_deref Pw S2w IT1)

/-- `S2w` after `do_item_unlink` (the item survives with refcount 1,
`ITEM_LINKED` clear, off the LRU and assoc). -/
def S3w : State := ofSome (do_item_unlink Pw Ew S2w IT1 .normal none)

/-- A dummy header, used only as an unreachable fallback. -/
def ItemHeader.empty : ItemHeader :=
  { h_next := none, next := none, prev := none, next_chunk := none,
    time := 0, exptime := 0, nbytes := 0, nkey := 0, refcount := 0,
    it_flags := ITEM_VALID_only, flags := 0, keyBytes := [] }

/-- Extract a header known to exist. -/
def ofSomeH (r : Option ItemHeader) : ItemHeader :=
  match r with
  | some h => h
  | none => ItemHeader.empty

/-- The LRU window of `S4w` (a single unpinned item). -/
def W4 : List (ChunkRef × ItemHeader) :=
  match lru_window_pairs S4w Pw.LRU_SEARCH_DEPTH S4w.lru_tail with
  | some w => w
  | none => []

/-- The header of the surviving unlinked item of `S3w`. -/
def H3 : ItemHeader := ofSomeH (headerOf S3w IT1)

/-- The header of the linked, unpinned item of `S4w`. -/
def H4 : ItemHeader := ofSomeH (headerOf S4w IT1)

/-- The header of the linked, pinned item of `S2w`. -/
def H2 : ItemHeader := ofSomeH (headerOf S2w IT1)

/-- A later clock, far past `ITEM_UPDATE_INTERVAL` after the fixture
items' `time = 1000`. -/
def Ew2 : Env := { current_time := 2000, oldest_live := 0 }

/-- `S2w` repositioned by `do_item_update` at the later clock. -/
def SU7 : State := ofSome (do_item_update Pw Ew2 S2w IT1)

/-- The `stats_sizes` histogram of `S2w`. -/
def H6 : List Nat :=
  match do_item_stats_sizes Pw S2w with
  | some h => h
  | none => []

/-- The single-pass bucket list of `S2w`. -/
def B6 : List Nat :=
  match lru_chain_buckets Pw S2w (chunkCap Pw S2w) S2w.lru_head with
  | some b => b
  | none => []

/-- Proof-side view: a step neither changes the broken-chunk census
nor un-breaks any individual broken slot (stated on the chunk arrays,
so that record updates of the other state fields are transparent). -/
def BrokenPreserved (c c2 : List LargeChunk) : Prop :=
  c2.countP isBrokenC = c.countP isBrokenC ∧
  ∀ l, (∃ ch a, c.get? l = some (.brokenL ch a)) →
    ∃ ch a, c2.get? l = some (.brokenL ch a)

/-- A broken chunk with two free children and enough small free
chunks: the coalescer reclaims it in one iteration. -/
def SC8 : State :=
  { chunks := [.brokenL [.freeS, .freeS] 0], unused_chunks := 0,
    large_free_list := [], small_free_list := [(0, 0), (0, 1)],
    lru_head := none, lru_tail := none,
    stats := { (Stats.zero Pw) with
      large_broken_chunks := 1,
      break_events := 1,
      broken_chunk_histogram := [1, 0, 0] },
    gstats := GStats.zero, assoc := [] }

/-- `SC8` after the coalescer has run. -/
def SC8r : State :=
  match coalesce_free_small_chunks Pw SC8 with
  | some (s, _) => s
  | none => State.empty

/-! ## Chain shape (the chunk chain built by `do_item_alloc`) -/

/-- The forward `next_chunk` link stored in a used chunk: in a title
chunk it lives in the header, in a body chunk in the payload prefix.
Reading it from a free or uninitialised chunk is a fault. -/
def chunk_next (s : State) (r : ChunkRef) : Option (Option ChunkRef) :=
  match r with
  | .lg id =>
      match getChunkL s id with
      | some (.titleL h) => some h.next_chunk
      | some (.bodyL nx) => some nx
      | _ => none
  | .sm l i =>
      match getChunkS s l i with
      | some (.titleS h) => some h.next_chunk
      | some (.bodyS _ nx) => some nx
      | _ => none

/-- Whether the chunk at `r` carries the `USED` flag (it is a title or
a body chunk of either class). -/
def chunk_used (s : State) (r : ChunkRef) : Bool :=
  match r with
  | .lg id =>
      match getChunkL s id with
      | some (.titleL _) => true
      | some (.bodyL _) => true
      | _ => false
  | .sm l i =>
      match getChunkS s l i with
      | some (.titleS _) => true
      | some (.bodyS _ _) => true
      | _ => false

/-- The number of chunks on the `next_chunk` chain starting at `r`
(`NULL_CHUNKPTR` ends the chain; a dangling link or an exhausted fuel
is a fault). -/
def chain_length (s : State) : Nat → Option ChunkRef → Option Nat
  | _, none => some 0
  | 0, some _ => none
  | fuel + 1, some r => do
      let nx ← chunk_next s r
      let n ← chain_length s fuel nx
      some (n + 1)

/-- Proof-side view: the chunk at `q` reads the same in both states
(used flag, forward link, header). -/
def AccEq (s s2 : State) (q : ChunkRef) : Prop :=
  chunk_used s2 q = chunk_used s q ∧ chunk_next s2 q = chunk_next s q ∧
  headerOf s2 q = headerOf s q

/-- Proof-side view: the header fields written once by `do_item_alloc`
(everything except `next_chunk`, which the chaining loop patches, and
the stamp bits of `it_flags`) survive into `hd2`. -/
def HdPres (hd hd2 : ItemHeader) : Prop :=
  hd2.refcount = hd.refcount ∧ hd2.nkey = hd.nkey ∧
  hd2.nbytes = hd.nbytes ∧ hd2.exptime = hd.exptime ∧
  hd2.flags = hd.flags ∧ hd2.h_next = hd.h_next ∧
  hd2.next = hd.next ∧ hd2.prev = hd.prev ∧
  hd2.it_flags.valid = hd.it_flags.valid

/-! ## Reachability and the break/unbreak parity invariant -/

/-- The break/unbreak parity invariant: the event counters and the
`large_broken_chunks` statistic agree with the actual broken-chunk
census of the region. -/
def ParityOK (s : State) : Prop :=
  s.stats.break_events =
    s.stats.unbreak_events + s.stats.large_broken_chunks ∧
  s.stats.large_broken_chunks = brokenCount s

/-- Proof-side view: a step preserves the three parity statistics and
the broken-chunk census. -/
def PT (s s2 : State) : Prop :=
  s2.stats.break_events = s.stats.break_events ∧
  s2.stats.unbreak_events = s.stats.unbreak_events ∧
  s2.stats.large_broken_chunks = s.stats.large_broken_chunks ∧
  brokenCount s2 = brokenCount s

/-- The states reachable from `flat_storage_init` by the public
operations of the engine (alloc, link, unlink, deref, update, replace,
get, flush_expired). -/
inductive Reachable (P : Params) : State → Prop where
  | init : ∀ maxb s, flat_storage_init P maxb = some s → Reachable P s
  | alloc : ∀ env key nkey flags exptime nbytes s r s2, Reachable P s →
      do_item_alloc P env key nkey flags exptime nbytes s =
        some (r, s2) → Reachable P s2
  | link : ∀ env s it key s2, Reachable P s →
      do_item_link env s it key = some s2 → Reachable P s2
  | unlink : ∀ env s it uflags keyArg s2, Reachable P s →
      do_item_unlink P env s it uflags keyArg = some s2 → Reachable P s2
  | deref : ∀ s it s2, Reachable P s →
      do_item_deref P s it = some s2 → Reachable P s2
  | update : ∀ env s it s2, Reachable P s →
      do_item_update P env s it = some s2 → Reachable P s2
  | replace : ∀ env s it it2 key s2, Reachable P s →
      do_item_replace P env s it it2 key = some s2 → Reachable P s2
  | get : ∀ env s key r s2 b, Reachable P s →
      do_item_get_notedeleted P env s key = some (r, s2, b) →
      Reachable P s2
  | flush : ∀ env s s2, Reachable P s →
      do_item_flush_expired P env s = some s2 → Reachable P s2

/-! # Theorems -/

/-! ## List utilities -/

theorem countP_set_keep {α : Type} (p : α → Bool) (l : List α) (i : Nat)
    (a b : α) (hget : l.get? i = some a) (hpq : p b = p a) :
    (l.set i b).countP p = l.countP p := by
  induction l generalizing i with
  | nil => simp at hget
  | cons x xs ih =>
      cases i with
      | zero =>
          simp only [List.get?_cons_zero, Option.some.injEq] at hget
          subst hget
          simp [List.countP_cons, hpq]
      | succ n =>
          simp only [List.get?_cons_succ] at hget
          simp [List.countP_cons, ih n hget]

theorem countP_set_drop {α : Type} (p : α → Bool) (l : List α) (i : Nat)
    (a b : α) (hget : l.get? i = some a) (hpa : p a = true)
    (hpb : p b = false) :
    (l.set i b).countP p + 1 = l.countP p := by
  induction l generalizing i with
  | nil => simp at hget
  | cons x xs ih =>
      cases i with
      | zero =>
          simp only [List.get?_cons_zero, Option.some.injEq] at hget
          subst hget
          simp [List.countP_cons, hpa, hpb]
      | succ n =>
          simp only [List.get?_cons_succ] at hget
          have hrec := ih n hget
          simp only [List.set_cons_succ, List.countP_cons]
          omega

/-! ## State-update lemmas -/

theorem setChunkL_some {s : State} {id : Nat} {c : LargeChunk} {s' : State}
    (h : setChunkL s id c = some s') :
    id < s.chunks.length ∧ s' = { s with chunks := s.chunks.set id c } := by
  unfold setChunkL at h
  split at h
  · exact ⟨by assumption, by simpa using h.symm⟩
  · cases h

theorem getChunkL_setChunkL_self {s : State} {id : Nat} {c : LargeChunk}
    {s' : State} (h : setChunkL s id c = some s') :
    getChunkL s' id = some c := by
  obtain ⟨hlt, rfl⟩ := setChunkL_some h
  simp [getChunkL, List.get?_eq_getElem?, List.getElem?_set_self, hlt,
    List.getElem?_eq_getElem]

theorem getChunkL_setChunkL_ne {s : State} {id : Nat} {c : LargeChunk}
    {s' : State} (h : setChunkL s id c = some s') {j : Nat} (hne : id ≠ j) :
    getChunkL s' j = getChunkL s j := by
  obtain ⟨hlt, rfl⟩ := setChunkL_some h
  simp [getChunkL, List.get?_eq_getElem?, List.getElem?_set_ne hne]

theorem setChunkS_some {s : State} {l i : Nat} {c : SmallChunk} {s' : State}
    (h : setChunkS s l i c = some s') :
    ∃ ch a, getChunkL s l = some (.brokenL ch a) ∧ i < ch.length ∧
      setChunkL s l (.brokenL (ch.set i c) a) = some s' := by
  unfold setChunkS at h
  split at h
  case h_1 ch a heq =>
    split at h
    · exact ⟨ch, a, heq, by assumption, h⟩
    · cases h
  case h_2 => cases h

theorem getChunkS_setChunkS_self {s : State} {l i : Nat} {c : SmallChunk}
    {s' : State} (h : setChunkS s l i c = some s') :
    getChunkS s' l i = some c := by
  obtain ⟨ch, a, hget, hlt, hset⟩ := setChunkS_some h
  have := getChunkL_setChunkL_self hset
  simp [getChunkS, this, List.get?_eq_getElem?, List.getElem?_set_self, hlt,
    List.getElem?_eq_getElem]

/-- `free_list_push_large` leaves the pushed chunk in the `FREE`
state. -/
theorem free_list_push_large_self {s : State} {id : Nat} {s' : State}
    (h : free_list_push_large s id = some s') :
    getChunkL s' id = some .freeL := by
  unfold free_list_push_large at h
  split at h
  case h_1 =>
    exact getChunkL_setChunkL_self h
  all_goals cases h

/-- After `unbreak_large_chunk`, either nothing happened (the
non-mandatory early return) or the chunk ends up `FREE` on the large
free list. -/
theorem unbreak_result {P : Params} {s : State} {l : Nat} {m : Bool}
    {s' : State} (h : unbreak_large_chunk P s l m = some s') :
    s' = s ∨ getChunkL s' l = some .freeL := by
  unfold unbreak_large_chunk at h
  split at h
  case h_1 ch a heq =>
    split at h
    · left; simpa using h.symm
    · split at h
      · cases h
      · simp only [Option.bind_eq_bind] at h
        cases hA : unbreak_children l
            (List.range P.SMALL_CHUNKS_PER_LARGE_CHUNK) s with
        | none => rw [hA] at h; cases h
        | some sA =>
            rw [hA] at h
            simp only [Option.some_bind] at h
            cases hB : setChunkL sA l .availL with
            | none => rw [hB] at h; cases h
            | some sB =>
                rw [hB] at h
                simp only [Option.some_bind] at h
                cases hC : free_list_push_large sB l with
                | none => rw [hC] at h; cases h
                | some sC =>
                    rw [hC] at h
                    simp only [Option.some_bind, Option.some.injEq] at h
                    right
                    have := free_list_push_large_self hC
                    rw [← h]
                    simpa [getChunkL] using this
  all_goals cases h

/-- `setHeader` leaves the new header readable at the written
reference. -/
theorem setHeader_self {s : State} {r : ChunkRef} {h : ItemHeader}
    {s' : State} (hs : setHeader s r h = some s') :
    headerOf s' r = some h := by
  unfold setHeader at hs
  match r with
  | .lg id =>
      simp only at hs
      split at hs
      case h_1 =>
        have := getChunkL_setChunkL_self hs
        simp [headerOf, this]
      all_goals cases hs
  | .sm l i =>
      simp only at hs
      split at hs
      case h_1 =>
        have := getChunkS_setChunkS_self hs
        simp [headerOf, this]
      all_goals cases hs

theorem getChunkL_set_stats (s : State) (x : Stats) (id : Nat) :
    getChunkL { s with stats := x } id = getChunkL s id := rfl

theorem headerOf_set_stats (s : State) (x : Stats) (r : ChunkRef) :
    headerOf { s with stats := x } r = headerOf s r := by
  cases r <;> rfl

theorem headerOf_set_gstats (s : State) (x : GStats) (r : ChunkRef) :
    headerOf { s with gstats := x } r = headerOf s r := by
  cases r <;> rfl

/-- After a small-chunk `free_list_push`, the pushed slot is no longer
a title chunk (it is free, or its whole parent has been unbroken). -/
theorem free_list_push_small_gone {P : Params} {s : State} {l i : Nat}
    {tm : Bool} {s' : State}
    (h : free_list_push_small P s l i tm = some s') :
    headerOf s' (.sm l i) = none := by
  unfold free_list_push_small at h
  split at h
  case h_1 =>
    split at h
    case h_1 ch a heq =>
      split at h
      · cases h
      · simp only [Option.bind_eq_bind] at h
        cases hA : setAllocated { s with stats := { s.stats with
            broken_chunk_histogram :=
              histInc (histDec s.stats.broken_chunk_histogram a) (a - 1) } }
            l (a - 1) with
        | none => rw [hA] at h; cases h
        | some sA =>
            rw [hA] at h
            simp only [Option.some_bind] at h
            cases hB : setChunkS
                { sA with small_free_list := (l, i) :: sA.small_free_list }
                l i .freeS with
            | none => rw [hB] at h; cases h
            | some sB =>
                rw [hB] at h
                simp only [Option.some_bind] at h
                have hfree := getChunkS_setChunkS_self hB
                split at h
                · rcases unbreak_result h with rfl | hres
                  · simp [headerOf, hfree]
                  · simp [headerOf, getChunkS, hres]
                · cases h
                  simp [headerOf, hfree]
    all_goals cases h
  all_goals cases h

/-- `item_free` leaves the freed item's title unreadable: the title
chunk has returned to a free state (directly, or through an
opportunistic unbreak of its parent). -/
theorem item_free_clears {P : Params} {s : State} {it : ChunkRef}
    {s' : State} (h : item_free P s it = some s') :
    headerOf s' it = none := by
  unfold item_free at h
  simp only [Option.bind_eq_bind] at h
  cases hh : headerOf s it with
  | none => rw [hh] at h; cases h
  | some hdr =>
      rw [hh] at h
      simp only [Option.some_bind] at h
      split at h
      · cases it with
        | lg tid =>
            cases hA : item_free_large_bodies (chunkCap P s) hdr.next_chunk 0 s
              with
            | none => simp only [hA, Option.none_bind] at h; cases h
            | some pr =>
                obtain ⟨sA, freed⟩ := pr
                simp only [hA, Option.some_bind] at h
                split at h
                case h_1 heq =>
                  cases hB : setChunkL { sA with stats := { sA.stats with
                      large_body_chunks := sA.stats.large_body_chunks - freed } }
                      tid .availL with
                  | none => rw [hB] at h; cases h
                  | some sB =>
                      rw [hB] at h
                      simp only [Option.some_bind] at h
                      cases hC : free_list_push_large sB tid with
                      | none => rw [hC] at h; cases h
                      | some sC =>
                          rw [hC] at h
                          simp only [Option.some_bind, Option.some.injEq] at h
                          have := free_list_push_large_self hC
                          rw [← h]
                          simp only [getChunkL, List.get?_eq_getElem?] at this
                          simp [headerOf, getChunkL, List.get?_eq_getElem?,
                            this]
                all_goals cases h
        | sm l i =>
            cases hA : item_free_small_bodies P (chunkCap P s) hdr.next_chunk 0 s
              with
            | none => simp only [hA, Option.none_bind] at h; cases h
            | some pr =>
                obtain ⟨sA, freed⟩ := pr
                simp only [hA, Option.some_bind] at h
                split at h
                case h_1 heq =>
                  cases hB : setChunkS { sA with stats := { sA.stats with
                      small_body_chunks := sA.stats.small_body_chunks - freed } }
                      l i .availS with
                  | none => rw [hB] at h; cases h
                  | some sB =>
                      rw [hB] at h
                      simp only [Option.some_bind] at h
                      cases hC : free_list_push_small P sB l i true with
                      | none => rw [hC] at h; cases h
                      | some sC =>
                          rw [hC] at h
                          simp only [Option.some_bind, Option.some.injEq] at h
                          have := free_list_push_small_gone hC
                          rw [← h]
                          simp only [headerOf, getChunkS, getChunkL,
                            List.get?_eq_getElem?] at this ⊢
                          exact this
                all_goals cases h
      · cases h

theorem getChunkS_setChunkL_title {s : State} {id : Nat} {h0 h1 : ItemHeader}
    {s' : State} (hold : getChunkL s id = some (.titleL h0))
    (hs : setChunkL s id (.titleL h1) = some s') (l i : Nat) :
    getChunkS s' l i = getChunkS s l i := by
  by_cases hl : id = l
  · subst hl
    have := getChunkL_setChunkL_self hs
    simp [getChunkS, this, hold]
  · rw [getChunkS, getChunkL_setChunkL_ne hs hl, ← getChunkS]

/-- Writing one header does not disturb any other item reference. -/
theorem setHeader_headerOf_ne {s : State} {r : ChunkRef} {X : ItemHeader}
    {s' : State} (hs : setHeader s r X = some s') {r' : ChunkRef}
    (hne : r' ≠ r) : headerOf s' r' = headerOf s r' := by
  cases r with
  | lg id =>
      simp only [setHeader] at hs
      split at hs
      case h_1 h0 hold =>
        cases r' with
        | lg j =>
            have hj : id ≠ j := fun e => hne (by rw [e])
            simp only [headerOf]
            rw [getChunkL_setChunkL_ne hs hj]
        | sm l i =>
            simp only [headerOf]
            rw [getChunkS_setChunkL_title hold hs]
      all_goals cases hs
  | sm l i =>
      simp only [setHeader] at hs
      split at hs
      case h_1 h0 hold =>
        obtain ⟨ch, a, hpar, hlt, hset⟩ := setChunkS_some hs
        cases r' with
        | lg j =>
            by_cases hj : l = j
            · subst hj
              have := getChunkL_setChunkL_self hset
              simp [headerOf, this, hpar]
            · simp only [headerOf]
              rw [getChunkL_setChunkL_ne hset hj]
        | sm l2 i2 =>
            by_cases hl : l = l2
            · subst hl
              have hii : i ≠ i2 := fun e => hne (by rw [e])
              have := getChunkL_setChunkL_self hset
              simp only [headerOf, getChunkS, this, hpar,
                List.get?_eq_getElem?]
              rw [List.getElem?_set_ne hii]
            · simp only [headerOf, getChunkS]
              rw [getChunkL_setChunkL_ne hset hl]
      all_goals cases hs

theorem headerOf_set_lru_head (s : State) (x : Option ChunkRef)
    (r : ChunkRef) : headerOf { s with lru_head := x } r = headerOf s r := by
  cases r <;> rfl

theorem headerOf_set_lru_tail (s : State) (x : Option ChunkRef)
    (r : ChunkRef) : headerOf { s with lru_tail := x } r = headerOf s r := by
  cases r <;> rfl

/-- `headerOf` depends only on the chunk array. -/
theorem headerOf_chunks_eq {s s' : State} (hc : s'.chunks = s.chunks)
    (r : ChunkRef) : headerOf s' r = headerOf s r := by
  cases r <;> simp [headerOf, getChunkL, getChunkS, hc]

/-- `item_link_q` puts the item at the LRU head and preserves its
`time` field. -/
theorem item_link_q_head {s : State} {it : ChunkRef} {s' : State}
    (h : item_link_q s it = some s') :
    s'.lru_head = some it ∧
    ∀ hh, headerOf s it = some hh →
      ∃ h2, headerOf s' it = some h2 ∧ h2.time = hh.time := by
  unfold item_link_q at h
  simp only [Option.bind_eq_bind] at h
  cases hq : headerOf s it with
  | none => rw [hq] at h; cases h
  | some h0 =>
      rw [hq] at h
      simp only [Option.some_bind] at h
      split at h
      · cases hhd : s.lru_head with
        | none =>
            rw [hhd] at h
            simp only [Option.some_bind] at h
            split at h <;> cases h
            all_goals
              refine ⟨rfl, fun hh hhh => ?_⟩
              cases hhh
              exact ⟨h0, (headerOf_chunks_eq rfl it).trans hq, rfl⟩
        | some hd =>
            rw [hhd] at h
            simp only [Option.some_bind] at h
            cases hA : setHeader s it { h0 with next := some hd } with
            | none => rw [hA] at h; cases h
            | some sA =>
                rw [hA] at h
                simp only [Option.some_bind] at h
                cases hB : headerOf sA hd with
                | none => rw [hB] at h; cases h
                | some h1 =>
                    rw [hB] at h
                    simp only [Option.some_bind] at h
                    cases hC : setHeader sA hd { h1 with prev := some it }
                      with
                    | none => rw [hC] at h; cases h
                    | some sB =>
                        rw [hC] at h
                        simp only [Option.some_bind] at h
                        have hAit := setHeader_self hA
                        have hex : ∃ h2, headerOf sB it = some h2 ∧
                            h2.time = h0.time := by
                          by_cases hih : it = hd
                          · subst hih
                            rw [hAit] at hB
                            cases hB
                            exact ⟨_, setHeader_self hC, rfl⟩
                          · exact ⟨_,
                              (setHeader_headerOf_ne hC hih).trans hAit, rfl⟩
                        obtain ⟨h2, hB2, ht2⟩ := hex
                        split at h <;> cases h
                        all_goals
                          refine ⟨rfl, fun hh hhh => ?_⟩
                          cases hhh
                          exact ⟨h2, (headerOf_chunks_eq rfl it).trans hB2,
                            ht2⟩
      · cases h

/-! ## Broken-chunk census preservation (towards C8 and C3) -/

theorem bp_refl (c : List LargeChunk) : BrokenPreserved c c :=
  ⟨rfl, fun _ hl => hl⟩

theorem BrokenPreserved.comp {c1 c2 c3 : List LargeChunk}
    (h1 : BrokenPreserved c1 c2) (h2 : BrokenPreserved c2 c3) :
    BrokenPreserved c1 c3 :=
  ⟨h2.1.trans h1.1, fun l hl => h2.2 l (h1.2 l hl)⟩

theorem getChunkL_get? (s : State) (j : Nat) :
    getChunkL s j = s.chunks.get? j := rfl

theorem bp_set_keepNB {c : List LargeChunk} {j : Nat} {c0 cv : LargeChunk}
    (hget : c.get? j = some c0) (h0 : isBrokenC c0 = false)
    (h1 : isBrokenC cv = false) : BrokenPreserved c (c.set j cv) := by
  constructor
  · exact countP_set_keep isBrokenC c j c0 cv hget (by rw [h0, h1])
  · intro l hl
    obtain ⟨ch, a, hl⟩ := hl
    by_cases hj : j = l
    · subst hj
      rw [hl] at hget
      cases hget
      simp [isBrokenC] at h0
    · refine ⟨ch, a, ?_⟩
      simp only [List.get?_eq_getElem?] at hl ⊢
      rw [List.getElem?_set_ne hj]
      exact hl

theorem bp_setChunkL_keepNB {s : State} {j : Nat} {c0 c : LargeChunk}
    {s' : State} (hget : getChunkL s j = some c0)
    (h0 : isBrokenC c0 = false) (h1 : isBrokenC c = false)
    (hs : setChunkL s j c = some s') :
    BrokenPreserved s.chunks s'.chunks := by
  obtain ⟨hlt, rfl⟩ := setChunkL_some hs
  constructor
  · exact countP_set_keep isBrokenC s.chunks j c0 c hget (by rw [h0, h1])
  · intro l hl
    obtain ⟨ch, a, hl⟩ := hl
    by_cases hj : j = l
    · subst hj
      rw [getChunkL_get?, hl] at hget
      cases hget
      simp [isBrokenC] at h0
    · refine ⟨ch, a, ?_⟩
      simp only [List.get?_eq_getElem?] at hl ⊢
      rw [List.getElem?_set_ne hj]
      exact hl

theorem bp_setChunkL_broken {s : State} {j : Nat} {ch0 : List SmallChunk}
    {a0 : Nat} {ch1 : List SmallChunk} {a1 : Nat} {s' : State}
    (hget : getChunkL s j = some (.brokenL ch0 a0))
    (hs : setChunkL s j (.brokenL ch1 a1) = some s') :
    BrokenPreserved s.chunks s'.chunks := by
  have hself := getChunkL_setChunkL_self hs
  obtain ⟨hlt, hrw⟩ := setChunkL_some hs
  constructor
  · rw [hrw]
    exact countP_set_keep isBrokenC s.chunks j _ _ hget (by simp [isBrokenC])
  · intro l hl
    obtain ⟨ch, a, hl⟩ := hl
    by_cases hj : j = l
    · subst hj
      exact ⟨ch1, a1, hself⟩
    · refine ⟨ch, a, ?_⟩
      rw [hrw]
      simp only [List.get?_eq_getElem?] at hl ⊢
      rw [List.getElem?_set_ne hj]
      exact hl

theorem bp_setChunkS {s : State} {l2 i : Nat} {c : SmallChunk} {s' : State}
    (hs : setChunkS s l2 i c = some s') :
    BrokenPreserved s.chunks s'.chunks := by
  obtain ⟨ch, a, hget, _, hset⟩ := setChunkS_some hs
  exact bp_setChunkL_broken hget hset

theorem bp_setAllocated {s : State} {l2 a2 : Nat} {s' : State}
    (hs : setAllocated s l2 a2 = some s') :
    BrokenPreserved s.chunks s'.chunks := by
  unfold setAllocated at hs
  split at hs
  case h_1 heq => exact bp_setChunkL_broken heq hs
  all_goals cases hs

theorem bp_setHeader {s : State} {r : ChunkRef} {h : ItemHeader}
    {s' : State} (hs : setHeader s r h = some s') :
    BrokenPreserved s.chunks s'.chunks := by
  cases r with
  | lg id =>
      simp only [setHeader] at hs
      split at hs
      case h_1 heq =>
        exact bp_setChunkL_keepNB heq (by simp [isBrokenC])
          (by simp [isBrokenC]) hs
      all_goals cases hs
  | sm l i =>
      simp only [setHeader] at hs
      split at hs
      case h_1 heq => exact bp_setChunkS hs
      all_goals cases hs

theorem bp_patch_next_field {s : State} {r : ChunkRef}
    {v : Option ChunkRef} {s' : State}
    (hs : patch_next_field s r v = some s') :
    BrokenPreserved s.chunks s'.chunks := by
  cases r with
  | lg id =>
      simp only [patch_next_field] at hs
      split at hs
      case h_1 heq =>
        exact bp_setChunkL_keepNB heq (by simp [isBrokenC])
          (by simp [isBrokenC]) hs
      case h_2 heq =>
        exact bp_setChunkL_keepNB heq (by simp [isBrokenC])
          (by simp [isBrokenC]) hs
      all_goals cases hs
  | sm l i =>
      simp only [patch_next_field] at hs
      split at hs
      case h_1 heq => exact bp_setChunkS hs
      case h_2 heq => exact bp_setChunkS hs
      all_goals cases hs

theorem bp_free_list_push_large {s : State} {id : Nat} {s' : State}
    (hs : free_list_push_large s id = some s') :
    BrokenPreserved s.chunks s'.chunks := by
  unfold free_list_push_large at hs
  split at hs
  case h_1 heq =>
    obtain ⟨hlt, hrw⟩ := setChunkL_some hs
    rw [show s'.chunks = s.chunks.set id LargeChunk.freeL by rw [hrw]]
    exact bp_set_keepNB heq (by simp [isBrokenC]) (by simp [isBrokenC])
  all_goals cases hs

theorem bp_free_list_pop_large {s : State} {id : Nat} {s' : State}
    (hs : free_list_pop_large s = some (some (id, s'))) :
    BrokenPreserved s.chunks s'.chunks := by
  unfold free_list_pop_large at hs
  split at hs
  · cases hs
  case h_2 id0 rest heq =>
    split at hs
    case h_1 hfr =>
      simp only [Option.bind_eq_bind] at hs
      cases hset : setChunkL { s with large_free_list := rest } id0 .availL
        with
      | none => rw [hset] at hs; cases hs
      | some sA =>
          rw [hset] at hs
          simp only [Option.some_bind, Option.some.injEq, Prod.mk.injEq]
            at hs
          obtain ⟨h1, h2⟩ := hs
          subst h2
          obtain ⟨hlt, hrw⟩ := setChunkL_some hset
          rw [show sA.chunks = s.chunks.set id0 LargeChunk.availL by
            rw [hrw]]
          exact bp_set_keepNB hfr (by simp [isBrokenC])
            (by simp [isBrokenC])
    all_goals cases hs

theorem bp_free_list_pop_small {P : Params} {s : State} {l i : Nat}
    {s' : State} (hs : free_list_pop_small P s = some (some ((l, i), s'))) :
    BrokenPreserved s.chunks s'.chunks := by
  unfold free_list_pop_small at hs
  split at hs
  · cases hs
  case h_2 l0 i0 rest heq =>
    split at hs
    case h_1 ch a hpar =>
      split at hs
      case isTrue =>
        simp only [Option.bind_eq_bind] at hs
        cases hA : setAllocated { s with stats := { s.stats with
            broken_chunk_histogram :=
              histInc (histDec s.stats.broken_chunk_histogram a) (a + 1) } }
            l0 (a + 1) with
        | none => rw [hA] at hs; cases hs
        | some sA =>
            rw [hA] at hs
            simp only [Option.some_bind] at hs
            split at hs
            case h_1 hfr =>
              cases hB : setChunkS { sA with small_free_list := rest } l0 i0
                  .availS with
              | none => rw [hB] at hs; cases hs
              | some sB =>
                  rw [hB] at hs
                  simp only [Option.some_bind, Option.some.injEq,
                    Prod.mk.injEq] at hs
                  obtain ⟨⟨h1, h2⟩, h3⟩ := hs
                  subst h3
                  have c2 := bp_setChunkS hB
                  exact (bp_setAllocated hA).comp c2
            all_goals cases hs
      case isFalse => cases hs
    all_goals cases hs

theorem bp_unbreak_child {s : State} {l i : Nat} {s' : State}
    (h : unbreak_child s l i = some s') :
    BrokenPreserved s.chunks s'.chunks := by
  unfold unbreak_child at h
  split at h
  case h_1 =>
    split at h
    · have c := bp_setChunkS h
      exact c
    · cases h
  case h_2 =>
    cases h
    exact bp_refl _
  all_goals cases h

theorem bp_unbreak_children {l : Nat} :
    ∀ (idxs : List Nat) (s s' : State),
      unbreak_children l idxs s = some s' →
      BrokenPreserved s.chunks s'.chunks := by
  intro idxs
  induction idxs with
  | nil =>
      intro s s' h
      cases h
      exact bp_refl _
  | cons i rest ih =>
      intro s s' h
      simp only [unbreak_children, Option.bind_eq_bind] at h
      cases hA : unbreak_child s l i with
      | none => rw [hA] at h; cases h
      | some sA =>
          rw [hA] at h
          simp only [Option.some_bind] at h
          exact (bp_unbreak_child hA).comp (ih sA s' h)

theorem bp_coalesce_strip_child {s : State} {l i : Nat} {s' : State}
    (h : coalesce_strip_child s l i = some s') :
    BrokenPreserved s.chunks s'.chunks := by
  unfold coalesce_strip_child at h
  split at h
  case h_1 =>
    split at h
    · have c := bp_setChunkS h
      exact c
    · cases h
  case h_2 =>
    cases h
    exact bp_refl _
  case h_3 => cases h

theorem bp_coalesce_strip {l : Nat} :
    ∀ (idxs : List Nat) (s s' : State),
      coalesce_strip l idxs s = some s' →
      BrokenPreserved s.chunks s'.chunks := by
  intro idxs
  induction idxs with
  | nil =>
      intro s s' h
      cases h
      exact bp_refl _
  | cons i rest ih =>
      intro s s' h
      simp only [coalesce_strip, Option.bind_eq_bind] at h
      cases hA : coalesce_strip_child s l i with
      | none => rw [hA] at h; cases h
      | some sA =>
          rw [hA] at h
          simp only [Option.some_bind] at h
          exact (bp_coalesce_strip_child hA).comp (ih sA s' h)

theorem bp_coalesce_relink_next {s : State} {old new : ChunkRef}
    {nx : Option ChunkRef} {s' : State}
    (hs : coalesce_relink_next s old new nx = some s') :
    BrokenPreserved s.chunks s'.chunks := by
  cases nx with
  | none =>
      simp only [coalesce_relink_next] at hs
      split at hs
      · cases hs; exact bp_refl _
      · cases hs
  | some nr =>
      simp only [coalesce_relink_next, Option.bind_eq_bind] at hs
      cases hq : headerOf s nr with
      | none => rw [hq] at hs; cases hs
      | some nh =>
          rw [hq] at hs
          simp only [Option.some_bind] at hs
          split at hs
          · exact bp_setHeader hs
          · cases hs

theorem bp_coalesce_relink_prev {s : State} {old new : ChunkRef}
    {pv : Option ChunkRef} {s' : State}
    (hs : coalesce_relink_prev s old new pv = some s') :
    BrokenPreserved s.chunks s'.chunks := by
  cases pv with
  | none =>
      simp only [coalesce_relink_prev] at hs
      split at hs
      · cases hs; exact bp_refl _
      · cases hs
  | some pr =>
      simp only [coalesce_relink_prev, Option.bind_eq_bind] at hs
      cases hq : headerOf s pr with
      | none => rw [hq] at hs; cases hs
      | some ph =>
          rw [hq] at hs
          simp only [Option.some_bind] at hs
          split at hs
          · exact bp_setHeader hs
          · cases hs

theorem bp_coalesce_relink_next_chunk {s : State} {old new : ChunkRef}
    {nc : Option ChunkRef} {s' : State}
    (hs : coalesce_relink_next_chunk s old new nc = some s') :
    BrokenPreserved s.chunks s'.chunks := by
  unfold coalesce_relink_next_chunk at hs
  split at hs
  case h_1 =>
    split at hs
    case h_1 =>
      split at hs
      · exact bp_setChunkS hs
      · cases hs
    all_goals cases hs
  case h_2 => cases hs
  case h_3 =>
    cases hs
    exact bp_refl _

theorem bp_coalesce_fix_prev_link {s : State} {new : ChunkRef}
    {pv : Option ChunkRef} {s' : State}
    (hs : coalesce_fix_prev_link s new pv = some s') :
    BrokenPreserved s.chunks s'.chunks := by
  unfold coalesce_fix_prev_link at hs
  split at hs
  case h_1 =>
    split at hs
    case h_1 => exact bp_setChunkS hs
    case h_2 => exact bp_setChunkS hs
    all_goals cases hs
  case h_2 => cases hs

theorem bp_coalesce_fix_title {s : State} {old new : ChunkRef}
    {h : ItemHeader} {s' : State}
    (hs : coalesce_fix_title s old new h = some s') :
    BrokenPreserved s.chunks s'.chunks := by
  unfold coalesce_fix_title at hs
  simp only [Option.bind_eq_bind] at hs
  cases hA : coalesce_relink_next s old new h.next with
  | none => rw [hA] at hs; cases hs
  | some s1 =>
      rw [hA] at hs
      simp only [Option.some_bind] at hs
      cases hB : coalesce_relink_prev s1 old new h.prev with
      | none => rw [hB] at hs; cases hs
      | some s2 =>
          rw [hB] at hs
          simp only [Option.some_bind] at hs
          cases hC : coalesce_relink_next_chunk s2 old new h.next_chunk with
          | none => rw [hC] at hs; cases hs
          | some s3 =>
              rw [hC] at hs
              simp only [Option.some_bind, Option.some.injEq] at hs
              subst hs
              exact ((bp_coalesce_relink_next hA).comp
                ((bp_coalesce_relink_prev hB).comp
                  (bp_coalesce_relink_next_chunk hC))).comp (bp_refl _)

theorem bp_coalesce_fix_body {s : State} {old new : ChunkRef}
    {p n : Option ChunkRef} {s' : State}
    (hs : coalesce_fix_body s old new p n = some s') :
    BrokenPreserved s.chunks s'.chunks := by
  unfold coalesce_fix_body at hs
  simp only [Option.bind_eq_bind] at hs
  cases hA : coalesce_fix_prev_link s new p with
  | none => rw [hA] at hs; cases hs
  | some s1 =>
      rw [hA] at hs
      simp only [Option.some_bind] at hs
      cases hB : coalesce_relink_next_chunk s1 old new n with
      | none => rw [hB] at hs; cases hs
      | some s2 =>
          rw [hB] at hs
          simp only [Option.some_bind, Option.some.injEq] at hs
          subst hs
          exact (bp_coalesce_fix_prev_link hA).comp
            (bp_coalesce_relink_next_chunk hB)

theorem bp_coalesce_migrate_child {P : Params} {s : State} {l i : Nat}
    {s' : State} (h : coalesce_migrate_child P s l i = some s') :
    BrokenPreserved s.chunks s'.chunks := by
  unfold coalesce_migrate_child at h
  split at h
  case h_1 => cases h
  case h_2 hd hdeq =>
      simp only [Option.bind_eq_bind] at h
      cases hp : free_list_pop_small P s with
      | none => rw [hp] at h; cases h
      | some r =>
          rw [hp] at h
          simp only [Option.some_bind] at h
          cases r with
          | none => cases h
          | some pr =>
              obtain ⟨⟨rl, ri⟩, s1⟩ := pr
              simp only [Option.bind_eq_bind] at h
              cases hset : setChunkS s1 rl ri (.titleS hd) with
              | none => rw [hset] at h; cases h
              | some s2 =>
                  rw [hset] at h
                  simp only [Option.some_bind] at h
                  cases hfix : coalesce_fix_title s2 (.sm l i) (.sm rl ri) hd
                    with
                  | none => rw [hfix] at h; cases h
                  | some s3 =>
                      rw [hfix] at h
                      simp only [Option.some_bind] at h
                      cases hpend : setChunkS s3 l i .pendingS with
                      | none => rw [hpend] at h; cases h
                      | some s4 =>
                          rw [hpend] at h
                          simp only [Option.some_bind] at h
                          split at h
                          case h_1 heq =>
                            exact ((((bp_free_list_pop_small hp).comp
                              (bp_setChunkS hset)).comp
                              (bp_coalesce_fix_title hfix)).comp
                              (bp_setChunkS hpend)).comp
                              (bp_setAllocated h)
                          all_goals cases h
  case h_3 p n hpn =>
      simp only [Option.bind_eq_bind] at h
      cases hp : free_list_pop_small P s with
      | none => rw [hp] at h; cases h
      | some r =>
          rw [hp] at h
          simp only [Option.some_bind] at h
          cases r with
          | none => cases h
          | some pr =>
              obtain ⟨⟨rl, ri⟩, s1⟩ := pr
              simp only [Option.bind_eq_bind] at h
              cases hset : setChunkS s1 rl ri (.bodyS p n) with
              | none => rw [hset] at h; cases h
              | some s2 =>
                  rw [hset] at h
                  simp only [Option.some_bind] at h
                  cases hfix : coalesce_fix_body s2 (.sm l i) (.sm rl ri) p n
                    with
                  | none => rw [hfix] at h; cases h
                  | some s3 =>
                      rw [hfix] at h
                      simp only [Option.some_bind] at h
                      cases hpend : setChunkS s3 l i .pendingS with
                      | none => rw [hpend] at h; cases h
                      | some s4 =>
                          rw [hpend] at h
                          simp only [Option.some_bind] at h
                          split at h
                          case h_1 heq =>
                            exact ((((bp_free_list_pop_small hp).comp
                              (bp_setChunkS hset)).comp
                              (bp_coalesce_fix_body hfix)).comp
                              (bp_setChunkS hpend)).comp
                              (bp_setAllocated h)
                          all_goals cases h
  case h_4 =>
      cases h
      exact bp_refl _
  case h_5 => cases h

theorem bp_coalesce_migrate {P : Params} {l : Nat} :
    ∀ (idxs : List Nat) (s s' : State),
      coalesce_migrate P l idxs s = some s' →
      BrokenPreserved s.chunks s'.chunks := by
  intro idxs
  induction idxs with
  | nil =>
      intro s s' h
      cases h
      exact bp_refl _
  | cons i rest ih =>
      intro s s' h
      simp only [coalesce_migrate, Option.bind_eq_bind] at h
      cases hA : coalesce_migrate_child P s l i with
      | none => rw [hA] at h; cases h
      | some sA =>
          rw [hA] at h
          simp only [Option.some_bind] at h
          exact (bp_coalesce_migrate_child hA).comp (ih sA s' h)

/-- A mandatory `unbreak_large_chunk` removes exactly one chunk from
the broken-chunk census. -/
theorem unbreak_mandatory_decrease {P : Params} {s : State} {l : Nat}
    {s' : State} (h : unbreak_large_chunk P s l true = some s') :
    brokenCount s' + 1 = brokenCount s := by
  unfold unbreak_large_chunk at h
  split at h
  case h_1 ch a heq =>
    rw [if_neg (by simp)] at h
    by_cases ha : a = 0
    · rw [if_neg (by simp [ha])] at h
      simp only [Option.bind_eq_bind] at h
      cases hA : unbreak_children l (List.range P.SMALL_CHUNKS_PER_LARGE_CHUNK) s
        with
      | none => rw [hA] at h; cases h
      | some sA =>
          rw [hA] at h
          simp only [Option.some_bind] at h
          cases hB : setChunkL sA l .availL with
          | none => rw [hB] at h; cases h
          | some sB =>
              rw [hB] at h
              simp only [Option.some_bind] at h
              cases hC : free_list_push_large sB l with
              | none => rw [hC] at h; cases h
              | some sC =>
                  rw [hC] at h
                  simp only [Option.some_bind, Option.some.injEq] at h
                  subst h
                  have bpA := bp_unbreak_children
                    (List.range P.SMALL_CHUNKS_PER_LARGE_CHUNK) s sA hA
                  obtain ⟨ch2, a2, hA2⟩ := bpA.2 l ⟨ch, a, heq⟩
                  obtain ⟨hlt, hrwB⟩ := setChunkL_some hB
                  have hdrop : sB.chunks.countP isBrokenC + 1 =
                      sA.chunks.countP isBrokenC := by
                    rw [hrwB]
                    exact countP_set_drop isBrokenC sA.chunks l _ _ hA2
                      (by simp [isBrokenC]) (by simp [isBrokenC])
                  have hA1 : sA.chunks.countP isBrokenC =
                      s.chunks.countP isBrokenC := bpA.1
                  have hC1 : sC.chunks.countP isBrokenC =
                      sB.chunks.countP isBrokenC :=
                    (bp_free_list_push_large hC).1
                  show sC.chunks.countP isBrokenC + 1 =
                    s.chunks.countP isBrokenC
                  omega
    · rw [if_pos (by simp [ha])] at h
      cases h
  case h_2 => cases h

/-- Each completed `coalesce_free_small_chunks` loop iteration
strictly decreases the number of broken large chunks. -/
theorem coalesce_body_decreases {P : Params} {s : State} {s' : State}
    (h : coalesce_body P s = some (some s')) :
    brokenCount s' < brokenCount s := by
  unfold coalesce_body at h
  split at h
  · cases h
  · simp at h
  case h_3 l hfind =>
    split at h
    case h_1 ch a heq =>
      simp only [Option.bind_eq_bind] at h
      by_cases ha : a ≠ 0
      · rw [if_pos ha] at h
        simp only [Option.bind_eq_some, Option.some.injEq] at h
        obtain ⟨s2, hS, s3, hM, sU, hU, hs'⟩ := h
        subst hs'
        have hdec0 := unbreak_mandatory_decrease hU
        have hdec : sU.chunks.countP isBrokenC + 1 =
            s3.chunks.countP isBrokenC := hdec0
        have h1 : s2.chunks.countP isBrokenC =
            s.chunks.countP isBrokenC :=
          (bp_coalesce_strip (List.range P.SMALL_CHUNKS_PER_LARGE_CHUNK)
            _ s2 hS).1
        have h2 : s3.chunks.countP isBrokenC =
            s2.chunks.countP isBrokenC :=
          (bp_coalesce_migrate (List.range P.SMALL_CHUNKS_PER_LARGE_CHUNK)
            s2 s3 hM).1
        show sU.chunks.countP isBrokenC < s.chunks.countP isBrokenC
        omega
      · rw [if_neg ha] at h
        simp only [Option.some_bind, Option.bind_eq_some,
          Option.some.injEq] at h
        obtain ⟨sU, hU, hs'⟩ := h
        subst hs'
        have hdec0 := unbreak_mandatory_decrease hU
        have hdec : sU.chunks.countP isBrokenC + 1 =
            s.chunks.countP isBrokenC := hdec0
        show sU.chunks.countP isBrokenC < s.chunks.countP isBrokenC
        omega
    all_goals cases h

/-- With fuel exceeding the broken-chunk census, the coalescer loop
never exhausts its fuel and its iteration count is bounded by the
census. -/
theorem coalesce_loop_bound (P : Params) :
    ∀ (fuel : Nat) (s : State) (acc : coalesce_progress),
      brokenCount s < fuel →
      coalesce_loop P fuel s acc ≠ CoalesceRes.exhaust ∧
      (∀ s2 p n, coalesce_loop P fuel s acc = CoalesceRes.ok s2 p n →
        n ≤ brokenCount s) := by
  intro fuel
  induction fuel with
  | zero => intro s acc hf; exact absurd hf (Nat.not_lt_zero _)
  | succ m ih =>
      intro s acc hf
      by_cases hsz : smallFreeSz s < P.SMALL_CHUNKS_PER_LARGE_CHUNK
      · refine ⟨by simp [coalesce_loop, hsz], fun s2 p n hok => ?_⟩
        simp only [coalesce_loop, if_pos hsz, CoalesceRes.ok.injEq] at hok
        omega
      · cases hb : coalesce_body P s with
        | none =>
            refine ⟨by simp [coalesce_loop, hsz, hb], fun s2 p n hok => ?_⟩
            simp [coalesce_loop, hsz, hb] at hok
        | some ob =>
            cases ob with
            | none =>
                refine ⟨by simp [coalesce_loop, hsz, hb],
                  fun s2 p n hok => ?_⟩
                simp only [coalesce_loop, if_neg hsz, hb,
                  CoalesceRes.ok.injEq] at hok
                omega
            | some sN =>
                have hdec := coalesce_body_decreases hb
                have hfN : brokenCount sN < m := by omega
                obtain ⟨ihe, ihb⟩ := ih sN .large_chunk_formed hfN
                cases hr : coalesce_loop P m sN .large_chunk_formed with
                | fault =>
                    refine ⟨by simp [coalesce_loop, hsz, hb, hr],
                      fun s2 p n hok => ?_⟩
                    simp [coalesce_loop, hsz, hb, hr] at hok
                | exhaust => exact absurd hr ihe
                | ok s3 q nn =>
                    have hbound := ihb s3 q nn hr
                    refine ⟨by simp [coalesce_loop, hsz, hb, hr],
                      fun s2 p n hok => ?_⟩
                    simp only [coalesce_loop, if_neg hsz, hb, hr,
                      CoalesceRes.ok.injEq] at hok
                    omega

/-- **C8**: `coalesce_free_small_chunks` terminates on every input
state: each loop iteration either returns (when no donor can be found,
reporting `COALESCE_NO_PROGRESS` if nothing was formed) or unbreaks
one donor large chunk, strictly decreasing the number of broken large
chunks (`coalesce_body_decreases`), so run with fuel
`brokenCount s + 1` the loop never exhausts its fuel and executes at
most `brokenCount s` iterations. -/
theorem C8_coalesce_terminates (P : Params) (s : State) :
    coalesce_loop P (brokenCount s + 1) s .no_progress ≠
      CoalesceRes.exhaust ∧
    ∀ s2 p n, coalesce_loop P (brokenCount s + 1) s .no_progress =
      CoalesceRes.ok s2 p n → n ≤ brokenCount s :=
  coalesce_loop_bound P (brokenCount s + 1) s .no_progress
    (Nat.lt_succ_self _)

theorem C8_witness :
    coalesce_loop Pw (brokenCount SC8 + 1) SC8 .no_progress =
      CoalesceRes.ok SC8r .large_chunk_formed 1 ∧
    1 ≤ brokenCount SC8 :=
  ⟨by decide,
    (C8_coalesce_terminates Pw SC8).2 SC8r .large_chunk_formed 1
      (by decide)⟩

/-! ## C4: the LRU probe -/

theorem get_lru_item_go_spec (s : State) :
    ∀ (n : Nat) (r : Option ChunkRef) (w : List (ChunkRef × ItemHeader)),
      lru_window_pairs s n r = some w →
      get_lru_item_go s n r =
        some ((w.find? (fun e => decide (e.2.refcount = 0))).map
          (fun e => e.1)) := by
  intro n
  induction n with
  | zero =>
      intro r w hw
      cases r <;>
        simp only [lru_window_pairs, Option.some.injEq] at hw <;>
        subst hw <;>
        simp [get_lru_item_go]
  | succ n ih =>
      intro r w hw
      cases r with
      | none =>
          simp only [lru_window_pairs, Option.some.injEq] at hw
          subst hw
          simp [get_lru_item_go]
      | some rr =>
          cases hh : headerOf s rr with
          | none => simp [lru_window_pairs, hh] at hw
          | some h =>
              cases hrest : lru_window_pairs s n h.prev with
              | none => simp [lru_window_pairs, hh, hrest] at hw
              | some rest =>
                  have hrec := ih h.prev rest hrest
                  simp only [lru_window_pairs, hh, hrest, Option.bind_eq_bind,
                    Option.some_bind, Option.some.injEq] at hw
                  subst hw
                  by_cases hz : h.refcount = 0
                  · simp [get_lru_item_go, hh, hz]
                  · simp [get_lru_item_go, hh, hz, hrec]

/-- **C4**: `get_lru_item` scans at most `LRU_SEARCH_DEPTH` items
starting from `fsi.lru_tail` and following `prev` links, returns the
first item encountered whose refcount is 0, and returns `NULL` if no
item within that window (or in a shorter list) has refcount 0. -/
theorem C4_get_lru_item_first_unreferenced (P : Params) (s : State)
    (w : List (ChunkRef × ItemHeader))
    (hw : lru_window_pairs s P.LRU_SEARCH_DEPTH s.lru_tail = some w) :
    get_lru_item P s =
      some ((w.find? (fun e => decide (e.2.refcount = 0))).map
        (fun e => e.1)) :=
  get_lru_item_go_spec s P.LRU_SEARCH_DEPTH s.lru_tail w hw

theorem C4_witness :
    lru_window_pairs S4w Pw.LRU_SEARCH_DEPTH S4w.lru_tail = some W4 ∧
    get_lru_item Pw S4w =
      some ((W4.find? (fun e => decide (e.2.refcount = 0))).map
        (fun e => e.1)) :=
  ⟨by decide, C4_get_lru_item_first_unreferenced Pw S4w W4 (by decide)⟩

/-- **C5**: `do_item_unlink` is idempotent: on any item whose
`ITEM_LINKED` flag is already clear (as after a previous unlink), a
second `do_item_unlink` returns the state unchanged — item, LRU,
assoc table and all statistics included. -/
theorem C5_do_item_unlink_idempotent (P : Params) (env : Env) (s : State)
    (it : ChunkRef) (uflags : UnlinkFlags) (keyArg : Option (List Nat))
    (h : ItemHeader) (hh : headerOf s it = some h)
    (hval : h.it_flags.valid = true) (hlink : h.it_flags.linked = false) :
    do_item_unlink P env s it uflags keyArg = some s := by
  simp [do_item_unlink, hh, hval, hlink]

theorem C5_witness :
    headerOf S3w IT1 = some H3 ∧ H3.it_flags.valid = true ∧
    H3.it_flags.linked = false ∧
    do_item_unlink Pw Ew S3w IT1 .normal none = some S3w :=
  ⟨by decide, by decide, by decide,
    C5_do_item_unlink_idempotent Pw Ew S3w IT1 .normal none H3 (by decide)
      (by decide) (by decide)⟩

/-- **C9**: `do_item_deref` never underflows the refcount — called on
an item whose refcount is already 0 it leaves the stored refcount at 0
rather than wrapping — and it frees the item exactly when the
refcount is 0 and `ITEM_LINKED` is clear after the call (the freed
title is no longer readable as an item). -/
theorem C9_do_item_deref_no_underflow (P : Params) (s s' : State)
    (it : ChunkRef) (h : ItemHeader) (hh : headerOf s it = some h)
    (hres : do_item_deref P s it = some s') :
    (headerOf s' it = none ↔
      ((if h.refcount = 0 then 0 else refcount_dec h.refcount) = 0 ∧
        h.it_flags.linked = false)) ∧
    ∀ h2, headerOf s' it = some h2 →
      h2.refcount =
        (if h.refcount = 0 then 0 else refcount_dec h.refcount) := by
  unfold do_item_deref at hres
  rw [hh] at hres
  simp only [Option.bind_eq_bind, Option.some_bind] at hres
  split at hres
  · cases hres
  ·
    set hd : ItemHeader :=
      (if h.refcount ≠ 0 then { h with refcount := refcount_dec h.refcount }
        else h) with hhd
    have hdrc : hd.refcount =
        (if h.refcount = 0 then 0 else refcount_dec h.refcount) := by
      by_cases hz : h.refcount = 0 <;> simp [hhd, hz]
    have hdfl : hd.it_flags = h.it_flags := by
      by_cases hz : h.refcount = 0 <;> simp [hhd, hz]
    cases hset : setHeader s it hd with
    | none => rw [hset] at hres; cases hres
    | some s1 =>
        rw [hset] at hres
        simp only [Option.some_bind] at hres
        have hself := setHeader_self hset
        split at hres
        · cases hres
        · split at hres
          case isTrue hc =>
            have hnone := item_free_clears hres
            refine ⟨⟨fun _ => ?_, fun _ => hnone⟩, fun h2 hh2 => ?_⟩
            · rw [← hdrc, ← hdfl]; exact hc
            · rw [hnone] at hh2; cases hh2
          case isFalse hc =>
            cases hres
            refine ⟨⟨fun hcon => ?_, fun hcon => ?_⟩, fun h2 hh2 => ?_⟩
            · rw [hself] at hcon; cases hcon
            · exact absurd (by rw [hdrc, hdfl]; exact hcon) hc
            · rw [hself] at hh2
              cases hh2
              exact hdrc

theorem C9_witness :
    headerOf S2w IT1 = some H2 ∧
    do_item_deref Pw S2w IT1 = some S4w ∧
    ((headerOf S4w IT1 = none ↔
      ((if H2.refcount = 0 then 0 else refcount_dec H2.refcount) = 0 ∧
        H2.it_flags.linked = false)) ∧
    ∀ h2, headerOf S4w IT1 = some h2 →
      h2.refcount =
        (if H2.refcount = 0 then 0 else refcount_dec H2.refcount)) :=
  ⟨by decide, by decide,
    C9_do_item_deref_no_underflow Pw S2w S4w IT1 H2 (by decide) (by decide)⟩

/-- **C10**: `do_item_update` never inserts an unlinked item into the
LRU: on a (valid) item with `ITEM_LINKED` clear it leaves the whole
state — LRU, the item's `next`/`prev` links and its `time` —
unchanged, even when the `ITEM_UPDATE_INTERVAL` threshold is
exceeded. -/
theorem C10_do_item_update_unlinked_noop (P : Params) (env : Env)
    (s : State) (it : ChunkRef) (h : ItemHeader)
    (hh : headerOf s it = some h) (hval : h.it_flags.valid = true)
    (hlink : h.it_flags.linked = false) :
    do_item_update P env s it = some s := by
  unfold do_item_update
  rw [hh]
  simp only [Option.bind_eq_bind, Option.some_bind]
  split
  · simp [hval, hlink]
  · rfl

/-- **C7** (counterexample): the claim "for every item,
`do_item_update` moves it to the LRU head and refreshes its time iff
`current_time - time > ITEM_UPDATE_INTERVAL`" fails on an item whose
`ITEM_LINKED` flag is clear: in `S3w` the interval is exceeded
(`2000 - 1000 > 60`), yet `do_item_update` changes nothing — the item
is not moved to the LRU head and its time is not refreshed. -/
theorem C7_counterexample :
    Pw.ITEM_UPDATE_INTERVAL < Ew2.current_time - H3.time ∧
    headerOf S3w IT1 = some H3 ∧
    do_item_update Pw Ew2 S3w IT1 = some S3w ∧
    S3w.lru_head ≠ some IT1 ∧
    H3.time ≠ Ew2.current_time :=
  ⟨by decide, by decide, by decide, by decide, by decide⟩

/-- **C7** (amended): for every *linked* valid item `it` (in the
non-degenerate clock regime `it.time ≤ current_time`,
`ITEM_UPDATE_INTERVAL ≤ current_time < 2^32`), a successful
`do_item_update` moves it to the LRU head and refreshes its `time`
field to `current_time` if and only if
`current_time - it.time > ITEM_UPDATE_INTERVAL`; when the threshold is
not exceeded, the state — LRU order and the item's time included — is
unchanged. -/
theorem C7_do_item_update_threshold (P : Params) (env : Env)
    (s s' : State) (it : ChunkRef) (h : ItemHeader)
    (hh : headerOf s it = some h)
    (hval : h.it_flags.valid = true) (hlink : h.it_flags.linked = true)
    (htle : h.time ≤ env.current_time)
    (hint : P.ITEM_UPDATE_INTERVAL ≤ env.current_time)
    (hu32 : env.current_time < U32)
    (hres : do_item_update P env s it = some s') :
    (P.ITEM_UPDATE_INTERVAL < env.current_time - h.time →
      s'.lru_head = some it ∧
      ∃ h2, headerOf s' it = some h2 ∧ h2.time = env.current_time) ∧
    (env.current_time - h.time ≤ P.ITEM_UPDATE_INTERVAL → s' = s) := by
  have h32 : U32 = 4294967296 := by norm_num [U32]
  rw [h32] at hu32
  have hcond :
      (h.time % U32 < relSub env.current_time P.ITEM_UPDATE_INTERVAL) ↔
        P.ITEM_UPDATE_INTERVAL < env.current_time - h.time := by
    simp only [relSub, h32]
    omega
  unfold do_item_update at hres
  rw [hh] at hres
  simp only [Option.bind_eq_bind, Option.some_bind] at hres
  split at hres
  case isTrue hc =>
    split at hres
    case isTrue hbad => rw [hval] at hbad; cases hbad
    case isFalse =>
      cases hU : item_unlink_q s it with
      | none => rw [hU] at hres; cases hres
      | some sA =>
          rw [hU] at hres
          simp only [Option.some_bind] at hres
          cases hHA : headerOf sA it with
          | none => rw [hHA] at hres; cases hres
          | some hA =>
              rw [hHA] at hres
              simp only [Option.some_bind] at hres
              cases hSB : setHeader sA it { hA with time := env.current_time }
                with
              | none => rw [hSB] at hres; cases hres
              | some sB =>
                  rw [hSB] at hres
                  simp only [Option.some_bind] at hres
                  obtain ⟨hhead, htime⟩ := item_link_q_head hres
                  refine ⟨fun _ => ⟨hhead, ?_⟩, fun hle => ?_⟩
                  · obtain ⟨h2, hh2, ht2⟩ :=
                      htime _ (setHeader_self hSB)
                    exact ⟨h2, hh2, ht2⟩
                  · exact absurd (hcond.mp hc) (by omega)
  case isFalse hc =>
    cases hres
    exact ⟨fun hlt => absurd (hcond.mpr hlt) hc, fun _ => rfl⟩

theorem C7_witness :
    (headerOf S2w IT1 = some H2 ∧ H2.it_flags.valid = true ∧
      H2.it_flags.linked = true ∧ H2.time ≤ Ew2.current_time ∧
      Pw.ITEM_UPDATE_INTERVAL ≤ Ew2.current_time ∧
      Ew2.current_time < U32 ∧
      do_item_update Pw Ew2 S2w IT1 = some SU7) ∧
    ((Pw.ITEM_UPDATE_INTERVAL < Ew2.current_time - H2.time →
      SU7.lru_head = some IT1 ∧
      ∃ h2, headerOf SU7 IT1 = some h2 ∧ h2.time = Ew2.current_time) ∧
    (Ew2.current_time - H2.time ≤ Pw.ITEM_UPDATE_INTERVAL → SU7 = S2w)) :=
  ⟨⟨by decide, by decide, by decide, by decide, by decide, by decide,
      by decide⟩,
    C7_do_item_update_threshold Pw Ew2 S2w SU7 IT1 H2 (by decide)
      (by decide) (by decide) (by decide) (by decide) (by decide)
      (by decide)⟩

/-! ## C6: the double traversal of `do_item_stats_sizes` -/

/-- The two title views of the shared `next` field coincide — the
model-level counterpart of the `item_init` layout assertions
(`flat_storage.c:109-110`). -/
theorem small_title_next_eq_large_title_next :
    small_title_next = large_title_next := rfl

theorem histInc_length (hist : List Nat) (b : Nat) :
    (histInc hist b).length = hist.length := List.length_set hist b _

theorem histInc_getD (hist : List Nat) (b k : Nat) (hb : b < hist.length) :
    (histInc hist b).getD k 0 =
      hist.getD k 0 + (if b = k then 1 else 0) := by
  by_cases hk : b = k
  · subst hk
    simp [histInc, List.getD, List.get?_eq_getElem?,
      List.getElem?_set_self, hb, List.getElem?_eq_getElem]
  · simp [histInc, List.getD, List.get?_eq_getElem?,
      List.getElem?_set_ne, hk]

theorem foldl_histInc_getD (bs : List Nat) :
    ∀ (hist : List Nat), (∀ b ∈ bs, b < hist.length) → ∀ k,
      (bs.foldl histInc hist).getD k 0 = hist.getD k 0 + bs.count k := by
  induction bs with
  | nil => intro hist _ k; simp
  | cons b bs ih =>
      intro hist hb k
      have hblt : b < hist.length := hb b (by simp)
      have hrest : ∀ x ∈ bs, x < (histInc hist b).length := by
        intro x hx
        rw [histInc_length]
        exact hb x (by simp [hx])
      simp only [List.foldl_cons]
      rw [ih (histInc hist b) hrest k, histInc_getD hist b k hblt,
        List.count_cons]
      by_cases hk : b = k <;> simp [hk, beq_iff_eq] <;> omega

theorem foldl_histInc_length (bs : List Nat) :
    ∀ hist, (bs.foldl histInc hist).length = hist.length := by
  induction bs with
  | nil => intro hist; rfl
  | cons b bs ih =>
      intro hist
      simp [List.foldl_cons, ih, histInc_length]

theorem lru_chain_buckets_lt (P : Params) (s : State) :
    ∀ (fuel : Nat) (start : Option ChunkRef) (bs : List Nat),
      lru_chain_buckets P s fuel start = some bs →
      ∀ b ∈ bs, b < stats_sizes_num_buckets P := by
  intro fuel
  induction fuel with
  | zero => intro start bs h; simp [lru_chain_buckets] at h
  | succ n ih =>
      intro start bs h
      cases start with
      | none =>
          simp only [lru_chain_buckets, Option.some.injEq] at h
          subst h; simp
      | some it =>
          cases hh : headerOf s it with
          | none => simp [lru_chain_buckets, hh] at h
          | some hd =>
              cases hr : lru_chain_buckets P s n hd.next with
              | none => simp [lru_chain_buckets, hh, hr] at h
              | some rest =>
                  simp only [lru_chain_buckets, hh, hr, Option.bind_eq_bind,
                    Option.some_bind, Option.some.injEq] at h
                  subst h
                  intro b hbmem
                  rw [List.mem_append] at hbmem
                  rcases hbmem with hbmem | hbmem
                  · split at hbmem
                    · simp only [List.mem_singleton] at hbmem
                      subst hbmem
                      assumption
                    · simp at hbmem
                  · exact ih hd.next rest hr b hbmem

/-- One `stats_sizes` pass through any alias of the shared `next`
field accumulates exactly the LRU chain's in-range buckets on top of
the incoming histogram. -/
theorem stats_sizes_pass_spec (P : Params) (s : State)
    (nextF : ItemHeader → Option ChunkRef)
    (hn : ∀ h, nextF h = h.next) :
    ∀ (fuel : Nat) (start : Option ChunkRef) (hist out : List Nat),
      stats_sizes_pass P s nextF fuel start hist = some out →
      ∃ bs, lru_chain_buckets P s fuel start = some bs ∧
        out = bs.foldl histInc hist := by
  intro fuel
  induction fuel with
  | zero => intro start hist out h; simp [stats_sizes_pass] at h
  | succ n ih =>
      intro start hist out h
      cases start with
      | none =>
          simp only [stats_sizes_pass, Option.some.injEq] at h
          subst h
          exact ⟨[], rfl, rfl⟩
      | some it =>
          cases hh : headerOf s it with
          | none => simp [stats_sizes_pass, hh] at h
          | some hd =>
              simp only [stats_sizes_pass, hh, Option.bind_eq_bind,
                Option.some_bind] at h
              rw [hn hd] at h
              obtain ⟨bs, hbs, hout⟩ := ih hd.next _ out h
              refine ⟨(if stats_sizes_bucket P hd < stats_sizes_num_buckets P
                then [stats_sizes_bucket P hd] else []) ++ bs, ?_, ?_⟩
              · simp [lru_chain_buckets, hh, hbs]
              · rw [hout, List.foldl_append]
                split <;> rfl

/-- **C6**: `do_item_stats_sizes` traverses the LRU twice (once
through the `small_title` view of `next` and once through the
`large_title` view, which share the same header offset), so each item
on the LRU chain is counted twice and every histogram bucket value
reported is exactly double the number of chain items whose total size
falls in that bucket. -/
theorem C6_stats_sizes_doubled (P : Params) (s : State) (H bs : List Nat)
    (hH : do_item_stats_sizes P s = some H)
    (hbs : lru_chain_buckets P s (chunkCap P s) s.lru_head = some bs) :
    ∀ k, H.getD k 0 = 2 * bs.count k := by
  unfold do_item_stats_sizes at hH
  simp only [Option.bind_eq_bind] at hH
  cases h1 : stats_sizes_pass P s small_title_next (chunkCap P s) s.lru_head
      (List.replicate (stats_sizes_num_buckets P) 0) with
  | none => rw [h1] at hH; cases hH
  | some hist1 =>
      rw [h1] at hH
      simp only [Option.some_bind] at hH
      obtain ⟨bs1, hbs1, hout1⟩ :=
        stats_sizes_pass_spec P s small_title_next (fun _ => rfl)
          (chunkCap P s) s.lru_head _ hist1 h1
      obtain ⟨bs2, hbs2, hout2⟩ :=
        stats_sizes_pass_spec P s large_title_next (fun _ => rfl)
          (chunkCap P s) s.lru_head hist1 H hH
      rw [hbs] at hbs1 hbs2
      cases hbs1
      cases hbs2
      intro k
      have hlt := lru_chain_buckets_lt P s (chunkCap P s) s.lru_head bs hbs
      have hlen0 : ∀ b ∈ bs,
          b < (List.replicate (stats_sizes_num_buckets P) 0).length := by
        intro b hb; simpa using hlt b hb
      have hlen1 : ∀ b ∈ bs, b < hist1.length := by
        intro b hb
        rw [hout1, foldl_histInc_length]
        simpa using hlt b hb
      rw [hout2, foldl_histInc_getD bs hist1 hlen1 k, hout1,
        foldl_histInc_getD bs _ hlen0 k]
      have hz : (List.replicate (stats_sizes_num_buckets P) 0).getD k 0
          = 0 := by
        simp [List.getD, List.get?_eq_getElem?, List.getElem?_replicate]
        split <;> simp
      rw [hz]
      omega

theorem C6_witness :
    do_item_stats_sizes Pw S2w = some H6 ∧
    lru_chain_buckets Pw S2w (chunkCap Pw S2w) S2w.lru_head = some B6 ∧
    ∀ k, H6.getD k 0 = 2 * B6.count k :=
  ⟨by decide, by decide,
    C6_stats_sizes_doubled Pw S2w H6 B6 (by decide) (by decide)⟩

theorem C10_witness :
    headerOf S3w IT1 = some H3 ∧ H3.it_flags.valid = true ∧
    H3.it_flags.linked = false ∧
    H3.time % U32 < relSub Ew2.current_time Pw.ITEM_UPDATE_INTERVAL ∧
    do_item_update Pw Ew2 S3w IT1 = some S3w :=
  ⟨by decide, by decide, by decide, by decide,
    C10_do_item_update_unlinked_noop Pw Ew2 S3w IT1 H3 (by decide)
      (by decide) (by decide)⟩

/-! ## C1: the NULL conditions of `do_item_alloc` -/

/-- **C1**: on a completed run of `do_item_alloc` (the C asserts and
loop-progress invariants hold, so the model returns `some`), the
allocation returns `NULL` exactly when `item_size_ok` rejects the size
or the chunk class's acquisition strategy (region alloc, coalesce, LRU
eviction for the large class; break, region alloc, LRU eviction for
the small class) reports that it could not raise the relevant free
list to `chunks_needed`; in every other case the returned item is
non-NULL. -/
theorem C1_alloc_null_iff {P : Params} {env : Env} {key : List Nat}
    {nkey : Nat} {flags : Int} {exptime nbytes : Nat} {s : State}
    {r : Option ChunkRef} {s2 : State}
    (h : do_item_alloc P env key nkey flags exptime nbytes s =
      some (r, s2)) :
    (r = none ↔
      item_size_ok P nkey flags nbytes = false ∨
      (P.is_large_chunk nkey nbytes = true ∧
        ∃ sf, acquire_large P env (P.chunks_needed nkey nbytes)
          (allocFuel P s) none s = some (false, sf)) ∨
      (P.is_large_chunk nkey nbytes = false ∧
        ∃ sf, acquire_small P env (P.chunks_needed nkey nbytes)
          (allocFuel P s) none s = some (false, sf))) := by
  unfold do_item_alloc at h
  by_cases hsz : item_size_ok P nkey flags nbytes = false
  · rw [if_pos hsz] at h
    simp only [Option.some.injEq, Prod.mk.injEq] at h
    obtain ⟨hr, _⟩ := h
    subst hr
    exact iff_of_true rfl (Or.inl hsz)
  · have hsz' : item_size_ok P nkey flags nbytes = true := by
      cases hq : item_size_ok P nkey flags nbytes
      · exact absurd hq hsz
      · rfl
    rw [if_neg hsz] at h
    by_cases hlg : P.is_large_chunk nkey nbytes = true
    · rw [if_pos hlg] at h
      simp only [Option.bind_eq_bind] at h
      cases hacq : acquire_large P env (P.chunks_needed nkey nbytes)
          (allocFuel P s) none s with
      | none => rw [hacq] at h; cases h
      | some p =>
          obtain ⟨got, s1⟩ := p
          rw [hacq] at h
          simp only [Option.some_bind] at h
          cases got with
          | false =>
              rw [if_pos rfl] at h
              simp only [Option.some.injEq, Prod.mk.injEq] at h
              obtain ⟨hr, _⟩ := h
              subst hr
              exact iff_of_true rfl (Or.inr (Or.inl ⟨hlg, s1, rfl⟩))
          | true =>
              rw [if_neg (by simp)] at h
              simp only [Option.bind_eq_some] at h
              obtain ⟨ro, hpop, h⟩ := h
              cases ro with
              | none => cases h
              | some q =>
                  obtain ⟨tid, s3⟩ := q
                  simp only [Option.bind_eq_some] at h
                  obtain ⟨s4, hset, h⟩ := h
                  split at h
                  · simp only [Option.bind_eq_some, Option.some.injEq,
                      Prod.mk.injEq] at h
                    obtain ⟨d, hd, y, hy, s6, h6, hr, hs⟩ := h
                    subst hr
                    refine iff_of_false (by simp) ?_
                    rintro (hbad | ⟨-, sf, hacqf⟩ | ⟨hnl, -⟩)
                    · rw [hsz'] at hbad; cases hbad
                    · simp at hacqf
                    · rw [hlg] at hnl; cases hnl
                  · simp only [Option.bind_eq_some, Option.some.injEq,
                      Prod.mk.injEq] at h
                    obtain ⟨s6, h6, hr, hs⟩ := h
                    subst hr
                    refine iff_of_false (by simp) ?_
                    rintro (hbad | ⟨-, sf, hacqf⟩ | ⟨hnl, -⟩)
                    · rw [hsz'] at hbad; cases hbad
                    · simp at hacqf
                    · rw [hlg] at hnl; cases hnl
    · have hlg' : P.is_large_chunk nkey nbytes = false := by
        cases hq : P.is_large_chunk nkey nbytes
        · rfl
        · exact absurd hq hlg
      rw [if_neg hlg] at h
      simp only [Option.bind_eq_bind] at h
      cases hacq : acquire_small P env (P.chunks_needed nkey nbytes)
          (allocFuel P s) none s with
      | none => rw [hacq] at h; cases h
      | some p =>
          obtain ⟨got, s1⟩ := p
          rw [hacq] at h
          simp only [Option.some_bind] at h
          cases got with
          | false =>
              rw [if_pos rfl] at h
              simp only [Option.some.injEq, Prod.mk.injEq] at h
              obtain ⟨hr, _⟩ := h
              subst hr
              exact iff_of_true rfl (Or.inr (Or.inr ⟨hlg', s1, rfl⟩))
          | true =>
              rw [if_neg (by simp)] at h
              simp only [Option.bind_eq_some] at h
              obtain ⟨ro, hpop, h⟩ := h
              cases ro with
              | none => cases h
              | some q =>
                  obtain ⟨⟨tl, ti⟩, s3⟩ := q
                  simp only [Option.bind_eq_some] at h
                  obtain ⟨s4, hset, h⟩ := h
                  split at h
                  · simp only [Option.bind_eq_some, Option.some.injEq,
                      Prod.mk.injEq] at h
                    obtain ⟨d, hd, y, hy, s6, h6, hr, hs⟩ := h
                    subst hr
                    refine iff_of_false (by simp) ?_
                    rintro (hbad | ⟨hnl, -⟩ | ⟨-, sf, hacqf⟩)
                    · rw [hsz'] at hbad; cases hbad
                    · rw [hlg'] at hnl; cases hnl
                    · simp at hacqf
                  · simp only [Option.bind_eq_some, Option.some.injEq,
                      Prod.mk.injEq] at h
                    obtain ⟨s6, h6, hr, hs⟩ := h
                    subst hr
                    refine iff_of_false (by simp) ?_
                    rintro (hbad | ⟨hnl, -⟩ | ⟨-, sf, hacqf⟩)
                    · rw [hsz'] at hbad; cases hbad
                    · rw [hlg'] at hnl; cases hnl
                    · simp at hacqf

theorem C1_witness :
    (do_item_alloc Pw Ew [7] 1 0 0 2 S0w = some (some IT1, S1w)) ∧
    ((some IT1 = (none : Option ChunkRef)) ↔
      item_size_ok Pw 1 0 2 = false ∨
      (Pw.is_large_chunk 1 2 = true ∧
        ∃ sf, acquire_large Pw Ew (Pw.chunks_needed 1 2)
          (allocFuel Pw S0w) none S0w = some (false, sf)) ∨
      (Pw.is_large_chunk 1 2 = false ∧
        ∃ sf, acquire_small Pw Ew (Pw.chunks_needed 1 2)
          (allocFuel Pw S0w) none S0w = some (false, sf))) :=
  ⟨by decide,
    C1_alloc_null_iff
      (show do_item_alloc Pw Ew [7] 1 0 0 2 S0w = some (some IT1, S1w)
        from by decide)⟩

/-! ## C2: the shape of a freshly allocated item -/

theorem HdPres_refl (hd : ItemHeader) : HdPres hd hd :=
  ⟨rfl, rfl, rfl, rfl, rfl, rfl, rfl, rfl, rfl⟩

theorem HdPres_trans {a b c : ItemHeader} (h1 : HdPres a b)
    (h2 : HdPres b c) : HdPres a c := by
  obtain ⟨a1, a2, a3, a4, a5, a6, a7, a8, a9⟩ := h1
  obtain ⟨b1, b2, b3, b4, b5, b6, b7, b8, b9⟩ := h2
  exact ⟨b1.trans a1, b2.trans a2, b3.trans a3, b4.trans a4, b5.trans a5,
    b6.trans a6, b7.trans a7, b8.trans a8, b9.trans a9⟩

theorem accEq_refl (s : State) (q : ChunkRef) : AccEq s s q :=
  ⟨rfl, rfl, rfl⟩

theorem accEq_trans {s s2 s3 : State} {q : ChunkRef} (h1 : AccEq s s2 q)
    (h2 : AccEq s2 s3 q) : AccEq s s3 q :=
  ⟨h2.1.trans h1.1, h2.2.1.trans h1.2.1, h2.2.2.trans h1.2.2⟩

theorem accEq_lg {s s2 : State} {j : Nat}
    (hL : getChunkL s2 j = getChunkL s j) : AccEq s s2 (.lg j) := by
  refine ⟨?_, ?_, ?_⟩
  · simp only [chunk_used, hL]
  · simp only [chunk_next, hL]
  · simp only [headerOf, hL]

theorem accEq_sm {s s2 : State} {l i : Nat}
    (hS : getChunkS s2 l i = getChunkS s l i) : AccEq s s2 (.sm l i) := by
  refine ⟨?_, ?_, ?_⟩
  · simp only [chunk_used, hS]
  · simp only [chunk_next, hS]
  · simp only [headerOf, hS]

theorem accEq_lg_broken {s s2 : State} {l : Nat} {ch ch2 : List SmallChunk}
    {a a2 : Nat} (h1 : getChunkL s l = some (.brokenL ch a))
    (h2 : getChunkL s2 l = some (.brokenL ch2 a2)) : AccEq s s2 (.lg l) := by
  refine ⟨?_, ?_, ?_⟩
  · simp [chunk_used, h1, h2]
  · simp [chunk_next, h1, h2]
  · simp [headerOf, h1, h2]

theorem accEq_of_chunks_eq {s s2 : State} (hc : s2.chunks = s.chunks)
    (q : ChunkRef) : AccEq s s2 q := by
  cases q with
  | lg j => exact accEq_lg (by simp [getChunkL, hc])
  | sm l i => exact accEq_sm (by simp [getChunkS, getChunkL, hc])

theorem used_sm_broken {s : State} {l i : Nat}
    (h : chunk_used s (.sm l i) = true) :
    ∃ ch a, getChunkL s l = some (.brokenL ch a) := by
  cases hL : getChunkL s l with
  | none => simp [chunk_used, getChunkS, hL] at h
  | some c =>
      cases c with
      | brokenL ch a => exact ⟨ch, a, rfl⟩
      | availL => simp [chunk_used, getChunkS, hL] at h
      | freeL => simp [chunk_used, getChunkS, hL] at h
      | titleL h0 => simp [chunk_used, getChunkS, hL] at h
      | bodyL nx => simp [chunk_used, getChunkS, hL] at h

theorem accEq_setChunkS {s : State} {l i : Nat} {c : SmallChunk}
    {s2 : State} (hs : setChunkS s l i c = some s2) :
    ∀ q, q ≠ .sm l i → AccEq s s2 q := by
  obtain ⟨ch, a, hget, hlt, hset⟩ := setChunkS_some hs
  intro q hq
  cases q with
  | lg j =>
      by_cases hj : j = l
      · subst hj
        exact accEq_lg_broken hget (getChunkL_setChunkL_self hset)
      · exact accEq_lg (getChunkL_setChunkL_ne hset (fun hh => hj hh.symm))
  | sm l2 i2 =>
      by_cases hl : l2 = l
      · subst hl
        have hi : i2 ≠ i := fun hh => hq (by rw [hh])
        refine accEq_sm ?_
        have h2 := getChunkL_setChunkL_self hset
        simp [getChunkS, h2, hget, List.get?_eq_getElem?,
          List.getElem?_set_ne (fun hh => hi hh.symm)]
      · refine accEq_sm ?_
        have h2 := getChunkL_setChunkL_ne hset (fun hh => hl hh.symm)
        simp [getChunkS, h2]

theorem accEq_setChunkL_lg {s : State} {id : Nat} {c : LargeChunk}
    {s2 : State} (hs : setChunkL s id c = some s2) {j : Nat}
    (hj : j ≠ id) : AccEq s s2 (.lg j) :=
  accEq_lg (getChunkL_setChunkL_ne hs (fun hh => hj hh.symm))

theorem accEq_setChunkL_sm {s : State} {id : Nat} {c : LargeChunk}
    {s2 : State} (hs : setChunkL s id c = some s2) {l i : Nat}
    (hl : l ≠ id) : AccEq s s2 (.sm l i) := by
  refine accEq_sm ?_
  have h2 := getChunkL_setChunkL_ne hs (fun hh => hl hh.symm)
  simp [getChunkS, h2]

theorem patch_next_spec {s : State} {r : ChunkRef} {v : Option ChunkRef}
    {s2 : State} (hp : patch_next_field s r v = some s2) :
    chunk_next s2 r = some v ∧ chunk_used s2 r = chunk_used s r ∧
    (∀ th, headerOf s r = some th →
      headerOf s2 r = some { th with next_chunk := v }) ∧
    (∀ q, q ≠ r → AccEq s s2 q) := by
  cases r with
  | lg id =>
      simp only [patch_next_field] at hp
      split at hp
      case h_1 h0 heq =>
        have hself := getChunkL_setChunkL_self hp
        refine ⟨by simp [chunk_next, hself],
          by simp [chunk_used, hself, heq], ?_, ?_⟩
        · intro th hth
          simp only [headerOf, heq, Option.some.injEq] at hth
          subst hth
          simp [headerOf, hself]
        · intro q hq
          cases q with
          | lg j =>
              exact accEq_setChunkL_lg hp (fun hh => hq (by rw [hh]))
          | sm l i =>
              by_cases hl : l = id
              · subst hl
                exact accEq_sm (by simp [getChunkS, hself, heq])
              · exact accEq_setChunkL_sm hp hl
      case h_2 nx heq =>
        have hself := getChunkL_setChunkL_self hp
        refine ⟨by simp [chunk_next, hself],
          by simp [chunk_used, hself, heq], ?_, ?_⟩
        · intro th hth
          simp [headerOf, heq] at hth
        · intro q hq
          cases q with
          | lg j =>
              exact accEq_setChunkL_lg hp (fun hh => hq (by rw [hh]))
          | sm l i =>
              by_cases hl : l = id
              · subst hl
                exact accEq_sm (by simp [getChunkS, hself, heq])
              · exact accEq_setChunkL_sm hp hl
      all_goals cases hp
  | sm l i =>
      simp only [patch_next_field] at hp
      split at hp
      case h_1 h0 heq =>
        have hself := getChunkS_setChunkS_self hp
        refine ⟨by simp [chunk_next, hself],
          by simp [chunk_used, hself, heq], ?_,
          fun q hq => accEq_setChunkS hp q hq⟩
        intro th hth
        simp only [headerOf, heq, Option.some.injEq] at hth
        subst hth
        simp [headerOf, hself]
      case h_2 p nx heq =>
        have hself := getChunkS_setChunkS_self hp
        refine ⟨by simp [chunk_next, hself],
          by simp [chunk_used, hself, heq], ?_,
          fun q hq => accEq_setChunkS hp q hq⟩
        intro th hth
        simp [headerOf, heq] at hth
      all_goals cases hp

theorem setHeader_spec {s : State} {t : ChunkRef} {hn : ItemHeader}
    {s2 : State} (hs : setHeader s t hn = some s2) :
    headerOf s2 t = some hn ∧ chunk_used s2 t = true ∧
    chunk_next s2 t = some hn.next_chunk ∧
    (∃ th0, headerOf s t = some th0 ∧
      chunk_next s t = some th0.next_chunk ∧ chunk_used s t = true) ∧
    (∀ q, q ≠ t → AccEq s s2 q) := by
  cases t with
  | lg id =>
      simp only [setHeader] at hs
      split at hs
      case h_1 h0 heq =>
        have hself := getChunkL_setChunkL_self hs
        refine ⟨by simp [headerOf, hself],
          by simp [chunk_used, hself],
          by simp [chunk_next, hself],
          ⟨h0, by simp [headerOf, heq], by simp [chunk_next, heq],
            by simp [chunk_used, heq]⟩, ?_⟩
        intro q hq
        cases q with
        | lg j =>
            exact accEq_setChunkL_lg hs (fun hh => hq (by rw [hh]))
        | sm l i =>
            by_cases hl : l = id
            · subst hl
              exact accEq_sm (by simp [getChunkS, hself, heq])
            · exact accEq_setChunkL_sm hs hl
      all_goals cases hs
  | sm l i =>
      simp only [setHeader] at hs
      split at hs
      case h_1 h0 heq =>
        have hself := getChunkS_setChunkS_self hs
        exact ⟨by simp [headerOf, hself],
          by simp [chunk_used, hself],
          by simp [chunk_next, hself],
          ⟨h0, by simp [headerOf, heq], by simp [chunk_next, heq],
            by simp [chunk_used, heq]⟩,
          fun q hq => accEq_setChunkS hs q hq⟩
      all_goals cases hs

theorem orStamp_valid (f : IFlags) (ts ip : Bool) :
    (orStamp f ts ip).valid = f.valid := rfl

theorem headerOf_some_used {s : State} {q : ChunkRef} {hd : ItemHeader}
    (h : headerOf s q = some hd) : chunk_used s q = true := by
  cases q with
  | lg id =>
      cases hL : getChunkL s id with
      | none => simp [headerOf, hL] at h
      | some c =>
          cases c with
          | titleL h0 => simp [chunk_used, hL]
          | availL => simp [headerOf, hL] at h
          | freeL => simp [headerOf, hL] at h
          | bodyL nx => simp [headerOf, hL] at h
          | brokenL ch a => simp [headerOf, hL] at h
  | sm l i =>
      cases hS : getChunkS s l i with
      | none => simp [headerOf, hS] at h
      | some c =>
          cases c with
          | titleS h0 => simp [chunk_used, hS]
          | availS => simp [headerOf, hS] at h
          | freeS => simp [headerOf, hS] at h
          | bodyS p nx => simp [headerOf, hS] at h
          | pendingS => simp [headerOf, hS] at h
          | clearedS => simp [headerOf, hS] at h

theorem chain_length_cons {s : State} {r : ChunkRef} {nx : Option ChunkRef}
    {f n : Nat} (hn : chunk_next s r = some nx)
    (hc : chain_length s f nx = some n) :
    chain_length s (f + 1) (some r) = some (n + 1) := by
  simp [chain_length, hn, hc]

theorem setAllocated_spec {s : State} {l a2 : Nat} {s2 : State}
    (h : setAllocated s l a2 = some s2) :
    ∃ ch a, getChunkL s l = some (.brokenL ch a) ∧
      setChunkL s l (.brokenL ch a2) = some s2 := by
  unfold setAllocated at h
  split at h
  case h_1 ch a heq => exact ⟨ch, a, heq, h⟩
  case h_2 => cases h

theorem accEq_setAllocated {s : State} {l a2 : Nat} {s2 : State}
    (h : setAllocated s l a2 = some s2) : ∀ q, AccEq s s2 q := by
  obtain ⟨ch, a, hget, hset⟩ := setAllocated_spec h
  intro q
  cases q with
  | lg j =>
      by_cases hj : j = l
      · subst hj
        exact accEq_lg_broken hget (getChunkL_setChunkL_self hset)
      · exact accEq_setChunkL_lg hset hj
  | sm l2 i2 =>
      by_cases hl : l2 = l
      · subst hl
        refine accEq_sm ?_
        have h2 := getChunkL_setChunkL_self hset
        simp [getChunkS, h2, hget]
      · exact accEq_setChunkL_sm hset hl

theorem pop_small_spec {P : Params} {s : State} {l i : Nat} {s2 : State}
    (hp : free_list_pop_small P s = some (some ((l, i), s2))) :
    chunk_used s (.sm l i) = false ∧ ∀ q, AccEq s s2 q := by
  unfold free_list_pop_small at hp
  split at hp
  · simp at hp
  case h_2 l0 i0 rest heq1 =>
    split at hp
    case h_1 c0 a heq2 =>
      split at hp
      · simp only [Option.bind_eq_bind, Option.bind_eq_some] at hp
        obtain ⟨sA, hA, hp⟩ := hp
        split at hp
        case h_1 heq3 =>
          simp only [Option.bind_eq_some, Option.some.injEq,
            Prod.mk.injEq] at hp
          obtain ⟨sB, hB, ⟨hl0, hi0⟩, hsB⟩ := hp
          subst hl0
          subst hi0
          subst hsB
          have EX : ∀ q, AccEq s { sA with small_free_list := rest } q :=
            fun q => accEq_trans (accEq_of_chunks_eq rfl q)
              (accEq_trans (accEq_setAllocated hA q)
                (accEq_of_chunks_eq rfl q))
          have hused0 : chunk_used s (ChunkRef.sm l0 i0) = false := by
            rw [← (EX (.sm l0 i0)).1]
            simp [chunk_used, heq3]
          refine ⟨hused0, ?_⟩
          intro q
          by_cases hq : q = ChunkRef.sm l0 i0
          · subst hq
            have hselfB := getChunkS_setChunkS_self hB
            refine ⟨?_, ?_, ?_⟩
            · rw [hused0]; simp [chunk_used, hselfB]
            · rw [← (EX (.sm l0 i0)).2.1]
              simp [chunk_next, hselfB, heq3]
            · rw [← (EX (.sm l0 i0)).2.2]
              simp [headerOf, hselfB, heq3]
          · exact accEq_trans (EX q) (accEq_setChunkS hB q hq)
        case h_2 => cases hp
      · cases hp
    all_goals cases hp

theorem pop_large_spec {s : State} {id : Nat} {s2 : State}
    (hp : free_list_pop_large s = some (some (id, s2))) :
    chunk_used s (.lg id) = false ∧ getChunkL s2 id = some .availL ∧
    ∀ q, AccEq s s2 q := by
  unfold free_list_pop_large at hp
  split at hp
  · simp at hp
  case h_2 id0 rest heq1 =>
    split at hp
    case h_1 heq2 =>
      simp only [Option.bind_eq_bind, Option.bind_eq_some,
        Option.some.injEq, Prod.mk.injEq] at hp
      obtain ⟨sB, hB, hid, hsB⟩ := hp
      subst hid
      subst hsB
      refine ⟨by simp [chunk_used, heq2], getChunkL_setChunkL_self hB, ?_⟩
      intro q
      have E0 : AccEq s { s with large_free_list := rest } q :=
        accEq_of_chunks_eq rfl q
      cases q with
      | lg j =>
          by_cases hj : j = id0
          · subst hj
            have hself := getChunkL_setChunkL_self hB
            refine ⟨?_, ?_, ?_⟩
            · simp [chunk_used, hself, heq2]
            · simp [chunk_next, hself, heq2]
            · simp [headerOf, hself, heq2]
          · exact accEq_trans E0 (accEq_setChunkL_lg hB hj)
      | sm l2 i2 =>
          by_cases hl : l2 = id0
          · subst hl
            have hself := getChunkL_setChunkL_self hB
            exact accEq_sm (by simp [getChunkS, hself, heq2])
          · exact accEq_trans E0 (accEq_setChunkL_sm hB hl)
    all_goals cases hp


theorem alloc_small_bodies_spec {P : Params} {t : ChunkRef} :
    ∀ (n : Nat) (prev : ChunkRef) (off : Int) (s s' : State),
      alloc_small_bodies P t n prev off s = some s' →
      chunk_used s prev = true →
      chain_length s' (n + 1) (some prev) = some (n + 1) ∧
      (∀ q, chunk_used s q = true → q ≠ prev →
        chunk_used s' q = true ∧ chunk_next s' q = chunk_next s q) ∧
      (∀ hd, headerOf s t = some hd →
        ∃ hd2, headerOf s' t = some hd2 ∧ HdPres hd hd2) := by
  intro n
  induction n with
  | zero =>
      intro prev off s s' h hprev
      obtain ⟨hnx, husedp, hhdp, hfr⟩ :=
        patch_next_spec (show patch_next_field s prev none = some s' from h)
      refine ⟨chain_length_cons hnx rfl, ?_, ?_⟩
      · intro q hq hqp
        obtain ⟨u1, u2, u3⟩ := hfr q hqp
        exact ⟨u1.trans hq, u2⟩
      · intro hd hhd0
        by_cases ht : t = prev
        · subst ht
          exact ⟨{ hd with next_chunk := none }, hhdp hd hhd0,
            rfl, rfl, rfl, rfl, rfl, rfl, rfl, rfl, rfl⟩
        · obtain ⟨u1, u2, u3⟩ := hfr t ht
          exact ⟨hd, by rw [u3, hhd0], HdPres_refl hd⟩
  | succ m ih =>
      intro prev off s s' h hprev
      simp only [alloc_small_bodies, Option.bind_eq_bind,
        Option.bind_eq_some] at h
      obtain ⟨ro, hpop, h⟩ := h
      cases ro with
      | none => cases h
      | some q0 =>
          obtain ⟨⟨l, i⟩, sp⟩ := q0
          simp only [Option.bind_eq_some] at h
          obtain ⟨sb, hsetb, sc, hpatch, h⟩ := h
          obtain ⟨hfree, Epop⟩ := pop_small_spec hpop
          have hprev_sp : chunk_used sp prev = true :=
            (Epop prev).1.trans hprev
          have hne_prev : prev ≠ ChunkRef.sm l i := by
            intro hh
            rw [hh, hfree] at hprev
            cases hprev
          have hselfb := getChunkS_setChunkS_self hsetb
          have used_b : chunk_used sb (ChunkRef.sm l i) = true := by
            simp [chunk_used, hselfb]
          obtain ⟨hnx_c, husedc, hhd_c, Efr_c⟩ := patch_next_spec hpatch
          have hneli : ChunkRef.sm l i ≠ prev := fun hh => hne_prev hh.symm
          have used_c_li : chunk_used sc (ChunkRef.sm l i) = true :=
            ((Efr_c _ hneli).1).trans used_b
          have used_c_prev : chunk_used sc prev = true := by
            rw [husedc, (accEq_setChunkS hsetb prev hne_prev).1, hprev_sp]
          have key : ∀ sd : State,
              alloc_small_bodies P t m (ChunkRef.sm l i)
                (off - (P.SMALL_BODY_CHUNK_DATA_SZ : Int)) sd = some s' →
              (∀ q, chunk_used sc q = true →
                chunk_used sd q = true ∧
                chunk_next sd q = chunk_next sc q) →
              (∀ hd0, headerOf sc t = some hd0 →
                ∃ hd2, headerOf sd t = some hd2 ∧ HdPres hd0 hd2) →
              chain_length s' (m + 1 + 1) (some prev) = some (m + 1 + 1) ∧
              (∀ q, chunk_used s q = true → q ≠ prev →
                chunk_used s' q = true ∧ chunk_next s' q = chunk_next s q) ∧
              (∀ hd, headerOf s t = some hd →
                ∃ hd2, headerOf s' t = some hd2 ∧ HdPres hd hd2) := by
            intro sd hrec Dused Dhd
            obtain ⟨IHchain, IHframe, IHhd⟩ := ih (ChunkRef.sm l i)
              (off - (P.SMALL_BODY_CHUNK_DATA_SZ : Int)) sd s' hrec
              (Dused _ used_c_li).1
            refine ⟨?_, ?_, ?_⟩
            · have Dprev := Dused prev used_c_prev
              have hfr := IHframe prev Dprev.1 hne_prev
              have hnx2 : chunk_next s' prev = some (some (.sm l i)) := by
                rw [hfr.2, Dprev.2, hnx_c]
              exact chain_length_cons hnx2 IHchain
            · intro q hq hqp
              have hqli : q ≠ ChunkRef.sm l i := by
                intro hh
                rw [hh, hfree] at hq
                cases hq
              have h1 : chunk_used sp q = true := (Epop q).1.trans hq
              have h2 := accEq_setChunkS hsetb q hqli
              have h3 : chunk_used sb q = true := h2.1.trans h1
              have h4 := Efr_c q hqp
              have h5 : chunk_used sc q = true := h4.1.trans h3
              have h6 := Dused q h5
              have h7 := IHframe q h6.1 hqli
              refine ⟨h7.1, ?_⟩
              rw [h7.2, h6.2, h4.2.1, h2.2.1, (Epop q).2.1]
            · intro hd hhd0
              have htli : t ≠ ChunkRef.sm l i := by
                intro hh
                have hu := headerOf_some_used hhd0
                rw [hh, hfree] at hu
                cases hu
              have hb0 : headerOf sp t = some hd := by
                rw [(Epop t).2.2, hhd0]
              have hb1 : headerOf sb t = some hd := by
                rw [(accEq_setChunkS hsetb t htli).2.2, hb0]
              have step_c : ∃ hdc, headerOf sc t = some hdc ∧
                  HdPres hd hdc := by
                by_cases htp : t = prev
                · subst htp
                  exact ⟨{ hd with next_chunk := some (.sm l i) },
                    hhd_c hd hb1, rfl, rfl, rfl, rfl, rfl, rfl, rfl, rfl,
                    rfl⟩
                · exact ⟨hd, by rw [(Efr_c t htp).2.2, hb1],
                    HdPres_refl hd⟩
              obtain ⟨hdc, hc1, hc2⟩ := step_c
              obtain ⟨hdd, hd1, hd2p⟩ := Dhd hdc hc1
              obtain ⟨hd2, he1, he2⟩ := IHhd hdd hd1
              exact ⟨hd2, he1, HdPres_trans (HdPres_trans hc2 hd2p) he2⟩
          split at h
          · simp only [Option.bind_eq_some] at h
            obtain ⟨p, hstamp, h⟩ := h
            obtain ⟨ts, ip⟩ := p
            simp only [Option.bind_eq_some] at h
            obtain ⟨th, hth, sd, hsh, hrec⟩ := h
            obtain ⟨hhd_d, used_d_t, next_d_t, hpack, Efr_d⟩ :=
              setHeader_spec hsh
            obtain ⟨th0, hth0, hnext0, hused0t⟩ := hpack
            have hth0e : th = th0 := by
              rw [hth] at hth0
              exact Option.some.inj hth0
            subst hth0e
            refine key sd hrec ?_ ?_
            · intro q hq
              by_cases hqt : q = t
              · subst hqt
                refine ⟨used_d_t, ?_⟩
                rw [next_d_t, hnext0]
              · exact ⟨(Efr_d q hqt).1.trans hq, (Efr_d q hqt).2.1⟩
            · intro hd0 hh
              rw [hth] at hh
              have he : th = hd0 := Option.some.inj hh
              subst he
              exact ⟨_, hhd_d, rfl, rfl, rfl, rfl, rfl, rfl, rfl, rfl,
                orStamp_valid _ _ _⟩
          · exact key sc h (fun q hq => ⟨hq, rfl⟩)
              (fun hd0 hh => ⟨hd0, hh, HdPres_refl hd0⟩)


theorem alloc_large_bodies_spec {P : Params} {t : ChunkRef} :
    ∀ (n : Nat) (prev : ChunkRef) (off : Int) (s s' : State),
      alloc_large_bodies P t n prev off s = some s' →
      chunk_used s prev = true →
      chain_length s' (n + 1) (some prev) = some (n + 1) ∧
      (∀ q, chunk_used s q = true → q ≠ prev →
        chunk_used s' q = true ∧ chunk_next s' q = chunk_next s q) ∧
      (∀ hd, headerOf s t = some hd →
        ∃ hd2, headerOf s' t = some hd2 ∧ HdPres hd hd2) := by
  intro n
  induction n with
  | zero =>
      intro prev off s s' h hprev
      obtain ⟨hnx, husedp, hhdp, hfr⟩ :=
        patch_next_spec (show patch_next_field s prev none = some s' from h)
      refine ⟨chain_length_cons hnx rfl, ?_, ?_⟩
      · intro q hq hqp
        obtain ⟨u1, u2, u3⟩ := hfr q hqp
        exact ⟨u1.trans hq, u2⟩
      · intro hd hhd0
        by_cases ht : t = prev
        · subst ht
          exact ⟨{ hd with next_chunk := none }, hhdp hd hhd0,
            rfl, rfl, rfl, rfl, rfl, rfl, rfl, rfl, rfl⟩
        · obtain ⟨u1, u2, u3⟩ := hfr t ht
          exact ⟨hd, by rw [u3, hhd0], HdPres_refl hd⟩
  | succ m ih =>
      intro prev off s s' h hprev
      simp only [alloc_large_bodies, Option.bind_eq_bind,
        Option.bind_eq_some] at h
      obtain ⟨ro, hpop, h⟩ := h
      cases ro with
      | none => cases h
      | some q0 =>
          obtain ⟨id, sp⟩ := q0
          simp only [Option.bind_eq_some] at h
          obtain ⟨sb, hsetb, sc, hpatch, h⟩ := h
          obtain ⟨hfree, havail, Epop⟩ := pop_large_spec hpop
          have hprev_sp : chunk_used sp prev = true :=
            (Epop prev).1.trans hprev
          have hne_prev : prev ≠ ChunkRef.lg id := by
            intro hh
            rw [hh, hfree] at hprev
            cases hprev
          have hselfb := getChunkL_setChunkL_self hsetb
          have used_b : chunk_used sb (ChunkRef.lg id) = true := by
            simp [chunk_used, hselfb]
          have Eset : ∀ q, q ≠ ChunkRef.lg id → AccEq sp sb q := by
            intro q hq
            cases q with
            | lg j =>
                exact accEq_setChunkL_lg hsetb (fun hh => hq (by rw [hh]))
            | sm l2 i2 =>
                by_cases hl : l2 = id
                · subst hl
                  exact accEq_sm (by simp [getChunkS, hselfb, havail])
                · exact accEq_setChunkL_sm hsetb hl
          obtain ⟨hnx_c, husedc, hhd_c, Efr_c⟩ := patch_next_spec hpatch
          have hneli : ChunkRef.lg id ≠ prev := fun hh => hne_prev hh.symm
          have used_c_li : chunk_used sc (ChunkRef.lg id) = true :=
            ((Efr_c _ hneli).1).trans used_b
          have used_c_prev : chunk_used sc prev = true := by
            rw [husedc, (Eset prev hne_prev).1, hprev_sp]
          have key : ∀ sd : State,
              alloc_large_bodies P t m (ChunkRef.lg id)
                (off - (P.LARGE_BODY_CHUNK_DATA_SZ : Int)) sd = some s' →
              (∀ q, chunk_used sc q = true →
                chunk_used sd q = true ∧
                chunk_next sd q = chunk_next sc q) →
              (∀ hd0, headerOf sc t = some hd0 →
                ∃ hd2, headerOf sd t = some hd2 ∧ HdPres hd0 hd2) →
              chain_length s' (m + 1 + 1) (some prev) = some (m + 1 + 1) ∧
              (∀ q, chunk_used s q = true → q ≠ prev →
                chunk_used s' q = true ∧ chunk_next s' q = chunk_next s q) ∧
              (∀ hd, headerOf s t = some hd →
                ∃ hd2, headerOf s' t = some hd2 ∧ HdPres hd hd2) := by
            intro sd hrec Dused Dhd
            obtain ⟨IHchain, IHframe, IHhd⟩ := ih (ChunkRef.lg id)
              (off - (P.LARGE_BODY_CHUNK_DATA_SZ : Int)) sd s' hrec
              (Dused _ used_c_li).1
            refine ⟨?_, ?_, ?_⟩
            · have Dprev := Dused prev used_c_prev
              have hfr := IHframe prev Dprev.1 hne_prev
              have hnx2 : chunk_next s' prev = some (some (.lg id)) := by
                rw [hfr.2, Dprev.2, hnx_c]
              exact chain_length_cons hnx2 IHchain
            · intro q hq hqp
              have hqli : q ≠ ChunkRef.lg id := by
                intro hh
                rw [hh, hfree] at hq
                cases hq
              have h1 : chunk_used sp q = true := (Epop q).1.trans hq
              have h2 := Eset q hqli
              have h3 : chunk_used sb q = true := h2.1.trans h1
              have h4 := Efr_c q hqp
              have h5 : chunk_used sc q = true := h4.1.trans h3
              have h6 := Dused q h5
              have h7 := IHframe q h6.1 hqli
              refine ⟨h7.1, ?_⟩
              rw [h7.2, h6.2, h4.2.1, h2.2.1, (Epop q).2.1]
            · intro hd hhd0
              have htli : t ≠ ChunkRef.lg id := by
                intro hh
                have hu := headerOf_some_used hhd0
                rw [hh, hfree] at hu
                cases hu
              have hb0 : headerOf sp t = some hd := by
                rw [(Epop t).2.2, hhd0]
              have hb1 : headerOf sb t = some hd := by
                rw [(Eset t htli).2.2, hb0]
              have step_c : ∃ hdc, headerOf sc t = some hdc ∧
                  HdPres hd hdc := by
                by_cases htp : t = prev
                · subst htp
                  exact ⟨{ hd with next_chunk := some (.lg id) },
                    hhd_c hd hb1, rfl, rfl, rfl, rfl, rfl, rfl, rfl, rfl,
                    rfl⟩
                · exact ⟨hd, by rw [(Efr_c t htp).2.2, hb1],
                    HdPres_refl hd⟩
              obtain ⟨hdc, hc1, hc2⟩ := step_c
              obtain ⟨hdd, hd1, hd2p⟩ := Dhd hdc hc1
              obtain ⟨hd2, he1, he2⟩ := IHhd hdd hd1
              exact ⟨hd2, he1, HdPres_trans (HdPres_trans hc2 hd2p) he2⟩
          split at h
          · simp only [Option.bind_eq_some] at h
            obtain ⟨p, hstamp, h⟩ := h
            obtain ⟨ts, ip⟩ := p
            simp only [Option.bind_eq_some] at h
            obtain ⟨th, hth, sd, hsh, hrec⟩ := h
            obtain ⟨hhd_d, used_d_t, next_d_t, hpack, Efr_d⟩ :=
              setHeader_spec hsh
            obtain ⟨th0, hth0, hnext0, hused0t⟩ := hpack
            have hth0e : th = th0 := by
              rw [hth] at hth0
              exact Option.some.inj hth0
            subst hth0e
            refine key sd hrec ?_ ?_
            · intro q hq
              by_cases hqt : q = t
              · subst hqt
                refine ⟨used_d_t, ?_⟩
                rw [next_d_t, hnext0]
              · exact ⟨(Efr_d q hqt).1.trans hq, (Efr_d q hqt).2.1⟩
            · intro hd0 hh
              rw [hth] at hh
              have he : th = hd0 := Option.some.inj hh
              subst he
              exact ⟨_, hhd_d, rfl, rfl, rfl, rfl, rfl, rfl, rfl, rfl,
                orStamp_valid _ _ _⟩
          · exact key sc h (fun q hq => ⟨hq, rfl⟩)
              (fun hd0 hh => ⟨hd0, hh, HdPres_refl hd0⟩)


/-- **C2**: whenever `do_item_alloc` returns a non-NULL item, that
item's header has `refcount = 1`, `it_flags` containing `ITEM_VALID`,
`nkey`, `nbytes`, `exptime` and `flags` equal to the arguments, null
`h_next`, `next` and `prev` links, and its forward `next_chunk` chain
consists of exactly `chunks_needed(nkey, nbytes)` chunks terminated by
`NULL_CHUNKPTR`. -/
theorem C2_alloc_item_shape {P : Params} {env : Env} {key : List Nat}
    {nkey : Nat} {flags : Int} {exptime nbytes : Nat} {s : State}
    {it : ChunkRef} {s2 : State}
    (h : do_item_alloc P env key nkey flags exptime nbytes s =
      some (some it, s2)) :
    ∃ hd, headerOf s2 it = some hd ∧
      hd.refcount = 1 ∧ hd.it_flags.valid = true ∧
      hd.nkey = nkey ∧ hd.nbytes = nbytes ∧ hd.exptime = exptime ∧
      hd.flags = flags ∧ hd.h_next = none ∧ hd.next = none ∧
      hd.prev = none ∧
      chain_length s2 (P.chunks_needed nkey nbytes) (some it) =
        some (P.chunks_needed nkey nbytes) := by
  have hone : P.chunks_needed nkey nbytes - 1 + 1 =
      P.chunks_needed nkey nbytes := by
    have := P.chunks_needed_pos nkey nbytes
    omega
  unfold do_item_alloc at h
  by_cases hsz : item_size_ok P nkey flags nbytes = false
  · rw [if_pos hsz] at h
    simp at h
  · rw [if_neg hsz] at h
    by_cases hlg : P.is_large_chunk nkey nbytes = true
    · rw [if_pos hlg] at h
      simp only [Option.bind_eq_bind] at h
      cases hacq : acquire_large P env (P.chunks_needed nkey nbytes)
          (allocFuel P s) none s with
      | none => rw [hacq] at h; cases h
      | some p =>
          obtain ⟨got, s1⟩ := p
          rw [hacq] at h
          simp only [Option.some_bind] at h
          cases got with
          | false =>
              rw [if_pos rfl] at h
              simp at h
          | true =>
              rw [if_neg (by simp)] at h
              simp only [Option.bind_eq_some] at h
              obtain ⟨ro, hpop, h⟩ := h
              cases ro with
              | none => cases h
              | some q =>
                  obtain ⟨tid, s3⟩ := q
                  simp only [Option.bind_eq_some] at h
                  obtain ⟨s4, hset, h⟩ := h
                  have hself := getChunkL_setChunkL_self hset
                  split at h
                  · simp only [Option.bind_eq_some] at h
                    obtain ⟨p2, hstamp, h⟩ := h
                    obtain ⟨ts, ip⟩ := p2
                    simp only [Option.bind_eq_some, Option.some.injEq,
                      Prod.mk.injEq] at h
                    obtain ⟨s5, hset2, s6, hbodies, hit, hs2⟩ := h
                    subst hit
                    subst hs2
                    have hself2 := getChunkL_setChunkL_self hset2
                    obtain ⟨Cchain, Cframe, Chd⟩ :=
                      alloc_large_bodies_spec _ _ _ _ _ hbodies
                        (by
                          have hu : chunk_used s5 (ChunkRef.lg tid) =
                              true := by simp [chunk_used, hself2]
                          exact hu)
                    obtain ⟨hd2, hhd2, hp⟩ :=
                      Chd
                        { h_next := none,
                          next := none,
                          prev := none,
                          next_chunk := none,
                          time := 0,
                          exptime := exptime,
                          nbytes := nbytes,
                          nkey := nkey,
                          refcount := 1,
                          it_flags := orStamp ITEM_VALID_only ts ip,
                          flags := flags,
                          keyBytes := List.take nkey key }
                        (by
                          have hh : headerOf s5 (ChunkRef.lg tid) =
                              some
                              { h_next := none,
                                next := none,
                                prev := none,
                                next_chunk := none,
                                time := 0,
                                exptime := exptime,
                                nbytes := nbytes,
                                nkey := nkey,
                                refcount := 1,
                                it_flags := orStamp ITEM_VALID_only ts ip,
                                flags := flags,
                                keyBytes := List.take nkey key } := by
                            simp [headerOf, hself2]
                          exact hh)
                    refine ⟨hd2, hhd2, hp.1, ?_, hp.2.1, hp.2.2.1,
                      hp.2.2.2.1, hp.2.2.2.2.1, hp.2.2.2.2.2.1,
                      hp.2.2.2.2.2.2.1, hp.2.2.2.2.2.2.2.1, ?_⟩
                    · exact hp.2.2.2.2.2.2.2.2
                    · rw [← hone]
                      exact Cchain
                  · simp only [Option.bind_eq_some, Option.some.injEq,
                      Prod.mk.injEq] at h
                    obtain ⟨s6, hbodies, hit, hs2⟩ := h
                    subst hit
                    subst hs2
                    obtain ⟨Cchain, Cframe, Chd⟩ :=
                      alloc_large_bodies_spec _ _ _ _ _ hbodies
                        (by
                          have hu : chunk_used s4 (ChunkRef.lg tid) =
                              true := by simp [chunk_used, hself]
                          exact hu)
                    obtain ⟨hd2, hhd2, hp⟩ :=
                      Chd
                        { h_next := none,
                          next := none,
                          prev := none,
                          next_chunk := none,
                          time := 0,
                          exptime := exptime,
                          nbytes := nbytes,
                          nkey := nkey,
                          refcount := 1,
                          it_flags := ITEM_VALID_only,
                          flags := flags,
                          keyBytes := List.take nkey key }
                        (by
                          have hh : headerOf s4 (ChunkRef.lg tid) =
                              some
                              { h_next := none,
                                next := none,
                                prev := none,
                                next_chunk := none,
                                time := 0,
                                exptime := exptime,
                                nbytes := nbytes,
                                nkey := nkey,
                                refcount := 1,
                                it_flags := ITEM_VALID_only,
                                flags := flags,
                                keyBytes := List.take nkey key } := by
                            simp [headerOf, hself]
                          exact hh)
                    refine ⟨hd2, hhd2, hp.1, ?_, hp.2.1, hp.2.2.1,
                      hp.2.2.2.1, hp.2.2.2.2.1, hp.2.2.2.2.2.1,
                      hp.2.2.2.2.2.2.1, hp.2.2.2.2.2.2.2.1, ?_⟩
                    · exact hp.2.2.2.2.2.2.2.2
                    · rw [← hone]
                      exact Cchain
    · rw [if_neg hlg] at h
      simp only [Option.bind_eq_bind] at h
      cases hacq : acquire_small P env (P.chunks_needed nkey nbytes)
          (allocFuel P s) none s with
      | none => rw [hacq] at h; cases h
      | some p =>
          obtain ⟨got, s1⟩ := p
          rw [hacq] at h
          simp only [Option.some_bind] at h
          cases got with
          | false =>
              rw [if_pos rfl] at h
              simp at h
          | true =>
              rw [if_neg (by simp)] at h
              simp only [Option.bind_eq_some] at h
              obtain ⟨ro, hpop, h⟩ := h
              cases ro with
              | none => cases h
              | some q =>
                  obtain ⟨⟨tl, ti⟩, s3⟩ := q
                  simp only [Option.bind_eq_some] at h
                  obtain ⟨s4, hset, h⟩ := h
                  have hself := getChunkS_setChunkS_self hset
                  split at h
                  · simp only [Option.bind_eq_some] at h
                    obtain ⟨p2, hstamp, h⟩ := h
                    obtain ⟨ts, ip⟩ := p2
                    simp only [Option.bind_eq_some, Option.some.injEq,
                      Prod.mk.injEq] at h
                    obtain ⟨s5, hset2, s6, hbodies, hit, hs2⟩ := h
                    subst hit
                    subst hs2
                    have hself2 := getChunkS_setChunkS_self hset2
                    obtain ⟨Cchain, Cframe, Chd⟩ :=
                      alloc_small_bodies_spec _ _ _ _ _ hbodies
                        (by
                          have hu : chunk_used s5 (ChunkRef.sm tl ti) =
                              true := by simp [chunk_used, hself2]
                          exact hu)
                    obtain ⟨hd2, hhd2, hp⟩ :=
                      Chd
                        { h_next := none,
                          next := none,
                          prev := none,
                          next_chunk := none,
                          time := 0,
                          exptime := exptime,
                          nbytes := nbytes,
                          nkey := nkey,
                          refcount := 1,
                          it_flags := orStamp ITEM_VALID_only ts ip,
                          flags := flags,
                          keyBytes := List.take nkey key }
                        (by
                          have hh : headerOf s5 (ChunkRef.sm tl ti) =
                              some
                              { h_next := none,
                                next := none,
                                prev := none,
                                next_chunk := none,
                                time := 0,
                                exptime := exptime,
                                nbytes := nbytes,
                                nkey := nkey,
                                refcount := 1,
                                it_flags := orStamp ITEM_VALID_only ts ip,
                                flags := flags,
                                keyBytes := List.take nkey key } := by
                            simp [headerOf, hself2]
                          exact hh)
                    refine ⟨hd2, hhd2, hp.1, ?_, hp.2.1, hp.2.2.1,
                      hp.2.2.2.1, hp.2.2.2.2.1, hp.2.2.2.2.2.1,
                      hp.2.2.2.2.2.2.1, hp.2.2.2.2.2.2.2.1, ?_⟩
                    · exact hp.2.2.2.2.2.2.2.2
                    · rw [← hone]
                      exact Cchain
                  · simp only [Option.bind_eq_some, Option.some.injEq,
                      Prod.mk.injEq] at h
                    obtain ⟨s6, hbodies, hit, hs2⟩ := h
                    subst hit
                    subst hs2
                    obtain ⟨Cchain, Cframe, Chd⟩ :=
                      alloc_small_bodies_spec _ _ _ _ _ hbodies
                        (by
                          have hu : chunk_used s4 (ChunkRef.sm tl ti) =
                              true := by simp [chunk_used, hself]
                          exact hu)
                    obtain ⟨hd2, hhd2, hp⟩ :=
                      Chd
                        { h_next := none,
                          next := none,
                          prev := none,
                          next_chunk := none,
                          time := 0,
                          exptime := exptime,
                          nbytes := nbytes,
                          nkey := nkey,
                          refcount := 1,
                          it_flags := ITEM_VALID_only,
                          flags := flags,
                          keyBytes := List.take nkey key }
                        (by
                          have hh : headerOf s4 (ChunkRef.sm tl ti) =
                              some
                              { h_next := none,
                                next := none,
                                prev := none,
                                next_chunk := none,
                                time := 0,
                                exptime := exptime,
                                nbytes := nbytes,
                                nkey := nkey,
                                refcount := 1,
                                it_flags := ITEM_VALID_only,
                                flags := flags,
                                keyBytes := List.take nkey key } := by
                            simp [headerOf, hself]
                          exact hh)
                    refine ⟨hd2, hhd2, hp.1, ?_, hp.2.1, hp.2.2.1,
                      hp.2.2.2.1, hp.2.2.2.2.1, hp.2.2.2.2.2.1,
                      hp.2.2.2.2.2.2.1, hp.2.2.2.2.2.2.2.1, ?_⟩
                    · exact hp.2.2.2.2.2.2.2.2
                    · rw [← hone]
                      exact Cchain

theorem C2_witness :
    do_item_alloc Pw Ew [7] 1 0 0 2 S0w = some (some IT1, S1w) ∧
    ∃ hd, headerOf S1w IT1 = some hd ∧
      hd.refcount = 1 ∧ hd.it_flags.valid = true ∧
      hd.nkey = 1 ∧ hd.nbytes = 2 ∧ hd.exptime = 0 ∧
      hd.flags = 0 ∧ hd.h_next = none ∧ hd.next = none ∧
      hd.prev = none ∧
      chain_length S1w (Pw.chunks_needed 1 2) (some IT1) =
        some (Pw.chunks_needed 1 2) :=
  ⟨by decide,
    C2_alloc_item_shape
      (show do_item_alloc Pw Ew [7] 1 0 0 2 S0w = some (some IT1, S1w)
        from by decide)⟩


/-! ## C3: break/unbreak parity -/

theorem pt_refl (s : State) : PT s s := ⟨rfl, rfl, rfl, rfl⟩

theorem PT.pcomp {s1 s2 s3 : State} (h1 : PT s1 s2) (h2 : PT s2 s3) :
    PT s1 s3 :=
  ⟨h2.1.trans h1.1, h2.2.1.trans h1.2.1, h2.2.2.1.trans h1.2.2.1,
    h2.2.2.2.trans h1.2.2.2⟩

theorem ParityOK_of_PT {s s2 : State} (h : PT s s2) (hp : ParityOK s) :
    ParityOK s2 := by
  obtain ⟨h1, h2, h3, h4⟩ := h
  obtain ⟨p1, p2⟩ := hp
  exact ⟨by rw [h1, h2, h3]; exact p1, by rw [h3, h4]; exact p2⟩

theorem pt_setChunkL_keep {s : State} {j : Nat} {c0 c : LargeChunk}
    {s2 : State} (hget : getChunkL s j = some c0)
    (hb : isBrokenC c = isBrokenC c0)
    (hs : setChunkL s j c = some s2) : PT s s2 := by
  obtain ⟨hlt, rfl⟩ := setChunkL_some hs
  exact ⟨rfl, rfl, rfl, countP_set_keep isBrokenC s.chunks j c0 c hget hb⟩

theorem pt_setChunkS {s : State} {l2 i : Nat} {c : SmallChunk} {s2 : State}
    (hs : setChunkS s l2 i c = some s2) : PT s s2 := by
  obtain ⟨ch, a, hget, hlt2, hset⟩ := setChunkS_some hs
  exact pt_setChunkL_keep hget (by simp [isBrokenC]) hset

theorem pt_setAllocated {s : State} {l2 a2 : Nat} {s2 : State}
    (hs : setAllocated s l2 a2 = some s2) : PT s s2 := by
  obtain ⟨ch, a, hget, hset⟩ := setAllocated_spec hs
  exact pt_setChunkL_keep hget (by simp [isBrokenC]) hset

theorem pt_setHeader {s : State} {r : ChunkRef} {h : ItemHeader}
    {s2 : State} (hs : setHeader s r h = some s2) : PT s s2 := by
  cases r with
  | lg id =>
      simp only [setHeader] at hs
      split at hs
      case h_1 heq => exact pt_setChunkL_keep heq (by simp [isBrokenC]) hs
      all_goals cases hs
  | sm l i =>
      simp only [setHeader] at hs
      split at hs
      case h_1 heq => exact pt_setChunkS hs
      all_goals cases hs

theorem pt_patch_next_field {s : State} {r : ChunkRef}
    {v : Option ChunkRef} {s2 : State}
    (hs : patch_next_field s r v = some s2) : PT s s2 := by
  cases r with
  | lg id =>
      simp only [patch_next_field] at hs
      split at hs
      case h_1 heq => exact pt_setChunkL_keep heq (by simp [isBrokenC]) hs
      case h_2 heq => exact pt_setChunkL_keep heq (by simp [isBrokenC]) hs
      all_goals cases hs
  | sm l i =>
      simp only [patch_next_field] at hs
      split at hs
      case h_1 heq => exact pt_setChunkS hs
      case h_2 heq => exact pt_setChunkS hs
      all_goals cases hs

theorem pt_free_list_push_large {s : State} {id : Nat} {s2 : State}
    (hs : free_list_push_large s id = some s2) : PT s s2 := by
  unfold free_list_push_large at hs
  split at hs
  case h_1 heq =>
    obtain ⟨hlt, hrw⟩ := setChunkL_some hs
    subst hrw
    exact ⟨rfl, rfl, rfl,
      countP_set_keep isBrokenC s.chunks id _ _ heq (by simp [isBrokenC])⟩
  all_goals cases hs

theorem pt_free_list_pop_large {s : State} {id : Nat} {s2 : State}
    (hs : free_list_pop_large s = some (some (id, s2))) : PT s s2 := by
  unfold free_list_pop_large at hs
  split at hs
  · cases hs
  case h_2 id0 rest heq =>
    split at hs
    case h_1 hfr =>
      simp only [Option.bind_eq_bind] at hs
      cases hset : setChunkL { s with large_free_list := rest } id0 .availL
        with
      | none => rw [hset] at hs; cases hs
      | some sA =>
          rw [hset] at hs
          simp only [Option.some_bind, Option.some.injEq, Prod.mk.injEq]
            at hs
          obtain ⟨h1, h2⟩ := hs
          subst h2
          obtain ⟨hlt, hrw⟩ := setChunkL_some hset
          subst hrw
          exact ⟨rfl, rfl, rfl,
            countP_set_keep isBrokenC s.chunks id0 _ _ hfr
              (by simp [isBrokenC])⟩
    all_goals cases hs

theorem pt_free_list_pop_small {P : Params} {s : State} {l i : Nat}
    {s2 : State} (hs : free_list_pop_small P s = some (some ((l, i), s2))) :
    PT s s2 := by
  unfold free_list_pop_small at hs
  split at hs
  · cases hs
  case h_2 l0 i0 rest heq =>
    split at hs
    case h_1 ch a hpar =>
      split at hs
      case isTrue =>
        simp only [Option.bind_eq_bind] at hs
        cases hA : setAllocated { s with stats := { s.stats with
            broken_chunk_histogram :=
              histInc (histDec s.stats.broken_chunk_histogram a) (a + 1) } }
            l0 (a + 1) with
        | none => rw [hA] at hs; cases hs
        | some sA =>
            rw [hA] at hs
            simp only [Option.some_bind] at hs
            split at hs
            case h_1 hfr =>
              cases hB : setChunkS { sA with small_free_list := rest } l0 i0
                  .availS with
              | none => rw [hB] at hs; cases hs
              | some sB =>
                  rw [hB] at hs
                  simp only [Option.some_bind, Option.some.injEq,
                    Prod.mk.injEq] at hs
                  obtain ⟨⟨h1, h2⟩, h3⟩ := hs
                  subst h3
                  have c2 := pt_setChunkS hB
                  exact (pt_setAllocated hA).pcomp c2
            all_goals cases hs
      case isFalse => cases hs
    all_goals cases hs

theorem pt_unbreak_child {s : State} {l i : Nat} {s2 : State}
    (h : unbreak_child s l i = some s2) : PT s s2 := by
  unfold unbreak_child at h
  split at h
  case h_1 =>
    split at h
    · have c := pt_setChunkS h
      exact c
    · cases h
  case h_2 =>
    cases h
    exact pt_refl _
  all_goals cases h

theorem pt_unbreak_children {l : Nat} :
    ∀ (idxs : List Nat) (s s2 : State),
      unbreak_children l idxs s = some s2 → PT s s2 := by
  intro idxs
  induction idxs with
  | nil =>
      intro s s2 h
      cases h
      exact pt_refl _
  | cons i rest ih =>
      intro s s2 h
      simp only [unbreak_children, Option.bind_eq_bind] at h
      cases hA : unbreak_child s l i with
      | none => rw [hA] at h; cases h
      | some sA =>
          rw [hA] at h
          simp only [Option.some_bind] at h
          exact (pt_unbreak_child hA).pcomp (ih sA s2 h)

theorem pt_coalesce_strip_child {s : State} {l i : Nat} {s2 : State}
    (h : coalesce_strip_child s l i = some s2) : PT s s2 := by
  unfold coalesce_strip_child at h
  split at h
  case h_1 =>
    split at h
    · have c := pt_setChunkS h
      exact c
    · cases h
  case h_2 =>
    cases h
    exact pt_refl _
  case h_3 => cases h

theorem pt_coalesce_strip {l : Nat} :
    ∀ (idxs : List Nat) (s s2 : State),
      coalesce_strip l idxs s = some s2 → PT s s2 := by
  intro idxs
  induction idxs with
  | nil =>
      intro s s2 h
      cases h
      exact pt_refl _
  | cons i rest ih =>
      intro s s2 h
      simp only [coalesce_strip, Option.bind_eq_bind] at h
      cases hA : coalesce_strip_child s l i with
      | none => rw [hA] at h; cases h
      | some sA =>
          rw [hA] at h
          simp only [Option.some_bind] at h
          exact (pt_coalesce_strip_child hA).pcomp (ih sA s2 h)

theorem pt_coalesce_relink_next {s : State} {old new : ChunkRef}
    {nx : Option ChunkRef} {s2 : State}
    (hs : coalesce_relink_next s old new nx = some s2) : PT s s2 := by
  cases nx with
  | none =>
      simp only [coalesce_relink_next] at hs
      split at hs
      · cases hs; exact pt_refl _
      · cases hs
  | some nr =>
      simp only [coalesce_relink_next, Option.bind_eq_bind] at hs
      cases hq : headerOf s nr with
      | none => rw [hq] at hs; cases hs
      | some nh =>
          rw [hq] at hs
          simp only [Option.some_bind] at hs
          split at hs
          · exact pt_setHeader hs
          · cases hs

theorem pt_coalesce_relink_prev {s : State} {old new : ChunkRef}
    {pv : Option ChunkRef} {s2 : State}
    (hs : coalesce_relink_prev s old new pv = some s2) : PT s s2 := by
  cases pv with
  | none =>
      simp only [coalesce_relink_prev] at hs
      split at hs
      · cases hs; exact pt_refl _
      · cases hs
  | some pr =>
      simp only [coalesce_relink_prev, Option.bind_eq_bind] at hs
      cases hq : headerOf s pr with
      | none => rw [hq] at hs; cases hs
      | some ph =>
          rw [hq] at hs
          simp only [Option.some_bind] at hs
          split at hs
          · exact pt_setHeader hs
          · cases hs

theorem pt_coalesce_relink_next_chunk {s : State} {old new : ChunkRef}
    {nc : Option ChunkRef} {s2 : State}
    (hs : coalesce_relink_next_chunk s old new nc = some s2) : PT s s2 := by
  unfold coalesce_relink_next_chunk at hs
  split at hs
  case h_1 =>
    split at hs
    case h_1 =>
      split at hs
      · exact pt_setChunkS hs
      · cases hs
    all_goals cases hs
  case h_2 => cases hs
  case h_3 =>
    cases hs
    exact pt_refl _

theorem pt_coalesce_fix_prev_link {s : State} {new : ChunkRef}
    {pv : Option ChunkRef} {s2 : State}
    (hs : coalesce_fix_prev_link s new pv = some s2) : PT s s2 := by
  unfold coalesce_fix_prev_link at hs
  split at hs
  case h_1 =>
    split at hs
    case h_1 => exact pt_setChunkS hs
    case h_2 => exact pt_setChunkS hs
    all_goals cases hs
  case h_2 => cases hs

theorem pt_coalesce_fix_title {s : State} {old new : ChunkRef}
    {h : ItemHeader} {s2 : State}
    (hs : coalesce_fix_title s old new h = some s2) : PT s s2 := by
  unfold coalesce_fix_title at hs
  simp only [Option.bind_eq_bind] at hs
  cases hA : coalesce_relink_next s old new h.next with
  | none => rw [hA] at hs; cases hs
  | some s1 =>
      rw [hA] at hs
      simp only [Option.some_bind] at hs
      cases hB : coalesce_relink_prev s1 old new h.prev with
      | none => rw [hB] at hs; cases hs
      | some sb =>
          rw [hB] at hs
          simp only [Option.some_bind] at hs
          cases hC : coalesce_relink_next_chunk sb old new h.next_chunk with
          | none => rw [hC] at hs; cases hs
          | some s3 =>
              rw [hC] at hs
              simp only [Option.some_bind, Option.some.injEq] at hs
              subst hs
              exact ((pt_coalesce_relink_next hA).pcomp
                ((pt_coalesce_relink_prev hB).pcomp
                  (pt_coalesce_relink_next_chunk hC))).pcomp (pt_refl _)

theorem pt_coalesce_fix_body {s : State} {old new : ChunkRef}
    {p n : Option ChunkRef} {s2 : State}
    (hs : coalesce_fix_body s old new p n = some s2) : PT s s2 := by
  unfold coalesce_fix_body at hs
  simp only [Option.bind_eq_bind] at hs
  cases hA : coalesce_fix_prev_link s new p with
  | none => rw [hA] at hs; cases hs
  | some s1 =>
      rw [hA] at hs
      simp only [Option.some_bind] at hs
      cases hB : coalesce_relink_next_chunk s1 old new n with
      | none => rw [hB] at hs; cases hs
      | some sb =>
          rw [hB] at hs
          simp only [Option.some_bind, Option.some.injEq] at hs
          subst hs
          exact (pt_coalesce_fix_prev_link hA).pcomp
            (pt_coalesce_relink_next_chunk hB)

theorem pt_coalesce_migrate_child {P : Params} {s : State} {l i : Nat}
    {s2 : State} (h : coalesce_migrate_child P s l i = some s2) :
    PT s s2 := by
  unfold coalesce_migrate_child at h
  split at h
  case h_1 => cases h
  case h_2 hd hdeq =>
      simp only [Option.bind_eq_bind] at h
      cases hp : free_list_pop_small P s with
      | none => rw [hp] at h; cases h
      | some r =>
          rw [hp] at h
          simp only [Option.some_bind] at h
          cases r with
          | none => cases h
          | some pr =>
              obtain ⟨⟨rl, ri⟩, s1⟩ := pr
              simp only [Option.bind_eq_bind] at h
              cases hset : setChunkS s1 rl ri (.titleS hd) with
              | none => rw [hset] at h; cases h
              | some sb =>
                  rw [hset] at h
                  simp only [Option.some_bind] at h
                  cases hfix : coalesce_fix_title sb (.sm l i) (.sm rl ri) hd
                    with
                  | none => rw [hfix] at h; cases h
                  | some s3 =>
                      rw [hfix] at h
                      simp only [Option.some_bind] at h
                      cases hpend : setChunkS s3 l i .pendingS with
                      | none => rw [hpend] at h; cases h
                      | some s4 =>
                          rw [hpend] at h
                          simp only [Option.some_bind] at h
                          split at h
                          case h_1 heq =>
                            exact ((((pt_free_list_pop_small hp).pcomp
                              (pt_setChunkS hset)).pcomp
                              (pt_coalesce_fix_title hfix)).pcomp
                              (pt_setChunkS hpend)).pcomp
                              (pt_setAllocated h)
                          all_goals cases h
  case h_3 p n hpn =>
      simp only [Option.bind_eq_bind] at h
      cases hp : free_list_pop_small P s with
      | none => rw [hp] at h; cases h
      | some r =>
          rw [hp] at h
          simp only [Option.some_bind] at h
          cases r with
          | none => cases h
          | some pr =>
              obtain ⟨⟨rl, ri⟩, s1⟩ := pr
              simp only [Option.bind_eq_bind] at h
              cases hset : setChunkS s1 rl ri (.bodyS p n) with
              | none => rw [hset] at h; cases h
              | some sb =>
                  rw [hset] at h
                  simp only [Option.some_bind] at h
                  cases hfix : coalesce_fix_body sb (.sm l i) (.sm rl ri) p n
                    with
                  | none => rw [hfix] at h; cases h
                  | some s3 =>
                      rw [hfix] at h
                      simp only [Option.some_bind] at h
                      cases hpend : setChunkS s3 l i .pendingS with
                      | none => rw [hpend] at h; cases h
                      | some s4 =>
                          rw [hpend] at h
                          simp only [Option.some_bind] at h
                          split at h
                          case h_1 heq =>
                            exact ((((pt_free_list_pop_small hp).pcomp
                              (pt_setChunkS hset)).pcomp
                              (pt_coalesce_fix_body hfix)).pcomp
                              (pt_setChunkS hpend)).pcomp
                              (pt_setAllocated h)
                          all_goals cases h
  case h_4 =>
      cases h
      exact pt_refl _
  case h_5 => cases h

theorem pt_coalesce_migrate {P : Params} {l : Nat} :
    ∀ (idxs : List Nat) (s s2 : State),
      coalesce_migrate P l idxs s = some s2 → PT s s2 := by
  intro idxs
  induction idxs with
  | nil =>
      intro s s2 h
      cases h
      exact pt_refl _
  | cons i rest ih =>
      intro s s2 h
      simp only [coalesce_migrate, Option.bind_eq_bind] at h
      cases hA : coalesce_migrate_child P s l i with
      | none => rw [hA] at h; cases h
      | some sA =>
          rw [hA] at h
          simp only [Option.some_bind] at h
          exact (pt_coalesce_migrate_child hA).pcomp (ih sA s2 h)


theorem countP_set_inc {α : Type} (p : α → Bool) (l : List α) (i : Nat)
    (a b : α) (hget : l.get? i = some a) (hpa : p a = false)
    (hpb : p b = true) :
    (l.set i b).countP p = l.countP p + 1 := by
  induction l generalizing i with
  | nil => simp at hget
  | cons x xs ih =>
      cases i with
      | zero =>
          simp only [List.get?_cons_zero, Option.some.injEq] at hget
          subst hget
          simp [List.countP_cons, hpa, hpb]
      | succ n =>
          simp only [List.get?_cons_succ] at hget
          have hrec := ih n hget
          simp only [List.set_cons_succ, List.countP_cons]
          omega

theorem pt_free_list_push_small_false {P : Params} {s : State} {l i : Nat}
    {s2 : State} (hs : free_list_push_small P s l i false = some s2) :
    PT s s2 := by
  unfold free_list_push_small at hs
  split at hs
  case h_1 =>
    split at hs
    case h_1 ch a heq =>
      split at hs
      case isTrue => cases hs
      case isFalse ha =>
        simp only [Option.bind_eq_bind] at hs
        cases hA : setAllocated { s with stats := { s.stats with
            broken_chunk_histogram :=
              histInc (histDec s.stats.broken_chunk_histogram a) (a - 1) } }
            l (a - 1) with
        | none => rw [hA] at hs; cases hs
        | some sA =>
            rw [hA] at hs
            simp only [Option.some_bind] at hs
            cases hB : setChunkS { sA with small_free_list :=
                (l, i) :: sA.small_free_list } l i .freeS with
            | none => rw [hB] at hs; cases hs
            | some sB =>
                rw [hB] at hs
                simp only [Option.some_bind] at hs
                rw [if_neg (by simp)] at hs
                simp only [Option.some.injEq] at hs
                subst hs
                have c2 := pt_setChunkS hB
                exact (pt_setAllocated hA).pcomp c2
    all_goals cases hs
  all_goals cases hs

theorem pt_break_children {P : Params} {id : Nat} :
    ∀ (idxs : List Nat) (s s2 : State),
      break_children P id idxs s = some s2 → PT s s2 := by
  intro idxs
  induction idxs with
  | nil =>
      intro s s2 h
      cases h
      exact pt_refl _
  | cons i rest ih =>
      intro s s2 h
      simp only [break_children, Option.bind_eq_bind] at h
      cases hA : setChunkS s id i .availS with
      | none => rw [hA] at h; cases h
      | some sA =>
          rw [hA] at h
          simp only [Option.some_bind] at h
          cases hB : free_list_push_small P sA id i false with
          | none => rw [hB] at h; cases h
          | some sB =>
              rw [hB] at h
              simp only [Option.some_bind] at h
              exact ((pt_setChunkS hA).pcomp
                (pt_free_list_push_small_false hB)).pcomp (ih sB s2 h)

theorem pt_grow_region :
    ∀ (n : Nat) (s s2 : State), grow_region n s = some s2 → PT s s2 := by
  intro n
  induction n with
  | zero =>
      intro s s2 h
      cases h
      exact pt_refl _
  | succ m ih =>
      intro s s2 h
      simp only [grow_region, Option.bind_eq_bind] at h
      cases hA : free_list_push_large { s with
          chunks := s.chunks ++ [LargeChunk.availL],
          unused_chunks := s.unused_chunks - 1 } s.chunks.length with
      | none => rw [hA] at h; cases h
      | some sA =>
          rw [hA] at h
          simp only [Option.some_bind] at h
          have c1 : PT s { s with
              chunks := s.chunks ++ [LargeChunk.availL],
              unused_chunks := s.unused_chunks - 1 } := by
            refine ⟨rfl, rfl, rfl, ?_⟩
            show (s.chunks ++ [LargeChunk.availL]).countP isBrokenC =
              s.chunks.countP isBrokenC
            rw [List.countP_append]
            have h0 : List.countP isBrokenC [LargeChunk.availL] = 0 := rfl
            omega
          exact (c1.pcomp (pt_free_list_push_large hA)).pcomp (ih sA s2 h)

theorem pt_flat_storage_alloc {P : Params} {s : State} {b : Bool}
    {s2 : State} (h : flat_storage_alloc P s = some (b, s2)) : PT s s2 := by
  unfold flat_storage_alloc at h
  split at h
  · simp only [Option.some.injEq, Prod.mk.injEq] at h
    obtain ⟨h1, h2⟩ := h
    subst h2
    exact pt_refl _
  · simp only [Option.bind_eq_bind, Option.bind_eq_some] at h
    obtain ⟨sA, hA, h⟩ := h
    simp only [Option.some.injEq, Prod.mk.injEq] at h
    obtain ⟨h1, h2⟩ := h
    subst h2
    have c := pt_grow_region _ _ _ hA
    exact c

theorem pt_item_link_q {s : State} {it : ChunkRef} {s2 : State}
    (h : item_link_q s it = some s2) : PT s s2 := by
  unfold item_link_q at h
  simp only [Option.bind_eq_bind] at h
  cases hH : headerOf s it with
  | none => rw [hH] at h; cases h
  | some h0 =>
      rw [hH] at h
      simp only [Option.some_bind] at h
      split at h
      · split at h
        case h_1 hd hhd =>
          simp only [Option.bind_eq_some] at h
          obtain ⟨y, hy, hh, hmid, z, hz, h⟩ := h
          have cy := pt_setHeader hy
          have cz := pt_setHeader hz
          split at h
          · simp only [Option.some.injEq] at h
            subst h
            exact cy.pcomp cz
          · simp only [Option.some.injEq] at h
            subst h
            exact cy.pcomp cz
        case h_2 hhd =>
          split at h
          · simp only [Option.some.injEq] at h
            subst h
            exact pt_refl s
          · simp only [Option.some.injEq] at h
            subst h
            exact pt_refl s
      · cases h

theorem pt_item_unlink_q {s : State} {it : ChunkRef} {s2 : State}
    (h : item_unlink_q s it = some s2) : PT s s2 := by
  unfold item_unlink_q at h
  simp only [Option.bind_eq_bind] at h
  cases hH : headerOf s it with
  | none => rw [hH] at h; cases h
  | some h0 =>
      rw [hH] at h
      rw [Option.some_bind] at h
      beta_reduce at h
      by_cases hc1 : s.lru_head = some it
      · rw [if_pos hc1] at h
        by_cases hc2 : h0.prev = none
        · rw [if_pos hc2] at h
          try simp only [Option.some_bind] at h
          by_cases hc3 : s.lru_tail = some it
          · rw [if_pos hc3] at h
            by_cases hc4 : h0.next = none
            · rw [if_pos hc4] at h
              try simp only [Option.some_bind] at h
              cases hnx : h0.next with
              | none =>
                  rw [hnx] at h
                  cases hpv : h0.prev with
                  | none =>
                      rw [hpv] at h
                      simp only [Option.bind_eq_some] at h
                      obtain ⟨h2, hh2, hE⟩ := h
                      have cE := pt_setHeader hE
                      exact cE
                  | some pr =>
                      rw [hpv] at h
                      simp only [Option.bind_eq_some] at h
                      obtain ⟨ph, hph, w, hw, h2, hh2, hE⟩ := h
                      have cw := pt_setHeader hw
                      have cE := pt_setHeader hE
                      exact cw.pcomp cE
              | some nr =>
                  rw [hnx] at h
                  cases hpv : h0.prev with
                  | none =>
                      rw [hpv] at h
                      simp only [Option.bind_eq_some] at h
                      obtain ⟨nh, hnh, z, hz, h2, hh2, hE⟩ := h
                      have cz := pt_setHeader hz
                      have cE := pt_setHeader hE
                      exact cz.pcomp cE
                  | some pr =>
                      rw [hpv] at h
                      simp only [Option.bind_eq_some] at h
                      obtain ⟨nh, hnh, z, hz, ph, hph, w, hw, h2, hh2, hE⟩ := h
                      have cz := pt_setHeader hz
                      have cw := pt_setHeader hw
                      exact cz.pcomp (cw.pcomp (pt_setHeader hE))
            · rw [if_neg hc4] at h
              cases h
          · rw [if_neg hc3] at h
            try simp only [Option.some_bind] at h
            cases hnx : h0.next with
            | none =>
                rw [hnx] at h
                cases hpv : h0.prev with
                | none =>
                    rw [hpv] at h
                    simp only [Option.bind_eq_some] at h
                    obtain ⟨h2, hh2, hE⟩ := h
                    have cE := pt_setHeader hE
                    exact cE
                | some pr =>
                    rw [hpv] at h
                    simp only [Option.bind_eq_some] at h
                    obtain ⟨ph, hph, w, hw, h2, hh2, hE⟩ := h
                    have cw := pt_setHeader hw
                    have cE := pt_setHeader hE
                    exact cw.pcomp cE
            | some nr =>
                rw [hnx] at h
                cases hpv : h0.prev with
                | none =>
                    rw [hpv] at h
                    simp only [Option.bind_eq_some] at h
                    obtain ⟨nh, hnh, z, hz, h2, hh2, hE⟩ := h
                    have cz := pt_setHeader hz
                    have cE := pt_setHeader hE
                    exact cz.pcomp cE
                | some pr =>
                    rw [hpv] at h
                    simp only [Option.bind_eq_some] at h
                    obtain ⟨nh, hnh, z, hz, ph, hph, w, hw, h2, hh2, hE⟩ := h
                    have cz := pt_setHeader hz
                    have cw := pt_setHeader hw
                    exact cz.pcomp (cw.pcomp (pt_setHeader hE))
        · rw [if_neg hc2] at h
          cases h
      · rw [if_neg hc1] at h
        try simp only [Option.some_bind] at h
        by_cases hc3 : s.lru_tail = some it
        · rw [if_pos hc3] at h
          by_cases hc4 : h0.next = none
          · rw [if_pos hc4] at h
            try simp only [Option.some_bind] at h
            cases hnx : h0.next with
            | none =>
                rw [hnx] at h
                cases hpv : h0.prev with
                | none =>
                    rw [hpv] at h
                    simp only [Option.bind_eq_some] at h
                    obtain ⟨h2, hh2, hE⟩ := h
                    have cE := pt_setHeader hE
                    exact cE
                | some pr =>
                    rw [hpv] at h
                    simp only [Option.bind_eq_some] at h
                    obtain ⟨ph, hph, w, hw, h2, hh2, hE⟩ := h
                    have cw := pt_setHeader hw
                    have cE := pt_setHeader hE
                    exact cw.pcomp cE
            | some nr =>
                rw [hnx] at h
                cases hpv : h0.prev with
                | none =>
                    rw [hpv] at h
                    simp only [Option.bind_eq_some] at h
                    obtain ⟨nh, hnh, z, hz, h2, hh2, hE⟩ := h
                    have cz := pt_setHeader hz
                    have cE := pt_setHeader hE
                    exact cz.pcomp cE
                | some pr =>
                    rw [hpv] at h
                    simp only [Option.bind_eq_some] at h
                    obtain ⟨nh, hnh, z, hz, ph, hph, w, hw, h2, hh2, hE⟩ := h
                    have cz := pt_setHeader hz
                    have cw := pt_setHeader hw
                    exact cz.pcomp (cw.pcomp (pt_setHeader hE))
          · rw [if_neg hc4] at h
            cases h
        · rw [if_neg hc3] at h
          try simp only [Option.some_bind] at h
          cases hnx : h0.next with
          | none =>
              rw [hnx] at h
              cases hpv : h0.prev with
              | none =>
                  rw [hpv] at h
                  simp only [Option.bind_eq_some] at h
                  obtain ⟨h2, hh2, hE⟩ := h
                  have cE := pt_setHeader hE
                  exact cE
              | some pr =>
                  rw [hpv] at h
                  simp only [Option.bind_eq_some] at h
                  obtain ⟨ph, hph, w, hw, h2, hh2, hE⟩ := h
                  have cw := pt_setHeader hw
                  have cE := pt_setHeader hE
                  exact cw.pcomp cE
          | some nr =>
              rw [hnx] at h
              cases hpv : h0.prev with
              | none =>
                  rw [hpv] at h
                  simp only [Option.bind_eq_some] at h
                  obtain ⟨nh, hnh, z, hz, h2, hh2, hE⟩ := h
                  have cz := pt_setHeader hz
                  have cE := pt_setHeader hE
                  exact cz.pcomp cE
              | some pr =>
                  rw [hpv] at h
                  simp only [Option.bind_eq_some] at h
                  obtain ⟨nh, hnh, z, hz, ph, hph, w, hw, h2, hh2, hE⟩ := h
                  have cz := pt_setHeader hz
                  have cw := pt_setHeader hw
                  exact cz.pcomp (cw.pcomp (pt_setHeader hE))

theorem pt_alloc_large_bodies {P : Params} {t : ChunkRef} :
    ∀ (n : Nat) (prev : ChunkRef) (off : Int) (s s2 : State),
      alloc_large_bodies P t n prev off s = some s2 → PT s s2 := by
  intro n
  induction n with
  | zero =>
      intro prev off s s2 h
      exact pt_patch_next_field h
  | succ m ih =>
      intro prev off s s2 h
      simp only [alloc_large_bodies, Option.bind_eq_bind,
        Option.bind_eq_some] at h
      obtain ⟨ro, hpop, h⟩ := h
      cases ro with
      | none => cases h
      | some q0 =>
          obtain ⟨id, sp⟩ := q0
          simp only [Option.bind_eq_some] at h
          obtain ⟨sb, hsetb, sc, hpatch, h⟩ := h
          have cset : PT sp sb :=
            pt_setChunkL_keep (pop_large_spec hpop).2.1
              (by simp [isBrokenC]) hsetb
          have c0 : PT s sc :=
            ((pt_free_list_pop_large hpop).pcomp cset).pcomp
              (pt_patch_next_field hpatch)
          split at h
          · simp only [Option.bind_eq_some] at h
            obtain ⟨p, hstamp, th, hth, sd, hsh, hrec⟩ := h
            exact (c0.pcomp (pt_setHeader hsh)).pcomp (ih _ _ _ _ hrec)
          · exact c0.pcomp (ih _ _ _ _ h)

theorem pt_alloc_small_bodies {P : Params} {t : ChunkRef} :
    ∀ (n : Nat) (prev : ChunkRef) (off : Int) (s s2 : State),
      alloc_small_bodies P t n prev off s = some s2 → PT s s2 := by
  intro n
  induction n with
  | zero =>
      intro prev off s s2 h
      exact pt_patch_next_field h
  | succ m ih =>
      intro prev off s s2 h
      simp only [alloc_small_bodies, Option.bind_eq_bind,
        Option.bind_eq_some] at h
      obtain ⟨ro, hpop, h⟩ := h
      cases ro with
      | none => cases h
      | some q0 =>
          obtain ⟨⟨l, i⟩, sp⟩ := q0
          simp only [Option.bind_eq_some] at h
          obtain ⟨sb, hsetb, sc, hpatch, h⟩ := h
          have c0 : PT s sc :=
            ((pt_free_list_pop_small hpop).pcomp (pt_setChunkS hsetb)).pcomp
              (pt_patch_next_field hpatch)
          split at h
          · simp only [Option.bind_eq_some] at h
            obtain ⟨p, hstamp, th, hth, sd, hsh, hrec⟩ := h
            exact (c0.pcomp (pt_setHeader hsh)).pcomp (ih _ _ _ _ hrec)
          · exact c0.pcomp (ih _ _ _ _ h)

theorem par_break_large_chunk {P : Params} {s : State} {id : Nat}
    {s2 : State} (h : break_large_chunk P s id = some s2)
    (hp : ParityOK s) : ParityOK s2 := by
  unfold break_large_chunk at h
  split at h
  case h_1 heq =>
    simp only [Option.bind_eq_bind] at h
    cases hA : setChunkL s id (LargeChunk.brokenL
        (List.replicate P.SMALL_CHUNKS_PER_LARGE_CHUNK .clearedS)
        P.SMALL_CHUNKS_PER_LARGE_CHUNK) with
    | none => rw [hA] at h; cases h
    | some sA =>
        rw [hA] at h
        simp only [Option.some_bind] at h
        cases hB : break_children P id
            (List.range P.SMALL_CHUNKS_PER_LARGE_CHUNK).reverse
            { sA with stats := { sA.stats with
              broken_chunk_histogram := histInc sA.stats.broken_chunk_histogram P.SMALL_CHUNKS_PER_LARGE_CHUNK } } with
        | none => rw [hB] at h; cases h
        | some sB =>
            rw [hB] at h
            simp only [Option.some_bind] at h
            cases hC : setAllocated sB id 0 with
            | none => rw [hC] at h; cases h
            | some sC =>
                rw [hC] at h
                simp only [Option.some_bind, Option.some.injEq] at h
                subst h
                obtain ⟨hlt, hrwA⟩ := setChunkL_some hA
                subst hrwA
                have hinc : (s.chunks.set id (LargeChunk.brokenL
                    (List.replicate P.SMALL_CHUNKS_PER_LARGE_CHUNK
                      .clearedS)
                    P.SMALL_CHUNKS_PER_LARGE_CHUNK)).countP isBrokenC =
                    s.chunks.countP isBrokenC + 1 :=
                  countP_set_inc isBrokenC s.chunks id _ _ heq
                    (by simp [isBrokenC]) (by simp [isBrokenC])
                have ptB := pt_break_children _ _ _ hB
                have ptC := pt_setAllocated hC
                have B1 : sB.stats.break_events = s.stats.break_events :=
                  ptB.1
                have B2 : sB.stats.unbreak_events =
                    s.stats.unbreak_events := ptB.2.1
                have B3 : sB.stats.large_broken_chunks =
                    s.stats.large_broken_chunks := ptB.2.2.1
                have B4 : sB.chunks.countP isBrokenC =
                    s.chunks.countP isBrokenC + 1 :=
                  ptB.2.2.2.trans hinc
                have C1 : sC.stats.break_events =
                    sB.stats.break_events := ptC.1
                have C2 : sC.stats.unbreak_events =
                    sB.stats.unbreak_events := ptC.2.1
                have C3 : sC.stats.large_broken_chunks =
                    sB.stats.large_broken_chunks := ptC.2.2.1
                have C4 : sC.chunks.countP isBrokenC =
                    sB.chunks.countP isBrokenC := ptC.2.2.2
                obtain ⟨p1, p2⟩ := hp
                have P2 : s.stats.large_broken_chunks =
                    s.chunks.countP isBrokenC := p2
                constructor
                · show sC.stats.break_events + 1 =
                    sC.stats.unbreak_events +
                      (sC.stats.large_broken_chunks + 1)
                  omega
                · show sC.stats.large_broken_chunks + 1 =
                    sC.chunks.countP isBrokenC
                  omega
  all_goals cases h

theorem par_unbreak_large_chunk {P : Params} {s : State} {l : Nat}
    {m : Bool} {s2 : State} (h : unbreak_large_chunk P s l m = some s2)
    (hp : ParityOK s) : ParityOK s2 := by
  unfold unbreak_large_chunk at h
  split at h
  case h_1 ch a heq =>
    split at h
    · simp only [Option.some.injEq] at h
      subst h
      exact hp
    · split at h
      · cases h
      · simp only [Option.bind_eq_bind] at h
        cases hA : unbreak_children l
            (List.range P.SMALL_CHUNKS_PER_LARGE_CHUNK) s with
        | none => rw [hA] at h; cases h
        | some sA =>
            rw [hA] at h
            simp only [Option.some_bind] at h
            cases hB : setChunkL sA l .availL with
            | none => rw [hB] at h; cases h
            | some sB =>
                rw [hB] at h
                simp only [Option.some_bind] at h
                cases hC : free_list_push_large sB l with
                | none => rw [hC] at h; cases h
                | some sC =>
                    rw [hC] at h
                    simp only [Option.some_bind, Option.some.injEq] at h
                    subst h
                    obtain ⟨ch2, a2, hA2⟩ := (bp_unbreak_children
                      (List.range P.SMALL_CHUNKS_PER_LARGE_CHUNK) s sA hA).2
                      l ⟨ch, a, heq⟩
                    obtain ⟨hlt, hrwB⟩ := setChunkL_some hB
                    subst hrwB
                    have hdrop : (sA.chunks.set l
                        LargeChunk.availL).countP isBrokenC + 1 =
                        sA.chunks.countP isBrokenC :=
                      countP_set_drop isBrokenC sA.chunks l _ _ hA2
                        (by simp [isBrokenC]) (by simp [isBrokenC])
                    have hpos : (s.chunks.set l
                        LargeChunk.availL).countP isBrokenC + 1 =
                        s.chunks.countP isBrokenC :=
                      countP_set_drop isBrokenC s.chunks l _ _ heq
                        (by simp [isBrokenC]) (by simp [isBrokenC])
                    have ptA := pt_unbreak_children _ _ _ hA
                    have A1 : sA.stats.break_events =
                        s.stats.break_events := ptA.1
                    have A2 : sA.stats.unbreak_events =
                        s.stats.unbreak_events := ptA.2.1
                    have A3 : sA.stats.large_broken_chunks =
                        s.stats.large_broken_chunks := ptA.2.2.1
                    have A4 : sA.chunks.countP isBrokenC =
                        s.chunks.countP isBrokenC := ptA.2.2.2
                    have ptC := pt_free_list_push_large hC
                    have C1 : sC.stats.break_events =
                        sA.stats.break_events := ptC.1
                    have C2 : sC.stats.unbreak_events =
                        sA.stats.unbreak_events := ptC.2.1
                    have C3 : sC.stats.large_broken_chunks =
                        sA.stats.large_broken_chunks := ptC.2.2.1
                    have C4 : sC.chunks.countP isBrokenC =
                        (sA.chunks.set l LargeChunk.availL).countP
                          isBrokenC := ptC.2.2.2
                    obtain ⟨p1, p2⟩ := hp
                    have P2 : s.stats.large_broken_chunks =
                        s.chunks.countP isBrokenC := p2
                    constructor
                    · show sC.stats.break_events =
                        sC.stats.unbreak_events + 1 +
                          (sC.stats.large_broken_chunks - 1)
                      omega
                    · show sC.stats.large_broken_chunks - 1 =
                        sC.chunks.countP isBrokenC
                      omega
  all_goals cases h

theorem par_free_list_push_small {P : Params} {s : State} {l i : Nat}
    {m : Bool} {s2 : State}
    (h : free_list_push_small P s l i m = some s2) (hp : ParityOK s) :
    ParityOK s2 := by
  unfold free_list_push_small at h
  split at h
  case h_1 =>
    split at h
    case h_1 ch a heq =>
      split at h
      case isTrue => cases h
      case isFalse ha =>
        simp only [Option.bind_eq_bind] at h
        cases hA : setAllocated { s with stats := { s.stats with
            broken_chunk_histogram :=
              histInc (histDec s.stats.broken_chunk_histogram a) (a - 1) } }
            l (a - 1) with
        | none => rw [hA] at h; cases h
        | some sA =>
            rw [hA] at h
            simp only [Option.some_bind] at h
            cases hB : setChunkS { sA with small_free_list :=
                (l, i) :: sA.small_free_list } l i .freeS with
            | none => rw [hB] at h; cases h
            | some sB =>
                rw [hB] at h
                simp only [Option.some_bind] at h
                have c2 := pt_setChunkS hB
                have hps : ParityOK sB :=
                  ParityOK_of_PT ((pt_setAllocated hA).pcomp c2) hp
                split at h
                · exact par_unbreak_large_chunk h hps
                · simp only [Option.some.injEq] at h
                  subst h
                  exact hps
    all_goals cases h
  all_goals cases h

theorem pt_item_free_large_bodies :
    ∀ (fuel : Nat) (nx : Option ChunkRef) (freed : Nat) (s s2 : State)
      (m : Nat), item_free_large_bodies fuel nx freed s = some (s2, m) →
      PT s s2 := by
  intro fuel
  induction fuel with
  | zero =>
      intro nx freed s s2 m h
      simp only [item_free_large_bodies] at h
      exact Option.noConfusion h
  | succ f ih =>
      intro nx freed s s2 m h
      cases nx with
      | none =>
          simp only [item_free_large_bodies, Option.some.injEq,
            Prod.mk.injEq] at h
          obtain ⟨h1, h2⟩ := h
          subst h1
          exact pt_refl _
      | some r =>
          cases r with
          | sm l i =>
              simp only [item_free_large_bodies] at h
              exact Option.noConfusion h
          | lg id =>
              simp only [item_free_large_bodies, Option.bind_eq_bind] at h
              split at h
              case h_1 nx2 heq =>
                simp only [Option.bind_eq_some] at h
                obtain ⟨sA, hA, sB, hB, hrec⟩ := h
                have c1 : PT s sA :=
                  pt_setChunkL_keep heq (by simp [isBrokenC]) hA
                exact (c1.pcomp (pt_free_list_push_large hB)).pcomp
                  (ih _ _ _ _ _ hrec)
              all_goals cases h

theorem par_item_free_small_bodies {P : Params} :
    ∀ (fuel : Nat) (nx : Option ChunkRef) (freed : Nat) (s s2 : State)
      (m : Nat),
      item_free_small_bodies P fuel nx freed s = some (s2, m) →
      ParityOK s → ParityOK s2 := by
  intro fuel
  induction fuel with
  | zero =>
      intro nx freed s s2 m h hp
      simp only [item_free_small_bodies] at h
      exact Option.noConfusion h
  | succ f ih =>
      intro nx freed s s2 m h hp
      cases nx with
      | none =>
          simp only [item_free_small_bodies, Option.some.injEq,
            Prod.mk.injEq] at h
          obtain ⟨h1, h2⟩ := h
          subst h1
          exact hp
      | some r =>
          cases r with
          | lg id =>
              simp only [item_free_small_bodies] at h
              exact Option.noConfusion h
          | sm l i =>
              simp only [item_free_small_bodies, Option.bind_eq_bind] at h
              split at h
              case h_1 p0 nx2 heq =>
                simp only [Option.bind_eq_some] at h
                obtain ⟨sA, hA, sB, hB, hrec⟩ := h
                have hpA : ParityOK sA :=
                  ParityOK_of_PT (pt_setChunkS hA) hp
                exact ih _ _ _ _ _ hrec (par_free_list_push_small hB hpA)
              all_goals cases h

theorem par_item_free {P : Params} {s : State} {it : ChunkRef} {s2 : State}
    (h : item_free P s it = some s2) (hp : ParityOK s) : ParityOK s2 := by
  unfold item_free at h
  simp only [Option.bind_eq_bind] at h
  cases hH : headerOf s it with
  | none => rw [hH] at h; cases h
  | some h0 =>
      rw [hH, Option.some_bind] at h
      split at h
      · cases it with
        | lg tid =>
            simp only [Option.bind_eq_some] at h
            obtain ⟨⟨sA, m⟩, hA, h⟩ := h
            split at h
            case h_1 th heq =>
              simp only [Option.bind_eq_some] at h
              obtain ⟨sB, hB, sC, hC, h⟩ := h
              simp only [Option.some.injEq] at h
              subst h
              have c1 := pt_item_free_large_bodies _ _ _ _ _ _ hA
              have c2 := pt_setChunkL_keep heq (by simp [isBrokenC]) hB
              have c2b : PT sA sB := c2
              have c3 := pt_free_list_push_large hC
              have hpC : ParityOK sC :=
                ParityOK_of_PT ((c1.pcomp c2b).pcomp c3) hp
              exact hpC
            all_goals cases h
        | sm l i =>
            simp only [Option.bind_eq_some] at h
            obtain ⟨⟨sA, m⟩, hA, h⟩ := h
            split at h
            case h_1 th heq =>
              simp only [Option.bind_eq_some] at h
              obtain ⟨sB, hB, sC, hC, h⟩ := h
              simp only [Option.some.injEq] at h
              subst h
              have hpA := par_item_free_small_bodies _ _ _ _ _ _ hA hp
              have hpB : ParityOK sB :=
                ParityOK_of_PT (pt_setChunkS hB) hpA
              have hpC := par_free_list_push_small hC hpB
              exact hpC
            all_goals cases h
      · cases h

theorem par_do_item_unlink {P : Params} {env : Env} {s : State}
    {it : ChunkRef} {uflags : UnlinkFlags} {keyArg : Option (List Nat)}
    {s2 : State}
    (h : do_item_unlink P env s it uflags keyArg = some s2)
    (hp : ParityOK s) : ParityOK s2 := by
  unfold do_item_unlink at h
  simp only [Option.bind_eq_bind] at h
  cases hH : headerOf s it with
  | none => rw [hH] at h; cases h
  | some h0 =>
      rw [hH, Option.some_bind] at h
      split at h
      · cases h
      · split at h
        · simp only [Option.bind_eq_some] at h
          obtain ⟨sA, hA, h⟩ := h
          have cA := pt_setHeader hA
          split at h
          all_goals {
            simp only [Option.bind_eq_some] at h
            obtain ⟨h1, hh1, sB, hB, sC, hC, h2, hh2, h⟩ := h
            have cB := pt_setHeader hB
            have cB2 : PT sA sB := cB
            have cC := pt_item_unlink_q hC
            have hpC : ParityOK sC :=
              ParityOK_of_PT ((cA.pcomp cB2).pcomp cC) hp
            split at h
            · exact par_item_free h hpC
            · simp only [Option.some.injEq] at h
              subst h
              exact hpC }
        · simp only [Option.some.injEq] at h
          subst h
          exact hp
theorem par_do_item_deref {P : Params} {s : State} {it : ChunkRef}
    {s2 : State} (h : do_item_deref P s it = some s2) (hp : ParityOK s) :
    ParityOK s2 := by
  unfold do_item_deref at h
  simp only [Option.bind_eq_bind] at h
  cases hH : headerOf s it with
  | none => rw [hH] at h; cases h
  | some h0 =>
      rw [hH, Option.some_bind] at h
      split at h
      · cases h
      · by_cases hr : h0.refcount ≠ 0
        · rw [if_pos hr] at h
          simp only [Option.bind_eq_some] at h
          obtain ⟨sA, hA, h⟩ := h
          have hpA : ParityOK sA := ParityOK_of_PT (pt_setHeader hA) hp
          split at h
          · cases h
          · split at h
            · exact par_item_free h hpA
            · simp only [Option.some.injEq] at h
              subst h
              exact hpA
        · rw [if_neg hr] at h
          simp only [Option.bind_eq_some] at h
          obtain ⟨sA, hA, h⟩ := h
          have hpA : ParityOK sA := ParityOK_of_PT (pt_setHeader hA) hp
          split at h
          · cases h
          · split at h
            · exact par_item_free h hpA
            · simp only [Option.some.injEq] at h
              subst h
              exact hpA

theorem pt_do_item_link {env : Env} {s : State} {it : ChunkRef}
    {key : List Nat} {s2 : State}
    (h : do_item_link env s it key = some s2) : PT s s2 := by
  unfold do_item_link at h
  simp only [Option.bind_eq_bind] at h
  cases hH : headerOf s it with
  | none => rw [hH] at h; cases h
  | some h0 =>
      rw [hH, Option.some_bind] at h
      split at h
      · simp only [Option.bind_eq_some] at h
        obtain ⟨sA, hA, h⟩ := h
        have cA := pt_setHeader hA
        have cB := pt_item_link_q h
        have cB2 : PT sA s2 := cB
        exact cA.pcomp cB2
      · cases h

theorem pt_do_item_update {P : Params} {env : Env} {s : State}
    {it : ChunkRef} {s2 : State}
    (h : do_item_update P env s it = some s2) : PT s s2 := by
  unfold do_item_update at h
  simp only [Option.bind_eq_bind] at h
  cases hH : headerOf s it with
  | none => rw [hH] at h; cases h
  | some h0 =>
      rw [hH, Option.some_bind] at h
      split at h
      · split at h
        · cases h
        · split at h
          · simp only [Option.bind_eq_some] at h
            obtain ⟨sA, hA, h1, hh1, sB, hB, hrec⟩ := h
            exact ((pt_item_unlink_q hA).pcomp (pt_setHeader hB)).pcomp
              (pt_item_link_q hrec)
          · simp only [Option.some.injEq] at h
            subst h
            exact pt_refl _
      · simp only [Option.some.injEq] at h
        subst h
        exact pt_refl _

theorem par_do_item_replace {P : Params} {env : Env} {s : State}
    {it it2 : ChunkRef} {key : List Nat} {s2 : State}
    (h : do_item_replace P env s it it2 key = some s2)
    (hp : ParityOK s) : ParityOK s2 := by
  unfold do_item_replace at h
  simp only [Option.bind_eq_bind] at h
  cases hH : headerOf s it with
  | none => rw [hH] at h; cases h
  | some h0 =>
      rw [hH, Option.some_bind] at h
      split at h
      · simp only [Option.bind_eq_some] at h
        obtain ⟨sA, hA, hn, hhn, h⟩ := h
        split at h
        · exact ParityOK_of_PT (pt_do_item_link h)
            (par_do_item_unlink hA hp)
        · cases h
      · cases h

theorem par_do_item_get_live {P : Params} {env : Env} {s : State}
    {key : List Nat} {it : ChunkRef} {h0 : ItemHeader}
    {r : Option ChunkRef} {s2 : State} {b : Bool}
    (h : do_item_get_notedeleted.do_item_get_live P env s key it h0 =
      some (r, s2, b)) (hp : ParityOK s) : ParityOK s2 := by
  unfold do_item_get_notedeleted.do_item_get_live at h
  simp only [Option.bind_eq_bind] at h
  split at h
  · simp only [Option.bind_eq_some] at h
    obtain ⟨sA, hA, h⟩ := h
    simp only [Option.some.injEq, Prod.mk.injEq] at h
    obtain ⟨h1, h2, h3⟩ := h
    subst h2
    exact par_do_item_unlink hA hp
  · split at h
    · simp only [Option.bind_eq_some] at h
      obtain ⟨sA, hA, h⟩ := h
      simp only [Option.some.injEq, Prod.mk.injEq] at h
      obtain ⟨h1, h2, h3⟩ := h
      subst h2
      exact par_do_item_unlink hA hp
    · simp only [Option.bind_eq_some] at h
      obtain ⟨sA, hA, h⟩ := h
      simp only [Option.some.injEq, Prod.mk.injEq] at h
      obtain ⟨h1, h2, h3⟩ := h
      subst h2
      exact ParityOK_of_PT (pt_setHeader hA) hp

theorem par_do_item_get_notedeleted {P : Params} {env : Env} {s : State}
    {key : List Nat} {r : Option ChunkRef} {s2 : State} {b : Bool}
    (h : do_item_get_notedeleted P env s key = some (r, s2, b))
    (hp : ParityOK s) : ParityOK s2 := by
  unfold do_item_get_notedeleted at h
  split at h
  · simp only [Option.some.injEq, Prod.mk.injEq] at h
    obtain ⟨h1, h2, h3⟩ := h
    subst h2
    exact hp
  case h_2 it heq =>
    simp only [Option.bind_eq_bind] at h
    cases hH : headerOf s it with
    | none => rw [hH] at h; cases h
    | some h0 =>
        rw [hH, Option.some_bind] at h
        split at h
        · simp only [Option.bind_eq_some] at h
          obtain ⟨ov, hov, h⟩ := h
          split at h
          · simp only [Option.some.injEq, Prod.mk.injEq] at h
            obtain ⟨h1, h2, h3⟩ := h
            subst h2
            exact hp
          · exact par_do_item_get_live h hp
        · exact par_do_item_get_live h hp

theorem par_flush_expired_pass {P : Params} {env : Env}
    {nextF : ItemHeader → Option ChunkRef} :
    ∀ (fuel : Nat) (start : Option ChunkRef) (s s2 : State),
      flush_expired_pass P env nextF fuel start s = some s2 →
      ParityOK s → ParityOK s2 := by
  intro fuel
  induction fuel with
  | zero =>
      intro start s s2 h hp
      simp only [flush_expired_pass] at h
      exact Option.noConfusion h
  | succ f ih =>
      intro start s s2 h hp
      cases start with
      | none =>
          simp only [flush_expired_pass, Option.some.injEq] at h
          subst h
          exact hp
      | some it =>
          simp only [flush_expired_pass, Option.bind_eq_bind] at h
          cases hH : headerOf s it with
          | none => rw [hH] at h; cases h
          | some h0 =>
              rw [hH, Option.some_bind] at h
              split at h
              · split at h
                · simp only [Option.bind_eq_some] at h
                  obtain ⟨sA, hA, hrec⟩ := h
                  exact ih _ _ _ hrec (par_do_item_unlink hA hp)
                · cases h
              · simp only [Option.some.injEq] at h
                subst h
                exact hp

theorem par_do_item_flush_expired {P : Params} {env : Env} {s : State}
    {s2 : State} (h : do_item_flush_expired P env s = some s2)
    (hp : ParityOK s) : ParityOK s2 := by
  unfold do_item_flush_expired at h
  split at h
  · simp only [Option.some.injEq] at h
    subst h
    exact hp
  · simp only [Option.bind_eq_bind, Option.bind_eq_some] at h
    obtain ⟨sA, hA, hB⟩ := h
    exact par_flush_expired_pass _ _ _ _ hB
      (par_flush_expired_pass _ _ _ _ hA hp)
theorem par_coalesce_body {P : Params} {s : State} {s2 : State}
    (h : coalesce_body P s = some (some s2)) (hp : ParityOK s) :
    ParityOK s2 := by
  unfold coalesce_body at h
  split at h
  · exact Option.noConfusion h
  · simp only [Option.some.injEq] at h
    exact Option.noConfusion h
  case h_3 l heq =>
    split at h
    case h_1 ch a heq2 =>
      simp only [Option.bind_eq_bind] at h
      split at h
      · simp only [Option.bind_eq_some] at h
        obtain ⟨sA, hA, sB, hB, sC, hC, h⟩ := h
        simp only [Option.some.injEq] at h
        subst h
        have cA := pt_coalesce_strip _ _ _ hA
        have cB := pt_coalesce_migrate _ _ _ hB
        have hpB : ParityOK sB := ParityOK_of_PT (cA.pcomp cB) hp
        exact par_unbreak_large_chunk hC hpB
      · simp only [Option.bind_eq_some, Option.some.injEq] at h
        obtain ⟨sC, hC, sD, hD, h⟩ := h
        subst h
        subst hC
        exact par_unbreak_large_chunk hD hp
    all_goals exact Option.noConfusion h

theorem par_coalesce_loop {P : Params} :
    ∀ (fuel : Nat) (s : State) (acc : coalesce_progress) (s2 : State)
      (p : coalesce_progress) (n : Nat),
      coalesce_loop P fuel s acc = .ok s2 p n → ParityOK s →
      ParityOK s2 := by
  intro fuel
  induction fuel with
  | zero =>
      intro s acc s2 p n h hp
      simp only [coalesce_loop] at h
      exact CoalesceRes.noConfusion h
  | succ f ih =>
      intro s acc s2 p n h hp
      simp only [coalesce_loop] at h
      split at h
      · simp only [CoalesceRes.ok.injEq] at h
        obtain ⟨h1, h2, h3⟩ := h
        subst h1
        exact hp
      · split at h
        · exact CoalesceRes.noConfusion h
        · simp only [CoalesceRes.ok.injEq] at h
          obtain ⟨h1, h2, h3⟩ := h
          subst h1
          exact hp
        case h_3 sB heq =>
          split at h
          case h_1 s3 p3 n3 heq2 =>
            simp only [CoalesceRes.ok.injEq] at h
            obtain ⟨h1, h2, h3⟩ := h
            subst h1
            exact ih _ _ _ _ _ heq2 (par_coalesce_body heq hp)
          case h_2 r heq2 hne =>
            exact absurd h (hne _ _ _)

theorem par_coalesce_free_small_chunks {P : Params} {s : State}
    {s2 : State} {p : coalesce_progress}
    (h : coalesce_free_small_chunks P s = some (s2, p))
    (hp : ParityOK s) : ParityOK s2 := by
  unfold coalesce_free_small_chunks at h
  split at h
  case h_1 sB pB nB heq =>
    simp only [Option.some.injEq, Prod.mk.injEq] at h
    obtain ⟨h1, h2⟩ := h
    subst h1
    exact par_coalesce_loop _ _ _ _ _ _ heq hp
  · exact Option.noConfusion h

theorem par_flat_storage_lru_evict {P : Params} {env : Env}
    {chunk_type : chunk_type_t} {nchunks : Nat} :
    ∀ (fuel : Nat) (s : State) (b : Bool) (s2 : State),
      flat_storage_lru_evict P env chunk_type nchunks fuel s =
        some (b, s2) → ParityOK s → ParityOK s2 := by
  intro fuel
  induction fuel with
  | zero =>
      intro s b s2 h hp
      simp only [flat_storage_lru_evict] at h
      exact Option.noConfusion h
  | succ f ih =>
      intro s b s2 h hp
      simp only [flat_storage_lru_evict, Option.bind_eq_bind,
        Option.bind_eq_some] at h
      obtain ⟨ro, hro, h⟩ := h
      cases ro with
      | none =>
          simp only [Option.some.injEq, Prod.mk.injEq] at h
          obtain ⟨h1, h2⟩ := h
          subst h2
          exact hp
      | some it =>
          simp only [Option.bind_eq_some] at h
          obtain ⟨sA, hA, h⟩ := h
          have hpA : ParityOK sA := par_do_item_unlink hA hp
          split at h
          case h_1 heq =>
              split at h
              · simp only [Option.some.injEq, Prod.mk.injEq] at h
                obtain ⟨h1, h2⟩ := h
                subst h2
                exact hpA
              · exact ih _ _ _ h hpA
          case h_2 heq =>
              split at h
              · simp only [Option.some.injEq, Prod.mk.injEq] at h
                obtain ⟨h1, h2⟩ := h
                subst h2
                exact hpA
              · split at h
                · simp only [Option.bind_eq_some] at h
                  obtain ⟨⟨sB, prog⟩, hB, h⟩ := h
                  have hpB : ParityOK sB :=
                    par_coalesce_free_small_chunks hB hpA
                  split at h
                  · exact ih _ _ _ h hpB
                  · split at h
                    · simp only [Option.some.injEq, Prod.mk.injEq] at h
                      obtain ⟨h1, h2⟩ := h
                      subst h2
                      exact hpB
                    · exact ih _ _ _ h hpB
                · exact ih _ _ _ h hpA

theorem par_acquire_large {P : Params} {env : Env} {needed : Nat} :
    ∀ (fuel : Nat) (pf : Option Nat) (s : State) (b : Bool) (s2 : State),
      acquire_large P env needed fuel pf s = some (b, s2) →
      ParityOK s → ParityOK s2 := by
  intro fuel
  induction fuel with
  | zero =>
      intro pf s b s2 h hp
      simp only [acquire_large] at h
      exact Option.noConfusion h
  | succ f ih =>
      intro pf s b s2 h hp
      simp only [acquire_large] at h
      split at h
      · simp only [Option.some.injEq, Prod.mk.injEq] at h
        obtain ⟨h1, h2⟩ := h
        subst h2
        exact hp
      · split at h
        · exact Option.noConfusion h
        · simp only [Option.bind_eq_bind, Option.bind_eq_some] at h
          obtain ⟨⟨grew, sA⟩, hA, h⟩ := h
          have hpA : ParityOK sA :=
            ParityOK_of_PT (pt_flat_storage_alloc hA) hp
          split at h
          · exact ih _ _ _ _ h hpA
          · split at h
            · simp only [Option.bind_eq_some, Option.some_bind] at h
              obtain ⟨⟨sC, prog⟩, hC, h⟩ := h
              have hpC : ParityOK sC :=
                par_coalesce_free_small_chunks hC hpA
              split at h
              · exact ih _ _ _ _ h hpC
              · simp only [Option.bind_eq_some] at h
                obtain ⟨⟨ev, sD⟩, hD, h⟩ := h
                have hpD : ParityOK sD :=
                  par_flat_storage_lru_evict _ _ _ _ hD hpC
                split at h
                · exact ih _ _ _ _ h hpD
                · simp only [Option.some.injEq, Prod.mk.injEq] at h
                  obtain ⟨h1, h2⟩ := h
                  subst h2
                  exact hpD
            · try simp only [Option.some_bind] at h
              split at h
              · exact ih _ _ _ _ h hpA
              · simp only [Option.bind_eq_some] at h
                obtain ⟨⟨ev, sD⟩, hD, h⟩ := h
                have hpD : ParityOK sD :=
                  par_flat_storage_lru_evict _ _ _ _ hD hpA
                split at h
                · exact ih _ _ _ _ h hpD
                · simp only [Option.some.injEq, Prod.mk.injEq] at h
                  obtain ⟨h1, h2⟩ := h
                  subst h2
                  exact hpD

theorem par_acquire_small {P : Params} {env : Env} {needed : Nat} :
    ∀ (fuel : Nat) (pv : Option (Nat × Nat)) (s : State) (b : Bool)
      (s2 : State),
      acquire_small P env needed fuel pv s = some (b, s2) →
      ParityOK s → ParityOK s2 := by
  intro fuel
  induction fuel with
  | zero =>
      intro pv s b s2 h hp
      simp only [acquire_small] at h
      exact Option.noConfusion h
  | succ f ih =>
      intro pv s b s2 h hp
      simp only [acquire_small] at h
      split at h
      · simp only [Option.some.injEq, Prod.mk.injEq] at h
        obtain ⟨h1, h2⟩ := h
        subst h2
        exact hp
      · split at h
        · exact Option.noConfusion h
        · split at h
          · simp only [Option.bind_eq_bind, Option.bind_eq_some] at h
            obtain ⟨ro, hro, h⟩ := h
            cases ro with
            | none => exact Option.noConfusion h
            | some q =>
                obtain ⟨id, sA⟩ := q
                simp only [Option.bind_eq_some] at h
                obtain ⟨sB, hB, h⟩ := h
                have hpA : ParityOK sA :=
                  ParityOK_of_PT (pt_free_list_pop_large hro) hp
                have hpB : ParityOK sB := par_break_large_chunk hB hpA
                exact ih _ _ _ _ h hpB
          · simp only [Option.bind_eq_bind, Option.bind_eq_some] at h
            obtain ⟨⟨grew, sA⟩, hA, h⟩ := h
            have hpA : ParityOK sA :=
              ParityOK_of_PT (pt_flat_storage_alloc hA) hp
            split at h
            · exact ih _ _ _ _ h hpA
            · simp only [Option.bind_eq_some] at h
              obtain ⟨⟨ev, sD⟩, hD, h⟩ := h
              have hpD : ParityOK sD :=
                par_flat_storage_lru_evict _ _ _ _ hD hpA
              split at h
              · exact ih _ _ _ _ h hpD
              · simp only [Option.some.injEq, Prod.mk.injEq] at h
                obtain ⟨h1, h2⟩ := h
                subst h2
                exact hpD
theorem par_do_item_alloc {P : Params} {env : Env} {key : List Nat}
    {nkey : Nat} {flags : Int} {exptime : Nat} {nbytes : Nat} {s : State}
    {r : Option ChunkRef} {s2 : State}
    (h : do_item_alloc P env key nkey flags exptime nbytes s =
      some (r, s2)) (hp : ParityOK s) : ParityOK s2 := by
  unfold do_item_alloc at h
  split at h
  · simp only [Option.some.injEq, Prod.mk.injEq] at h
    obtain ⟨h1, h2⟩ := h
    subst h2
    exact hp
  · split at h
    · simp only [Option.bind_eq_bind, Option.bind_eq_some] at h
      obtain ⟨⟨got, sA⟩, hA, h⟩ := h
      have hpA : ParityOK sA := par_acquire_large _ _ _ _ _ hA hp
      split at h
      · simp only [Option.some.injEq, Prod.mk.injEq] at h
        obtain ⟨h1, h2⟩ := h
        subst h2
        exact hpA
      · simp only [Option.bind_eq_some] at h
        obtain ⟨ro, hro, h⟩ := h
        cases ro with
        | none => exact Option.noConfusion h
        | some q =>
            obtain ⟨tid, sB⟩ := q
            simp only [Option.bind_eq_some] at h
            obtain ⟨sC, hC, h⟩ := h
            have hpB : ParityOK sB :=
              ParityOK_of_PT (pt_free_list_pop_large hro) hpA
            have hpC : ParityOK sC := ParityOK_of_PT
              (pt_setChunkL_keep (pop_large_spec hro).2.1
                (by simp [isBrokenC]) hC) hpB
            split at h
            · simp only [Option.bind_eq_some] at h
              obtain ⟨⟨ts, ip⟩, hst, sD, hD, sE, hE, h⟩ := h
              simp only [Option.some.injEq, Prod.mk.injEq] at h
              obtain ⟨h1, h2⟩ := h
              subst h2
              have hpD : ParityOK sD := ParityOK_of_PT
                (pt_setChunkL_keep (getChunkL_setChunkL_self hC)
                  (by simp [isBrokenC]) hD) hpC
              exact ParityOK_of_PT (pt_alloc_large_bodies _ _ _ _ _ hE) hpD
            · try simp only [Option.some_bind] at h
              simp only [Option.bind_eq_some] at h
              obtain ⟨sE, hE, h⟩ := h
              simp only [Option.some.injEq, Prod.mk.injEq] at h
              obtain ⟨h1, h2⟩ := h
              subst h2
              exact ParityOK_of_PT (pt_alloc_large_bodies _ _ _ _ _ hE) hpC
    · simp only [Option.bind_eq_bind, Option.bind_eq_some] at h
      obtain ⟨⟨got, sA⟩, hA, h⟩ := h
      have hpA : ParityOK sA := par_acquire_small _ _ _ _ _ hA hp
      split at h
      · simp only [Option.some.injEq, Prod.mk.injEq] at h
        obtain ⟨h1, h2⟩ := h
        subst h2
        exact hpA
      · simp only [Option.bind_eq_some] at h
        obtain ⟨ro, hro, h⟩ := h
        cases ro with
        | none => exact Option.noConfusion h
        | some q =>
            obtain ⟨⟨tl, ti⟩, sB⟩ := q
            simp only [Option.bind_eq_some] at h
            obtain ⟨sC, hC, h⟩ := h
            have hpB : ParityOK sB :=
              ParityOK_of_PT (pt_free_list_pop_small hro) hpA
            have hpC : ParityOK sC :=
              ParityOK_of_PT (pt_setChunkS hC) hpB
            split at h
            · simp only [Option.bind_eq_some] at h
              obtain ⟨⟨ts, ip⟩, hst, sD, hD, sE, hE, h⟩ := h
              simp only [Option.some.injEq, Prod.mk.injEq] at h
              obtain ⟨h1, h2⟩ := h
              subst h2
              have hpD : ParityOK sD :=
                ParityOK_of_PT (pt_setChunkS hD) hpC
              exact ParityOK_of_PT (pt_alloc_small_bodies _ _ _ _ _ hE) hpD
            · try simp only [Option.some_bind] at h
              simp only [Option.bind_eq_some] at h
              obtain ⟨sE, hE, h⟩ := h
              simp only [Option.some.injEq, Prod.mk.injEq] at h
              obtain ⟨h1, h2⟩ := h
              subst h2
              exact ParityOK_of_PT (pt_alloc_small_bodies _ _ _ _ _ hE) hpC

theorem par_flat_storage_init {P : Params} {maxb : Nat} {s : State}
    (h : flat_storage_init P maxb = some s) : ParityOK s := by
  unfold flat_storage_init at h
  split at h
  · exact Option.noConfusion h
  · simp only [Option.bind_eq_bind, Option.bind_eq_some] at h
    obtain ⟨⟨b, sA⟩, hA, h⟩ := h
    have hp0 : ParityOK
        { chunks := [],
          unused_chunks := maxb,
          large_free_list := [],
          small_free_list := [],
          lru_head := none,
          lru_tail := none,
          stats := Stats.zero P,
          gstats := GStats.zero,
          assoc := [] } := ⟨rfl, rfl⟩
    have hpA : ParityOK sA :=
      ParityOK_of_PT (pt_flat_storage_alloc hA) hp0
    split at h
    · exact Option.noConfusion h
    · simp only [Option.some.injEq] at h
      subst h
      exact hpA

/-- C3: in every state reachable from `flat_storage_init` by the
public operations (alloc, link, unlink, deref, update, replace, get,
flush_expired), `stats.break_events` equals
`stats.unbreak_events + stats.large_broken_chunks` — so the difference
`break_events - unbreak_events` is exactly `large_broken_chunks` — and
`stats.large_broken_chunks` is the census of currently broken large
chunks. -/
theorem C3_break_unbreak_parity {P : Params} {s : State}
    (h : Reachable P s) :
    s.stats.break_events =
      s.stats.unbreak_events + s.stats.large_broken_chunks ∧
    s.stats.large_broken_chunks = brokenCount s := by
  induction h with
  | init maxb s0 h0 => exact par_flat_storage_init h0
  | alloc env key nkey flags exptime nbytes s0 r s2 hr h0 ih =>
      exact par_do_item_alloc h0 ih
  | link env s0 it key s2 hr h0 ih =>
      exact ParityOK_of_PT (pt_do_item_link h0) ih
  | unlink env s0 it uflags keyArg s2 hr h0 ih =>
      exact par_do_item_unlink h0 ih
  | deref s0 it s2 hr h0 ih => exact par_do_item_deref h0 ih
  | update env s0 it s2 hr h0 ih =>
      exact ParityOK_of_PT (pt_do_item_update h0) ih
  | replace env s0 it it2 key s2 hr h0 ih =>
      exact par_do_item_replace h0 ih
  | get env s0 key r s2 b hr h0 ih =>
      exact par_do_item_get_notedeleted h0 ih
  | flush env s0 s2 hr h0 ih => exact par_do_item_flush_expired h0 ih

/-- Witness for C3: the parity invariant evaluated in the concrete
reachable state `S1w` (one `do_item_alloc` after `flat_storage_init`,
which breaks a large chunk: one break event, zero unbreaks, one broken
chunk). -/
theorem C3_witness :
    S1w.stats.break_events =
      S1w.stats.unbreak_events + S1w.stats.large_broken_chunks ∧
    S1w.stats.large_broken_chunks = brokenCount S1w :=
  C3_break_unbreak_parity (P := Pw)
    (Reachable.alloc Ew [7] 1 0 0 2 S0w (some IT1) S1w
      (Reachable.init 4 S0w (by decide)) (by decide))

end FlatStorage
